import Mathlib

/-!
Verification development for the C/C++ execution-trace engine of the
Code_Visualizer repository (backend/services/lldbService.js).

The engine is a line-oriented symbolic interpreter written in JavaScript.
This file gives a shallow embedding of its data model and operations:
JavaScript `Map`s become association lists preserving insertion order,
JS objects become structures, and JS numbers are modelled in their integer
fragment (`Int`, with `none : Option Int` playing the role of `NaN`).
Fractional number literals are outside the integer model and are mapped to
their integer part where the source would produce a float; no theorem in
this file depends on such inputs.  All regular expressions of the source
are implemented as explicit character-list matchers with the same
backtracking behaviour on the relevant character classes.
-/

namespace CodeViz

/-- The JavaScript values the engine stores: numbers (integer fragment),
strings, booleans, arrays, `undefined` (array holes, absent reads) and
`NaN`.  Heap ids, `"nullptr"` and char literals are strings in the source,
hence `str` covers them. -/
inductive Value where
  | int (n : Int)
  | str (s : String)
  | bool (b : Bool)
  | arr (elems : List Value)
  | undef
  | nan
deriving Repr

mutual

def valueBEq : Value → Value → Bool
  | .int a, .int b => a = b
  | .str a, .str b => a = b
  | .bool a, .bool b => a = b
  | .arr a, .arr b => valueListBEq a b
  | .undef, .undef => true
  | .nan, .nan => true
  | _, _ => false

def valueListBEq : List Value → List Value → Bool
  | [], [] => true
  | a :: as, b :: bs => valueBEq a b && valueListBEq as bs
  | _, _ => false

end

mutual

def valueBEq_iff : ∀ (a b : Value), valueBEq a b = true ↔ a = b
  | .int x, b => by cases b <;> simp [valueBEq]
  | .str x, b => by cases b <;> simp [valueBEq]
  | .bool x, b => by cases b <;> simp [valueBEq]
  | .undef, b => by cases b <;> simp [valueBEq]
  | .nan, b => by cases b <;> simp [valueBEq]
  | .arr xs, b => by
      cases b with
      | int y => simp [valueBEq]
      | str s => simp [valueBEq]
      | bool v => simp [valueBEq]
      | undef => simp [valueBEq]
      | nan => simp [valueBEq]
      | arr ys => simpa [valueBEq] using valueListBEq_iff xs ys

def valueListBEq_iff : ∀ (a b : List Value), valueListBEq a b = true ↔ a = b
  | [], b => by cases b <;> simp [valueListBEq]
  | x :: xs, b => by
      cases b with
      | nil => simp [valueListBEq]
      | cons y ys =>
          simp only [valueListBEq, Bool.and_eq_true, List.cons.injEq]
          rw [valueBEq_iff x y, valueListBEq_iff xs ys]

end

instance : DecidableEq Value := fun a b => decidable_of_iff _ (valueBEq_iff a b)

/-- JS number in the integer fragment; `none` models `NaN`. -/
abbrev JSNum := Option Int

mutual

/-- JavaScript `String(v)` / template-literal interpolation of a value. -/
def valueToString : Value → String
  | .int n => toString n
  | .str s => s
  | .bool b => if b then "true" else "false"
  | .arr vs => valueListToString vs
  | .undef => "undefined"
  | .nan => "NaN"

/-- JS array-to-string (`Array.prototype.join`): elements joined by
commas, an `undefined` element rendering as the empty string. -/
def valueListToString : List Value → String
  | [] => ""
  | [.undef] => ""
  | [v] => valueToString v
  | .undef :: rest => "," ++ valueListToString rest
  | v :: rest => valueToString v ++ "," ++ valueListToString rest

end

/-- Whitespace as recognised by JS `trim` / `\s` (ASCII fragment). -/
def isWsChar (c : Char) : Bool := c = ' ' || c = '\t' || c = '\n' || c = '\r'

/-- `\w` character class: letters, digits, underscore. -/
def isWordChar (c : Char) : Bool := c.isAlpha || c.isDigit || c = '_'

def skipWs (cs : List Char) : List Char := cs.dropWhile isWsChar

/-- JS `String.prototype.trim`. -/
def jsTrim (s : String) : String :=
  String.mk ((s.data.dropWhile isWsChar).reverse.dropWhile isWsChar).reverse

/-- Digits of a decimal literal to a natural number. -/
def natOfDigits (cs : List Char) : Nat :=
  cs.foldl (fun acc c => acc * 10 + (c.toNat - '0'.toNat)) 0

def isAllDigits (s : String) : Bool :=
  s ≠ "" && s.data.all Char.isDigit

/-- JS `Number(string)` on the integer fragment: empty/whitespace is 0, an
optionally signed run of digits is its value, everything else is NaN. -/
def strToNumber (s : String) : Option Int :=
  let t := jsTrim s
  if t = "" then some 0
  else match t.data with
    | '-' :: ds => if ds ≠ [] && ds.all Char.isDigit then some (-(natOfDigits ds : Int)) else none
    | '+' :: ds => if ds ≠ [] && ds.all Char.isDigit then some ((natOfDigits ds : Int)) else none
    | ds => if ds.all Char.isDigit then some ((natOfDigits ds : Int)) else none

/-- JS `ToNumber` coercion of a value (integer fragment).  Arrays coerce
through their string representation, as in JS. -/
def jsToNumber : Value → Option Int
  | .int n => some n
  | .bool b => some (if b then 1 else 0)
  | .str s => strToNumber s
  | .arr vs => strToNumber (valueListToString vs)
  | .undef => none
  | .nan => none

/-- JS truthiness. -/
def jsTruthy : Value → Bool
  | .int n => n ≠ 0
  | .str s => s ≠ ""
  | .bool b => b
  | .arr _ => true
  | .undef => false
  | .nan => false

def isStringy : Value → Bool
  | .str _ => true
  | .arr _ => true
  | _ => false

/-- JS `+`: string concatenation when either operand is string-like,
numeric addition (NaN-propagating) otherwise. -/
def jsAdd (a b : Value) : Value :=
  if isStringy a || isStringy b then .str (valueToString a ++ valueToString b)
  else match jsToNumber a, jsToNumber b with
    | some x, some y => .int (x + y)
    | _, _ => .nan

/-- JS `-` on values. -/
def jsSubV (a b : Value) : Value :=
  match jsToNumber a, jsToNumber b with
  | some x, some y => .int (x - y)
  | _, _ => .nan

/-- JS `*` on values. -/
def jsMulV (a b : Value) : Value :=
  match jsToNumber a, jsToNumber b with
  | some x, some y => .int (x * y)
  | _, _ => .nan

/-- JS `-` on values, landing in the number model (used for loop bounds). -/
def jsSubNum (a b : Value) : JSNum :=
  match jsToNumber a, jsToNumber b with
  | some x, some y => some (x - y)
  | _, _ => none

/-- JS strict equality `===` on the engine's values.  Arrays compare by
reference in JS; this pure embedding has no reference identity, so array
pairs compare `false` — an under-approximation that is exact for
distinct non-aliased arrays but not for a comparison whose two sides
evaluate to the same live array (such as `arr == arr`). -/
def jsStrictEq : Value → Value → Bool
  | .int a, .int b => a = b
  | .str a, .str b => a = b
  | .bool a, .bool b => a = b
  | .undef, .undef => true
  | _, _ => false

/-- JS `<` relational comparison: lexicographic for two strings, numeric
(false on NaN) otherwise. -/
def jsLt (a b : Value) : Bool :=
  match a, b with
  | .str x, .str y => decide (x < y)
  | _, _ => match jsToNumber a, jsToNumber b with
    | some x, some y => decide (x < y)
    | _, _ => false

def jsLe (a b : Value) : Bool :=
  match a, b with
  | .str x, .str y => decide (x ≤ y)
  | _, _ => match jsToNumber a, jsToNumber b with
    | some x, some y => decide (x ≤ y)
    | _, _ => false

def jsGt (a b : Value) : Bool := jsLt b a

def jsGe (a b : Value) : Bool := jsLe b a

/-- Does `pat` occur literally at the head of `cs`? -/
def matchesAt : List Char → List Char → Bool
  | [], _ => true
  | _ :: _, [] => false
  | a :: as, b :: bs => a = b && matchesAt as bs

/-- Does `needle` occur anywhere in the character list? -/
def isSubCs (needle : List Char) : List Char → Bool
  | [] => matchesAt needle []
  | c :: cs => matchesAt needle (c :: cs) || isSubCs needle cs

/-- `String.prototype.startsWith`. -/
def strStarts (s pre : String) : Bool := matchesAt pre.data s.data

/-- JS `String.prototype.split` with a nonempty separator: leftmost
non-overlapping occurrences, keeping empty segments.  Fuelled (each step
consumes at least one character). -/
def splitOnGo (sep : List Char) : Nat → List Char → List Char → List (List Char)
  | 0, accRev, cs => [accRev.reverse ++ cs]
  | _ + 1, accRev, [] => [accRev.reverse]
  | fuel + 1, accRev, c :: cs =>
      if matchesAt sep (c :: cs) then
        accRev.reverse :: splitOnGo sep fuel [] (List.drop sep.length (c :: cs))
      else splitOnGo sep fuel (c :: accRev) cs

def jsSplit (s sep : String) : List String :=
  (splitOnGo sep.data (s.data.length + 1) [] s.data).map String.mk

/-- Substring test, JS `String.prototype.includes`. -/
def containsSub (s sub : String) : Bool := isSubCs sub.data s.data

/-- JS arithmetic on the token-level numbers (NaN-propagating). -/
def jsNumAdd : JSNum → JSNum → JSNum
  | some a, some b => some (a + b)
  | _, _ => none

def jsNumSub : JSNum → JSNum → JSNum
  | some a, some b => some (a - b)
  | _, _ => none

def jsNumMul : JSNum → JSNum → JSNum
  | some a, some b => some (a * b)
  | _, _ => none

def jsNumNeg : JSNum → JSNum
  | some a => some (-a)
  | none => none

/-- `left = right !== 0 ? Math.floor(left / right) : 0` from parseMulDiv:
a zero divisor short-circuits to 0, otherwise floor division
(`Int.fdiv` is `Math.floor` of the real quotient), NaN propagates. -/
def jsNumDivFloor (l r : JSNum) : JSNum :=
  match r with
  | some 0 => some 0
  | some rv => match l with
    | some lv => some (Int.fdiv lv rv)
    | none => none
  | none => none

/-- `left = right !== 0 ? left % right : 0` from parseMulDiv: zero divisor
yields 0, otherwise JS truncated remainder (`Int.tmod`), NaN propagates. -/
def jsNumMod (l r : JSNum) : JSNum :=
  match r with
  | some 0 => some 0
  | some rv => match l with
    | some lv => some (Int.tmod lv rv)
    | none => none
  | none => none

def jsNumToValue : JSNum → Value
  | some n => .int n
  | none => .nan

/-! ### Character-level matchers for the source's regular expressions -/

/-- Consume a literal pattern. -/
def dropLit : List Char → List Char → Option (List Char)
  | [], cs => some cs
  | _ :: _, [] => none
  | p :: ps, c :: cs => if c = p then dropLit ps cs else none

def expectChar (c : Char) : List Char → Option (List Char)
  | x :: xs => if x = c then some xs else none
  | [] => none

/-- `\s+`: at least one whitespace character, consumed maximally. -/
def requireWs : List Char → Option (List Char)
  | x :: xs => if isWsChar x then some (skipWs xs) else none
  | [] => none

/-- `(\w+)`: a maximal nonempty run of word characters. -/
def takeWord1 (cs : List Char) : Option (String × List Char) :=
  let w := cs.takeWhile isWordChar
  if w.isEmpty then none else some (String.mk w, cs.dropWhile isWordChar)

/-- `(\d+)`: a maximal nonempty run of digits. -/
def takeDigits1 (cs : List Char) : Option (String × List Char) :=
  let w := cs.takeWhile Char.isDigit
  if w.isEmpty then none else some (String.mk w, cs.dropWhile Char.isDigit)

/-- `(\d*)`: a possibly empty run of digits. -/
def takeDigits0 (cs : List Char) : List Char :=
  cs.dropWhile Char.isDigit

/-- `([^;]+)`: a maximal nonempty run of non-semicolon characters. -/
def takeNonSemi1 (cs : List Char) : Option (String × List Char) :=
  let w := cs.takeWhile (fun c => c ≠ ';')
  if w.isEmpty then none else some (String.mk w, cs.dropWhile (fun c => c ≠ ';'))

/-- Unanchored search: try the matcher at every start position, leftmost
match wins (the behaviour of a JS regex without `^`). -/
def searchMatch {α : Type} (f : List Char → Option α) : List Char → Option α
  | [] => f []
  | c :: cs => match f (c :: cs) with
    | some r => some r
    | none => searchMatch f cs

/-- `;?$`: end of input after an optional single semicolon. -/
def endsOk : List Char → Bool
  | [] => true
  | [';'] => true
  | _ => false

/-- First keyword of the alternation that is a literal prefix (the
keywords are pairwise non-prefixes, so this is regex alternation order). -/
def matchKeyword : List String → List Char → Option (String × List Char)
  | [], _ => none
  | k :: ks, cs => match dropLit k.data cs with
    | some rest => some (k, rest)
    | none => matchKeyword ks cs

/-- `^\s*(int|float|double|char|bool|long|short)\s+(\w+)\s*=\s*([^;]+)`
(the primitive-declaration pattern of `parseLine`). -/
def matchPrimitive (line : String) : Option (String × String × String) := do
  let cs := skipWs line.data
  let (ty, cs) ← matchKeyword ["int", "float", "double", "char", "bool", "long", "short"] cs
  let cs ← requireWs cs
  let (name, cs) ← takeWord1 cs
  let cs ← expectChar '=' (skipWs cs)
  let (v, _) ← takeNonSemi1 (skipWs cs)
  some (ty, name, v)

/-- `^\s*(int|float|double|char)\s+(\w+)\s*\[\s*(\d*)\s*\]\s*=\s*\{([^}]+)\}`
(the array-declaration pattern; the declared size digits are consumed but
ignored, as in the source). -/
def matchArrayDecl (line : String) : Option (String × String × String) := do
  let cs := skipWs line.data
  let (ty, cs) ← matchKeyword ["int", "float", "double", "char"] cs
  let cs ← requireWs cs
  let (name, cs) ← takeWord1 cs
  let cs ← expectChar '[' (skipWs cs)
  let cs := takeDigits0 (skipWs cs)
  let cs ← expectChar ']' (skipWs cs)
  let cs ← expectChar '=' (skipWs cs)
  let cs ← expectChar '\x7b' (skipWs cs)
  let w := cs.takeWhile (fun c => c ≠ '\x7d')
  if w.isEmpty then none else do
  let _ ← expectChar '\x7d' (cs.dropWhile (fun c => c ≠ '\x7d'))
  some (ty, name, String.mk w)

/-- `^\s*(\w+)\s*\[\s*(\d+)\s*\]\s*=\s*([^;]+)` (array element write). -/
def matchArrayMod (line : String) : Option (String × Nat × String) := do
  let cs := skipWs line.data
  let (name, cs) ← takeWord1 cs
  let cs ← expectChar '[' (skipWs cs)
  let (ds, cs) ← takeDigits1 (skipWs cs)
  let cs ← expectChar ']' (skipWs cs)
  let cs ← expectChar '=' (skipWs cs)
  let (v, _) ← takeNonSemi1 (skipWs cs)
  some (name, natOfDigits ds.data, v)

/-- Right-hand sides recognised by the pointer-declaration pattern
`(new\s+(\w+)|nullptr|NULL|&(\w+))`. -/
inductive PtrRhs where
  | newT (t : String)
  | addr (v : String)
  | nullp
deriving Repr, DecidableEq

/-- `^\s*(\w+)\s*\*\s*(\w+)\s*=\s*(new\s+(\w+)|nullptr|NULL|&(\w+))`. -/
def matchPointerDecl (line : String) : Option (String × String × PtrRhs) := do
  let cs := skipWs line.data
  let (ty, cs) ← takeWord1 cs
  let cs ← expectChar '*' (skipWs cs)
  let (name, cs) ← takeWord1 (skipWs cs)
  let cs ← expectChar '=' (skipWs cs)
  let cs := skipWs cs
  match (do let r ← dropLit "new".data cs
            let r ← requireWs r
            let (t, _) ← takeWord1 r
            some t : Option String) with
  | some t => some (ty, name, .newT t)
  | none =>
    match dropLit "nullptr".data cs with
    | some _ => some (ty, name, .nullp)
    | none =>
      match dropLit "NULL".data cs with
      | some _ => some (ty, name, .nullp)
      | none => do
        let r ← expectChar '&' cs
        let (v, _) ← takeWord1 r
        some (ty, name, .addr v)

/-- The source then tests `valueExpr.includes("new")` on the matched text;
for an `&var` right-hand side this is a containment test on the variable
name, for the `new` alternative it is always true. -/
def ptrRhsHasNew : PtrRhs → Bool
  | .newT _ => true
  | .addr v => containsSub v "new"
  | .nullp => false

/-- `^\s*(\w+)->(\w+)\s*=\s*([^;]+)` (struct member assignment). -/
def matchMemberAssign (line : String) : Option (String × String × String) := do
  let cs := skipWs line.data
  let (p, cs) ← takeWord1 cs
  let cs ← dropLit "->".data cs
  let (f, cs) ← takeWord1 cs
  let cs ← expectChar '=' (skipWs cs)
  let (v, _) ← takeNonSemi1 (skipWs cs)
  some (p, f, v)

/-- `^\s*(\w+)\s*=\s*(\w+)->(\w+)\s*;?` (pointer reassignment; the
pattern is not end-anchored, trailing text is ignored as in the source). -/
def matchPtrReassign (line : String) : Option (String × String × String) := do
  let cs := skipWs line.data
  let (target, cs) ← takeWord1 cs
  let cs ← expectChar '=' (skipWs cs)
  let (src, cs) ← takeWord1 (skipWs cs)
  let cs ← dropLit "->".data cs
  let (f, _) ← takeWord1 cs
  some (target, src, f)

/-- `^\s*(\w+)\s*=\s*([^;]+);?$` (plain variable reassignment). -/
def matchReassign (line : String) : Option (String × String) := do
  let cs := skipWs line.data
  let (name, cs) ← takeWord1 cs
  let cs ← expectChar '=' (skipWs cs)
  let (v, rest) ← takeNonSemi1 (skipWs cs)
  if endsOk rest then some (name, v) else none

/-- `\+\+` or `--`, with no consumption on failure. -/
def tryIncrOp (cs : List Char) : Option String × List Char :=
  match dropLit "++".data cs with
  | some r => (some "++", r)
  | none => match dropLit "--".data cs with
    | some r => (some "--", r)
    | none => (none, cs)

/-- `^\s*(\+\+|--)?(\w+)(\+\+|--)?\s*;?$` (increment/decrement). -/
def matchIncrDecr (line : String) : Option (Option String × String × Option String) := do
  let cs := skipWs line.data
  let (pre, cs) := tryIncrOp cs
  let (name, cs) ← takeWord1 cs
  let (suf, cs) := tryIncrOp cs
  if endsOk (skipWs cs) then some (pre, name, suf) else none

/-- `^\s*(\w+)\s*([+\-*/])=\s*([^;]+);?$` (compound assignment). -/
def matchCompound (line : String) : Option (String × Char × String) := do
  let cs := skipWs line.data
  let (name, cs) ← takeWord1 cs
  let cs := skipWs cs
  match cs with
  | op :: cs =>
    if op = '+' || op = '-' || op = '*' || op = '/' then do
      let cs ← expectChar '=' cs
      let (v, rest) ← takeNonSemi1 (skipWs cs)
      if endsOk rest then some (name, op, v) else none
    else none
  | [] => none

/-- One attempt of
`swap\s*\(\s*(\w+)\s*\[\s*(\d+)\s*\]\s*,\s*(\w+)\s*\[\s*(\d+)\s*\]\s*\)`
at a fixed position (searched unanchored by the caller). -/
def matchSwapAt (cs : List Char) : Option (String × Nat × String × Nat) := do
  let cs ← dropLit "swap".data cs
  let cs ← expectChar '(' (skipWs cs)
  let (a1, cs) ← takeWord1 (skipWs cs)
  let cs ← expectChar '[' (skipWs cs)
  let (i1, cs) ← takeDigits1 (skipWs cs)
  let cs ← expectChar ']' (skipWs cs)
  let cs ← expectChar ',' (skipWs cs)
  let (a2, cs) ← takeWord1 (skipWs cs)
  let cs ← expectChar '[' (skipWs cs)
  let (i2, cs) ← takeDigits1 (skipWs cs)
  let cs ← expectChar ']' (skipWs cs)
  let _ ← expectChar ')' (skipWs cs)
  some (a1, natOfDigits i1.data, a2, natOfDigits i2.data)

/-! ### Loop / branch headers -/

/-- The capture groups of the `for`-header regex of `identifyLoops`. -/
structure ForHeader where
  varName : String
  startStr : String
  opStr : String
  endStr : String
  inc : String
deriving Repr, DecidableEq

/-- The increment alternation `(\+\+|--|\+=\d+|-=\d+)`. -/
def matchInc (cs : List Char) : Option String :=
  match dropLit "++".data cs with
  | some _ => some "++"
  | none => match dropLit "--".data cs with
    | some _ => some "--"
    | none => match dropLit "+=".data cs with
      | some r => (takeDigits1 r).map (fun p => "+=" ++ p.1)
      | none => match dropLit "-=".data cs with
        | some r => (takeDigits1 r).map (fun p => "-=" ++ p.1)
        | none => none

def isCmpOpChar (c : Char) : Bool := c = '<' || c = '>' || c = '=' || c = '!'

/-- The part of the `for` header after the optional `int` keyword:
`(\w+)\s*=\s*(\w+|\d+)\s*;\s*\w+\s*([<>=!]+)\s*(\w+|\d+)\s*;\s*\w+(\+\+|--|\+=\d+|-=\d+)`. -/
def matchForRest (cs : List Char) : Option ForHeader := do
  let (varName, cs) ← takeWord1 cs
  let cs ← expectChar '=' (skipWs cs)
  let (startStr, cs) ← takeWord1 (skipWs cs)
  let cs ← expectChar ';' (skipWs cs)
  let (_, cs) ← takeWord1 (skipWs cs)
  let cs := skipWs cs
  let ops := cs.takeWhile isCmpOpChar
  if ops.isEmpty then none else do
  let cs := cs.dropWhile isCmpOpChar
  let (endStr, cs) ← takeWord1 (skipWs cs)
  let cs ← expectChar ';' (skipWs cs)
  let (_, cs) ← takeWord1 (skipWs cs)
  let inc ← matchInc cs
  some { varName, startStr, opStr := String.mk ops, endStr, inc }

/-- One attempt of the `for`-header regex at a fixed position, with the
backtracking of `(?:int\s+)?`. -/
def matchForAt (cs : List Char) : Option ForHeader := do
  let cs ← dropLit "for".data cs
  let cs ← expectChar '(' (skipWs cs)
  let cs := skipWs cs
  match (do let r ← dropLit "int".data cs
            let r ← requireWs r
            matchForRest r) with
  | some fh => some fh
  | none => matchForRest cs

/-- Greedy `(.+)\)` with no end anchor: the content up to the last `)`
having at least one character before it (used by `while\s*\((.+)\)`). -/
def whileGroupGo (best : Option (List Char)) (accRev : List Char) : List Char → Option (List Char)
  | [] => best
  | c :: cs =>
      let best' := if c = ')' ∧ accRev ≠ [] then some accRev.reverse else best
      whileGroupGo best' (c :: accRev) cs

/-- One attempt of `while\s*\((.+)\)` at a fixed position. -/
def matchWhileAt (cs : List Char) : Option String := do
  let cs ← dropLit "while".data cs
  let cs ← expectChar '(' (skipWs cs)
  (whileGroupGo none [] cs).map String.mk

/-- `\)\s*\{?$`: what must follow the closing parenthesis in an `if`
header. -/
def suffixOkIf (cs : List Char) : Bool :=
  match skipWs cs with
  | [] => true
  | ['\x7b'] => true
  | _ => false

/-- Greedy `(.+)\)\s*\{?$`: the content up to the rightmost `)` whose
suffix is whitespace plus an optional opening brace. -/
def ifGroupGo (best : Option (List Char)) (accRev : List Char) : List Char → Option (List Char)
  | [] => best
  | c :: cs =>
      let best' := if c = ')' ∧ accRev ≠ [] ∧ suffixOkIf cs then some accRev.reverse else best
      ifGroupGo best' (c :: accRev) cs

/-- `^if\s*\((.+)\)\s*\{?$` (the `if` recogniser of `simulateLoop`). -/
def matchIfHeader (s : String) : Option String := do
  let cs ← dropLit "if".data s.data
  let cs ← expectChar '(' (skipWs cs)
  (ifGroupGo none [] cs).map String.mk

/-! ### Condition matchers of `evaluateCondition` -/

/-- Lazy `(.+?)` followed by a tail matcher: the shortest nonempty left
part whose remainder the tail accepts (JS lazy-group backtracking). -/
def lazySplitGo {α : Type} (tail : List Char → Option α) (accRev : List Char) :
    List Char → Option (List Char × α)
  | [] => none
  | c :: cs =>
      let accRev' := c :: accRev
      match tail cs with
      | some r => some (accRev'.reverse, r)
      | none => lazySplitGo tail accRev' cs

/-- `\s*%\s*(\d+)\s*OP\s*(\d+)$` for `OP ∈ {==, !=}`. -/
def matchModTail (opLit : String) (cs : List Char) : Option (Nat × Nat) := do
  let cs ← expectChar '%' (skipWs cs)
  let (d, cs) ← takeDigits1 (skipWs cs)
  let cs ← dropLit opLit.data (skipWs cs)
  let (r, cs) ← takeDigits1 (skipWs cs)
  if cs.isEmpty then some (natOfDigits d.data, natOfDigits r.data) else none

/-- `^(.+?)\s*%\s*(\d+)\s*==\s*(\d+)$` (and the `!=` variant). -/
def matchModCmp (opLit : String) (s : String) : Option (String × Nat × Nat) :=
  (lazySplitGo (matchModTail opLit) [] s.data).map
    (fun p => (String.mk p.1, p.2.1, p.2.2))

/-- `\s*(.+)$`: greedy whitespace that backtracks just enough to leave the
final group nonempty. -/
def afterWsGroup (cs : List Char) : Option String :=
  if cs.isEmpty then none
  else
    let ws := (cs.takeWhile isWsChar).length
    if ws = cs.length then some (String.mk (cs.drop (cs.length - 1)))
    else some (String.mk (cs.drop ws))

/-- `\s*OP\s*(.+)$` for a comparison operator `OP`. -/
def matchCmpTail (opLit : String) (cs : List Char) : Option String := do
  let cs ← dropLit opLit.data (skipWs cs)
  afterWsGroup cs

/-- `^(.+?)\s*OP\s*(.+)$` for a comparison operator `OP`. -/
def matchCmp (opLit : String) (s : String) : Option (String × String) :=
  (lazySplitGo (matchCmpTail opLit) [] s.data).map
    (fun p => (String.mk p.1, p.2))

/-! ### Data model: variables, heap objects, maps -/

/-- A variable record as built by `parseLine` (`{id, name, type, value,
visualType, pointsTo?}`).  An absent or `null` JS `pointsTo` is `none`. -/
structure Variable where
  id : String
  name : String
  type : String
  value : Value
  visualType : String
  pointsTo : Option Value := none
deriving Repr, DecidableEq

/-- A field of a heap object. -/
structure HField where
  name : String
  value : Value
  visualType : String
deriving Repr, DecidableEq

/-- A heap object created by `new T()`. -/
structure HeapObj where
  id : String
  type : String
  address : String
  fields : List HField
deriving Repr, DecidableEq

/-- A JS `Map` keyed by strings, as an insertion-ordered association
list. -/
abbrev VarMap := List (String × Variable)

abbrev Heap := List (String × HeapObj)

/-- JS `Map.prototype.get` on a string-keyed map: first binding wins
(keys are unique by construction). -/
def alookup {α : Type} (k : String) : List (String × α) → Option α
  | [] => none
  | (k', v) :: rest => if k = k' then some v else alookup k rest

/-- JS `Map.prototype.set`: update in place (keeping the insertion
position) when the key exists, append otherwise. -/
def mapSet {α : Type} (m : List (String × α)) (k : String) (v : α) : List (String × α) :=
  if (alookup k m).isSome then
    m.map (fun p => if p.1 = k then (k, v) else p)
  else m ++ [(k, v)]

/-- `Array.from(map.values())`: the values in insertion order. -/
def mapValues {α : Type} (m : List (String × α)) : List α := m.map (·.2)

/-- `heap.get(key)` where the key is a stored `pointsTo` value: only a
string key can hit an entry of the string-keyed map. -/
def heapGetV (heap : Heap) : Value → Option HeapObj
  | .str s => alookup s heap
  | _ => none

/-- `fields.find(f => f.name === name)`. -/
def findField (fields : List HField) (n : String) : Option HField :=
  fields.find? (fun f => f.name = n)

/-- Mutating the object returned by `fields.find`: replace the first
field with the given name. -/
def updateFirstField : List HField → String → Value → List HField
  | [], _, _ => []
  | f :: fs, n, v =>
      if f.name = n then { f with value := v } :: fs
      else f :: updateFirstField fs n v

/-! ### Tokenizer and recursive-descent arithmetic -/

inductive Token where
  | num (n : Int)
  | id (s : String)
  | op (c : Char)
deriving Repr, DecidableEq

def isOpChar (c : Char) : Bool :=
  c = '+' || c = '-' || c = '*' || c = '/' || c = '%' || c = '(' || c = ')'

/-- Value of a number token: the tokenizer collects a run of digits and
dots and applies `parseFloat`; in the integer model this is the digits
before the first dot (the integer part of the nonnegative literal). -/
def numTokenVal (cs : List Char) : Int :=
  (natOfDigits (cs.takeWhile Char.isDigit) : Int)

def isNumRunChar (c : Char) : Bool := c.isDigit || c = '.'

/-- The tokenizer of `evaluateArithmetic`: operators, digit/dot runs,
word runs; other characters are skipped.  Fuelled for structural
termination; every step consumes at least one character, so fuel equal to
the input length is exact. -/
def tokenizeGo : Nat → List Char → List Token
  | 0, _ => []
  | _ + 1, [] => []
  | fuel + 1, c :: cs =>
    if isWsChar c then tokenizeGo fuel cs
    else if isOpChar c then .op c :: tokenizeGo fuel cs
    else if c.isDigit then
      .num (numTokenVal (c :: cs.takeWhile isNumRunChar)) ::
        tokenizeGo fuel (cs.dropWhile isNumRunChar)
    else if c.isAlpha || c = '_' then
      .id (String.mk (c :: cs.takeWhile isWordChar)) ::
        tokenizeGo fuel (cs.dropWhile isWordChar)
    else tokenizeGo fuel cs

def tokenize (cs : List Char) : List Token := tokenizeGo cs.length cs

mutual

/-- `parseAddSub` (lowest precedence); the token list is consumed
left-to-right, threaded explicitly in place of the mutated JS array.
The fuel argument only enforces termination; callers supply more than the
recursion can consume. -/
def parseAddSub : Nat → List Token → VarMap → JSNum × List Token
  | 0, ts, _ => (some 0, ts)
  | fuel + 1, ts, vars =>
    let r := parseMulDiv fuel ts vars
    addSubLoop fuel r.1 r.2 vars

/-- The `while (+|-)` loop of `parseAddSub`. -/
def addSubLoop : Nat → JSNum → List Token → VarMap → JSNum × List Token
  | 0, left, ts, _ => (left, ts)
  | fuel + 1, left, ts, vars =>
    match ts with
    | .op '+' :: rest =>
        let r := parseMulDiv fuel rest vars
        addSubLoop fuel (jsNumAdd left r.1) r.2 vars
    | .op '-' :: rest =>
        let r := parseMulDiv fuel rest vars
        addSubLoop fuel (jsNumSub left r.1) r.2 vars
    | _ => (left, ts)

/-- `parseMulDiv` (higher precedence). -/
def parseMulDiv : Nat → List Token → VarMap → JSNum × List Token
  | 0, ts, _ => (some 0, ts)
  | fuel + 1, ts, vars =>
    let r := parsePrimary fuel ts vars
    mulDivLoop fuel r.1 r.2 vars

/-- The `while (*|/|%)` loop of `parseMulDiv`, with the zero-divisor
guards of the source. -/
def mulDivLoop : Nat → JSNum → List Token → VarMap → JSNum × List Token
  | 0, left, ts, _ => (left, ts)
  | fuel + 1, left, ts, vars =>
    match ts with
    | .op '*' :: rest =>
        let r := parsePrimary fuel rest vars
        mulDivLoop fuel (jsNumMul left r.1) r.2 vars
    | .op '/' :: rest =>
        let r := parsePrimary fuel rest vars
        mulDivLoop fuel (jsNumDivFloor left r.1) r.2 vars
    | .op '%' :: rest =>
        let r := parsePrimary fuel rest vars
        mulDivLoop fuel (jsNumMod left r.1) r.2 vars
    | _ => (left, ts)

/-- `parsePrimary`: signs, parentheses, numbers, identifiers; anything
else consumes the token and yields 0.  An identifier whose variable holds
a non-number yields 0; a missing variable yields 0 (NaN-valued variables
stay NaN, `typeof NaN === "number"`). -/
def parsePrimary : Nat → List Token → VarMap → JSNum × List Token
  | 0, ts, _ => (some 0, ts)
  | _ + 1, [], _ => (some 0, [])
  | fuel + 1, t :: rest, vars =>
    match t with
    | .op '-' =>
        let r := parsePrimary fuel rest vars
        (jsNumNeg r.1, r.2)
    | .op '+' => parsePrimary fuel rest vars
    | .op '(' =>
        let r := parseAddSub fuel rest vars
        (match r.2 with
         | .op ')' :: ts2 => (r.1, ts2)
         | _ => (r.1, r.2))
    | .num n => (some n, rest)
    | .id name =>
        (match alookup name vars with
         | some vr =>
             (match vr.value with
              | .int n => (some n, rest)
              | .nan => (none, rest)
              | _ => (some 0, rest))
         | none => (some 0, rest))
    | .op _ => (some 0, rest)

end

/-- `evaluateArithmetic`: `null` (here `none`) exactly when there are no
tokens; the JS recursion cannot throw, and the fuel passed is beyond what
the recursion can consume. -/
def evaluateArithmetic (expr : String) (vars : VarMap) : Option JSNum :=
  let ts := tokenize expr.data
  if ts.isEmpty then none
  else some (parseAddSub (10 * ts.length + 10) ts vars).1

/-! ### Literal and special-form matchers of `evaluateExpression` -/

def matchUIntLit (cs : List Char) : Option Int := do
  let (ds, cs) ← takeDigits1 cs
  match cs with
  | [] => some ((natOfDigits ds.data : Int))
  | '.' :: cs2 => do
      let (_, cs3) ← takeDigits1 cs2
      -- integer model: the fractional digits of a float literal are dropped
      if cs3.isEmpty then some ((natOfDigits ds.data : Int)) else none
  | _ => none

/-- `^-?\d+(\.\d+)?$` with `parseFloat`, integer fragment. -/
def matchIntLit (s : String) : Option Int :=
  match s.data with
  | '-' :: rest => (matchUIntLit rest).map (fun n => -n)
  | cs => matchUIntLit cs

def isHexDigitChar (c : Char) : Bool :=
  c.isDigit || ('a' ≤ c ∧ c ≤ 'f') || ('A' ≤ c ∧ c ≤ 'F')

def hexVal (c : Char) : Nat :=
  if c.isDigit then c.toNat - '0'.toNat
  else if 'a' ≤ c ∧ c ≤ 'f' then c.toNat - 'a'.toNat + 10
  else c.toNat - 'A'.toNat + 10

/-- `^0x[0-9a-fA-F]+$` with `parseInt(expr, 16)`. -/
def matchHexLit (s : String) : Option Int := do
  let cs ← dropLit "0x".data s.data
  if cs ≠ [] ∧ cs.all isHexDigitChar then
    some ((cs.foldl (fun a c => a * 16 + hexVal c) 0 : Nat) : Int)
  else none

/-- `^'(.)'$` (a char literal; `.` does not match line terminators). -/
def matchCharLit (s : String) : Option Char :=
  match s.data with
  | ['\'', c, '\''] => if c = '\n' ∨ c = '\r' then none else some c
  | _ => none

/-- `startsWith('"') && endsWith('"')` as in the source (no length
check, so the one-character string `"` also passes). -/
def strLitCheck (cs : List Char) : Bool :=
  cs.head? = some '"' ∧ cs.getLast? = some '"'

/-- `sizeof\s*\(\s*(\w+)\s*\)\s*\/\s*sizeof\s*\(\s*(\w+)\s*\[\s*\d*\s*\]\s*\)`
at a fixed position. -/
def matchSizeofDivAt (cs : List Char) : Option String := do
  let cs ← dropLit "sizeof".data cs
  let cs ← expectChar '(' (skipWs cs)
  let (arrName, cs) ← takeWord1 (skipWs cs)
  let cs ← expectChar ')' (skipWs cs)
  let cs ← expectChar '/' (skipWs cs)
  let cs ← dropLit "sizeof".data (skipWs cs)
  let cs ← expectChar '(' (skipWs cs)
  let (_, cs) ← takeWord1 (skipWs cs)
  let cs ← expectChar '[' (skipWs cs)
  let cs := takeDigits0 (skipWs cs)
  let cs ← expectChar ']' (skipWs cs)
  let _ ← expectChar ')' (skipWs cs)
  some arrName

/-- `^sizeof\s*\(\s*(\w+)\s*\)$`. -/
def matchSizeofArr (s : String) : Option String := do
  let cs ← dropLit "sizeof".data s.data
  let cs ← expectChar '(' (skipWs cs)
  let (name, cs) ← takeWord1 (skipWs cs)
  let cs ← expectChar ')' (skipWs cs)
  if cs.isEmpty then some name else none

/-- `^sizeof\s*\(\s*(int|float|double|char|long|short|bool)\s*\)$`. -/
def matchSizeofType (s : String) : Option String := do
  let cs ← dropLit "sizeof".data s.data
  let cs ← expectChar '(' (skipWs cs)
  let (ty, cs) ← matchKeyword ["int", "float", "double", "char", "long", "short", "bool"] (skipWs cs)
  let cs ← expectChar ')' (skipWs cs)
  if cs.isEmpty then some ty else none

/-- The `sizes` table, `sizes[type] || 4`. -/
def sizeofTypeSize (ty : String) : Int :=
  if ty = "char" then 1 else if ty = "bool" then 1
  else if ty = "short" then 2 else if ty = "int" then 4
  else if ty = "float" then 4 else if ty = "long" then 8
  else if ty = "double" then 8 else 4

/-- `^\w+$`. -/
def isWordOnly (cs : List Char) : Bool := cs ≠ [] ∧ cs.all isWordChar

/-- `^(\w+)\[\s*(\w+|\d+)\s*\]$`. -/
def matchArrAccess (s : String) : Option (String × String) := do
  let (name, cs) ← takeWord1 s.data
  let cs ← expectChar '[' cs
  let (idx, cs) ← takeWord1 (skipWs cs)
  let cs ← expectChar ']' (skipWs cs)
  if cs.isEmpty then some (name, idx) else none

/-- JS array indexing through a stored value: an integer value or a
canonical digit string reaches an element; other values address a
non-index property (the source's bounds test then yields the default;
exotic cases such as boolean keys are modelled as out-of-range). -/
def jsArrayIndex : Value → Option Int
  | .int n => some n
  | .str s => if isAllDigits s then some ((natOfDigits s.data : Int)) else none
  | _ => none

/-- The explicit wrapped-parenthesis scan of the source: walk all
characters but the last, and fail if the depth returns to zero. -/
def wrappedCheckGo : List Char → Int → Bool
  | [], _ => true
  | c :: cs, depth =>
      let d := if c = '(' then depth + 1 else if c = ')' then depth - 1 else depth
      if d = 0 then false else wrappedCheckGo cs d

def isWrappedParen (cs : List Char) : Bool := wrappedCheckGo cs.dropLast 0

/-- `^(\w+)\s*\(([^)]*)\)$`. -/
def matchFuncCall (s : String) : Option (String × String) := do
  let (name, cs) ← takeWord1 s.data
  let cs ← expectChar '(' (skipWs cs)
  let args := cs.takeWhile (fun c => c ≠ ')')
  let cs ← expectChar ')' (cs.dropWhile (fun c => c ≠ ')'))
  if cs.isEmpty then some (name, String.mk args) else none

/-- `\s*(.+)\s*:\s*(.+)$` of the ternary pattern: greedy second group up
to the rightmost viable colon. -/
def ternTailGo (best : Option (List Char × String)) (accRev : List Char) :
    List Char → Option (List Char × String)
  | [] => best
  | c :: cs =>
      let best' :=
        if c = ':' ∧ accRev ≠ [] then
          (match afterWsGroup cs with
           | some g3 => some (accRev.reverse, g3)
           | none => best)
        else best
      ternTailGo best' (c :: accRev) cs

def ternaryTail (cs : List Char) : Option (String × String) :=
  (ternTailGo none [] (skipWs cs)).map (fun p => (String.mk p.1, p.2))

/-- `^(.+)\s*\?\s*(.+)\s*:\s*(.+)$`: greedy first group up to the
rightmost viable question mark. -/
def ternGo (best : Option (List Char × String × String)) (accRev : List Char) :
    List Char → Option (List Char × String × String)
  | [] => best
  | c :: cs =>
      let best' :=
        if c = '?' ∧ accRev ≠ [] then
          (match ternaryTail cs with
           | some p => some (accRev.reverse, p.1, p.2)
           | none => best)
        else best
      ternGo best' (c :: accRev) cs

def matchTernary (s : String) : Option (String × String × String) :=
  (ternGo none [] s.data).map (fun p => (String.mk p.1, p.2.1, p.2.2))

/-- `^[\w\d\s+\-*/().]+$`. -/
def isNumericLookingChar (c : Char) : Bool :=
  isWordChar c || isWsChar c || c = '+' || c = '-' || c = '*' || c = '/' ||
    c = '(' || c = ')' || c = '.'

def isNumericLooking (cs : List Char) : Bool := cs ≠ [] ∧ cs.all isNumericLookingChar

/-- `replace(/;$/, "")`: remove one trailing semicolon. -/
def stripSemi (s : String) : String :=
  match s.data.getLast? with
  | some ';' => String.mk s.data.dropLast
  | _ => s

def jsAbs (v : Value) : Value :=
  match jsToNumber v with
  | some n => .int n.natAbs
  | none => .nan

def jsMinMax (useMin : Bool) (args : List Value) : Value :=
  let nums := args.map jsToNumber
  if nums.any (·.isNone) then .nan
  else
    let ints := nums.filterMap (·)
    match ints with
    | [] => .nan
    | x :: xs => .int (xs.foldl (fun a b => if useMin then min a b else max a b) x)

/-- `Math.sqrt` in the integer model (exact only on perfect squares; no
claim exercises other inputs). -/
def jsSqrt (v : Value) : Value :=
  match jsToNumber v with
  | some n => if n < 0 then .nan else .int (Nat.sqrt n.toNat)
  | none => .nan

/-- `Math.pow(args[0], args[1] || 2)`: a missing or falsy exponent means
2; negative exponents leave the integer model (modelled NaN). -/
def jsPow (base : Value) (eArg : Option Value) : Value :=
  let e := match eArg with
    | some v => if jsTruthy v then v else .int 2
    | none => .int 2
  match jsToNumber base, jsToNumber e with
  | some b, some x => if x < 0 then .nan else .int (b ^ x.toNat)
  | _, _ => .nan

/-- The `&`-branch of `evaluateExpression` (returns `none` to fall
through, as the source's `if` without `else` does). -/
def ampBranch (expr : String) (vars : VarMap) : Option Value :=
  match expr.data with
  | '&' :: rest =>
      let varName := String.mk rest
      if (alookup varName vars).isSome then some (.str ("&" ++ varName)) else none
  | _ => none

/-- The `*`-branch of `evaluateExpression`. -/
def starBranch (expr : String) (vars : VarMap) : Option Value :=
  match expr.data with
  | '*' :: rest =>
      (match alookup (String.mk rest) vars with
       | some pv =>
           (match pv.pointsTo with
            | some ptv => if jsTruthy ptv then some ptv else none
            | none => none)
       | none => none)
  | _ => none

/-- `evaluateExpression`, fuelled.  Recursive calls (parenthesised
subexpression, function arguments, ternary arms) are on strictly shorter
strings, so fuel `length + 1` at the wrapper suffices. -/
def evalExpr : Nat → String → VarMap → Value
  | 0, _, _ => .int 0
  | fuel + 1, rawExpr, vars =>
    if rawExpr = "" then .int 0 else
    let expr := stripSemi (jsTrim rawExpr)
    if expr = "nullptr" || expr = "NULL" then .str "nullptr"
    else match matchIntLit expr with
    | some n => .int n
    | none =>
    match matchHexLit expr with
    | some n => .int n
    | none =>
    match matchCharLit expr with
    | some c => .str (String.mk [c])
    | none =>
    if strLitCheck expr.data then .str (String.mk ((expr.data.drop 1).dropLast))
    else if expr = "true" then .bool true
    else if expr = "false" then .bool false
    else match searchMatch matchSizeofDivAt expr.data with
    | some arrName =>
        (match alookup arrName vars with
         | some v =>
             (match v.value with
              | .arr vs => .int vs.length
              | _ => .int 0)
         | none => .int 0)
    | none =>
    match matchSizeofArr expr with
    | some name =>
        (match alookup name vars with
         | some v =>
             (match v.value with
              | .arr vs => .int (vs.length * 4)
              | _ => .int 4)
         | none => .int 4)
    | none =>
    match matchSizeofType expr with
    | some ty => .int (sizeofTypeSize ty)
    | none =>
    if isWordOnly expr.data then
      (match alookup expr vars with
       | some v => v.value
       | none => .int 0)
    else match matchArrAccess expr with
    | some (arrName, idxStr) =>
        (match alookup arrName vars with
         | some av =>
             (match av.value with
              | .arr vs =>
                  let idx : Option Int :=
                    if isAllDigits idxStr then some ((natOfDigits idxStr.data : Int))
                    else match alookup idxStr vars with
                      | some iv => jsArrayIndex iv.value
                      | none => some 0
                  (match idx with
                   | some i =>
                       if 0 ≤ i ∧ i < (vs.length : Int) then vs.getD i.toNat (.int 0)
                       else .int 0
                   | none => .int 0)
              | _ => .int 0)
         | none => .int 0)
    | none =>
    if expr.data.head? = some '(' ∧ expr.data.getLast? = some ')' ∧ isWrappedParen expr.data then
      evalExpr fuel (String.mk ((expr.data.drop 1).dropLast)) vars
    else match evaluateArithmetic expr vars with
    | some jn => jsNumToValue jn
    | none =>
    match matchFuncCall expr with
    | some (funcName, argsStr) =>
        let args := (jsSplit argsStr ",").map (fun a => evalExpr fuel (jsTrim a) vars)
        if funcName = "abs" then jsAbs (args.headD .undef)
        else if funcName = "min" then jsMinMax true args
        else if funcName = "max" then jsMinMax false args
        else if funcName = "sqrt" then jsSqrt (args.headD .undef)
        else if funcName = "pow" then jsPow (args.headD .undef) (args.get? 1)
        else
          let a0 := args.headD .undef
          if jsTruthy a0 then a0 else .int 0
    | none =>
    match matchTernary expr with
    | some (condExpr, trueExpr, falseExpr) =>
        if jsTruthy (evalExpr fuel condExpr vars) then evalExpr fuel trueExpr vars
        else evalExpr fuel falseExpr vars
    | none =>
    match ampBranch expr vars with
    | some v => v
    | none =>
    match starBranch expr vars with
    | some v => v
    | none =>
    if isNumericLooking expr.data then .int 0
    else .str expr

/-- `evaluateExpression(expr, variables)`. -/
def evaluateExpression (expr : String) (vars : VarMap) : Value :=
  evalExpr (expr.length + 1) expr vars

/-! ### Condition evaluator -/

/-- `evaluateCondition(condition, variables)`: modulo comparisons first,
then the six relational shapes, then truthiness of the whole text. -/
def evaluateCondition (cond0 : String) (vars : VarMap) : Bool :=
  let condition := jsTrim cond0
  match matchModCmp "==" condition with
  | some (l, d, r) =>
      (match jsToNumber (evaluateExpression (jsTrim l) vars) with
       | some v => if d = 0 then false else decide (Int.tmod v (d : Int) = (r : Int))
       | none => false)
  | none =>
  match matchModCmp "!=" condition with
  | some (l, d, r) =>
      (match jsToNumber (evaluateExpression (jsTrim l) vars) with
       | some v => if d = 0 then true else decide (Int.tmod v (d : Int) ≠ (r : Int))
       | none => true)
  | none =>
  match matchCmp "==" condition with
  | some (l, r) =>
      jsStrictEq (evaluateExpression (jsTrim l) vars) (evaluateExpression (jsTrim r) vars)
  | none =>
  match matchCmp "!=" condition with
  | some (l, r) =>
      !jsStrictEq (evaluateExpression (jsTrim l) vars) (evaluateExpression (jsTrim r) vars)
  | none =>
  match matchCmp "<=" condition with
  | some (l, r) =>
      jsLe (evaluateExpression (jsTrim l) vars) (evaluateExpression (jsTrim r) vars)
  | none =>
  match matchCmp ">=" condition with
  | some (l, r) =>
      jsGe (evaluateExpression (jsTrim l) vars) (evaluateExpression (jsTrim r) vars)
  | none =>
  match matchCmp "<" condition with
  | some (l, r) =>
      jsLt (evaluateExpression (jsTrim l) vars) (evaluateExpression (jsTrim r) vars)
  | none =>
  match matchCmp ">" condition with
  | some (l, r) =>
      jsGt (evaluateExpression (jsTrim l) vars) (evaluateExpression (jsTrim r) vars)
  | none => jsTruthy (evaluateExpression condition vars)

/-! ### The line parser (`parseLine`) -/

/-- `line.split("//")[0]`. -/
def dropComment (s : String) : String := (jsSplit s "//").headD s

/-- The result record `{changed, action}` of `parseLine`, together with
the updated variable map and heap (mutated in place in the source). -/
structure PLRes where
  changed : Bool
  action : Option String
  vars : VarMap
  heap : Heap
deriving Repr, DecidableEq

/-- Reading `arr.value[k]`: `undefined` beyond the end (or in a hole). -/
def jsArrayRead (vs : List Value) (k : Nat) : Value := (vs.get? k).getD Value.undef

/-- Writing `arr.value[k] = v`: in range it updates the slot; past the
end JS extends the array to length `k+1`, the new slots reading as
`undefined`. -/
def jsArrayWrite (vs : List Value) (k : Nat) (v : Value) : List Value :=
  if k < vs.length then vs.set k v
  else vs ++ List.replicate (k - vs.length) .undef ++ [v]

/-- `variable.value++` (through `ToNumber`). -/
def jsIncr (v : Value) : Value :=
  match jsToNumber v with
  | some n => .int (n + 1)
  | none => .nan

def jsDecr (v : Value) : Value :=
  match jsToNumber v with
  | some n => .int (n - 1)
  | none => .nan

/-- `variable.value = operand !== 0 ? Math.floor(variable.value / operand) : 0`
of the compound `/=` branch.  Only the number `0` is strictly unequal to
`0`; a nonzero coerced divisor floors, a coerced zero divisor gives
`Math.floor(x/0) = ±Infinity`, outside the integer model (mapped to NaN;
unreachable in any claim). -/
def jsCompDiv (a b : Value) : Value :=
  if b = .int 0 then .int 0
  else match jsToNumber a, jsToNumber b with
    | some x, some y => if y = 0 then .nan else .int (Int.fdiv x y)
    | _, _ => .nan

def tryPrimitive (line : String) (vars : VarMap) (heap : Heap) : Option PLRes := do
  let (ty, name, valueStr) ← matchPrimitive line
  let value := evaluateExpression valueStr vars
  let vars' := mapSet vars name
    { id := "var_" ++ name, name := name, type := ty, value := value, visualType := "primitive" }
  some { changed := true,
         action := some ("Created " ++ name ++ " = " ++ valueToString value),
         vars := vars', heap := heap }

def tryArrayDecl (line : String) (vars : VarMap) (heap : Heap) : Option PLRes := do
  let (ty, name, valuesStr) ← matchArrayDecl line
  let values := (jsSplit valuesStr ",").map (fun v => evaluateExpression (jsTrim v) vars)
  let vars' := mapSet vars name
    { id := "var_" ++ name, name := name, type := ty ++ "[" ++ toString values.length ++ "]",
      value := .arr values, visualType := "array" }
  some { changed := true,
         action := some ("Created array " ++ name ++ "[" ++ toString values.length ++ "]"),
         vars := vars', heap := heap }

def tryArrayMod (line : String) (vars : VarMap) (heap : Heap) : Option PLRes := do
  let (arrName, index, valueStr) ← matchArrayMod line
  let value := evaluateExpression valueStr vars
  let av ← alookup arrName vars
  match av.value with
  | .arr vs =>
      let oldValue := jsArrayRead vs index
      let vars' := mapSet vars arrName { av with value := .arr (jsArrayWrite vs index value) }
      some { changed := true,
             action := some (arrName ++ "[" ++ toString index ++ "] changed: " ++
               valueToString oldValue ++ " → " ++ valueToString value),
             vars := vars', heap := heap }
  | _ => none

def tryPointerDecl (now : Nat) (line : String) (vars : VarMap) (heap : Heap) : Option PLRes := do
  let (ty, name, rhs) ← matchPointerDecl line
  if ptrRhsHasNew rhs then
    -- `heap_${name}_${Date.now()}`: the wall clock is modelled by a
    -- strictly increasing tick supplied by the driver
    let heapId := "heap_" ++ name ++ "_" ++ toString now
    let newTy := match rhs with
      | .newT t => some t
      | _ => none
    let heap' := mapSet heap heapId
      { id := heapId, type := newTy.getD ty, address := heapId, fields := [] }
    let vars' := mapSet vars name
      { id := "var_" ++ name, name := name, type := ty ++ "*", value := .str heapId,
        visualType := "pointer", pointsTo := some (.str heapId) }
    some { changed := true,
           action := some ("Created pointer " ++ name ++ " → new " ++ newTy.getD ty),
           vars := vars', heap := heap' }
  else match rhs with
  | .addr refVar =>
      let vars' := mapSet vars name
        { id := "var_" ++ name, name := name, type := ty ++ "*", value := .str ("&" ++ refVar),
          visualType := "pointer", pointsTo := some (.str ("var_" ++ refVar)) }
      some { changed := true,
             action := some ("Created pointer " ++ name ++ " → " ++ refVar),
             vars := vars', heap := heap }
  | _ =>
      let vars' := mapSet vars name
        { id := "var_" ++ name, name := name, type := ty ++ "*", value := .str "nullptr",
          visualType := "pointer", pointsTo := none }
      some { changed := true,
             action := some ("Created pointer " ++ name ++ " = nullptr"),
             vars := vars', heap := heap }

def tryMemberAssign (line : String) (vars : VarMap) (heap : Heap) : Option PLRes := do
  let (ptrName, fieldName, valueStr) ← matchMemberAssign line
  let ptr ← alookup ptrName vars
  let pt ← ptr.pointsTo
  if jsTruthy pt then
    match pt with
    | .str ptKey =>
      (match alookup ptKey heap with
       | some hobj =>
           let value := evaluateExpression valueStr vars
           let isPointerField := fieldName = "next" || fieldName = "prev" ||
             containsSub valueStr "nullptr" || containsSub valueStr "NULL"
           (match findField hobj.fields fieldName with
            | some old =>
                let heap' := mapSet heap ptKey
                  { hobj with fields := updateFirstField hobj.fields fieldName value }
                some { changed := true,
                       action := some (ptrName ++ "->" ++ fieldName ++ " changed: " ++
                         valueToString old.value ++ " → " ++ valueToString value),
                       vars := vars, heap := heap' }
            | none =>
                let heap' := mapSet heap ptKey
                  { hobj with fields := hobj.fields ++
                      [{ name := fieldName, value := value,
                         visualType := if isPointerField then "pointer" else "primitive" }] }
                some { changed := true,
                       action := some ("Set " ++ ptrName ++ "->" ++ fieldName ++ " = " ++
                         valueToString value),
                       vars := vars, heap := heap' })
       | none => none)
    | _ => none
  else none

def tryPtrReassign (line : String) (vars : VarMap) (heap : Heap) : Option PLRes := do
  let (targetName, sourceName, fieldName) ← matchPtrReassign line
  let sp ← alookup sourceName vars
  let pt ← sp.pointsTo
  if jsTruthy pt then
    match heapGetV heap pt with
    | some hobj => do
        let fld ← findField hobj.fields fieldName
        let tp ← alookup targetName vars
        let vars' := mapSet vars targetName { tp with pointsTo := some fld.value, value := fld.value }
        some { changed := true,
               action := some (targetName ++ " moved: now points to " ++
                 (if jsTruthy fld.value then valueToString fld.value else "nullptr")),
               vars := vars', heap := heap }
    | none => none
  else none

def tryReassign (line : String) (vars : VarMap) (heap : Heap) : Option PLRes := do
  let (name, valueStr) ← matchReassign line
  -- `reassignMatch && !primitiveMatch && !arrayModMatch && !memberAssignMatch && !ptrReassignMatch`
  if (matchPrimitive line).isSome || (matchArrayMod line).isSome ||
      (matchMemberAssign line).isSome || (matchPtrReassign line).isSome then none
  else do
    let v ← alookup name vars
    let newValue := evaluateExpression valueStr vars
    let vars' := mapSet vars name { v with value := newValue }
    some { changed := true,
           action := some (name ++ " changed: " ++ valueToString v.value ++ " → " ++
             valueToString newValue),
           vars := vars', heap := heap }

def tryIncrDecr (line : String) (vars : VarMap) (heap : Heap) : Option PLRes := do
  let (pre, name, suf) ← matchIncrDecr line
  if pre.isSome || suf.isSome then do
    let v ← alookup name vars
    if pre = some "++" || suf = some "++" then
      let nv := jsIncr v.value
      let vars' := mapSet vars name { v with value := nv }
      some { changed := true,
             action := some (name ++ " incremented: " ++ valueToString v.value ++ " → " ++
               valueToString nv),
             vars := vars', heap := heap }
    else if pre = some "--" || suf = some "--" then
      let nv := jsDecr v.value
      let vars' := mapSet vars name { v with value := nv }
      some { changed := true,
             action := some (name ++ " decremented: " ++ valueToString v.value ++ " → " ++
               valueToString nv),
             vars := vars', heap := heap }
    else some { changed := true, action := none, vars := vars, heap := heap }
  else none

def tryCompound (line : String) (vars : VarMap) (heap : Heap) : Option PLRes := do
  let (name, op, valueStr) ← matchCompound line
  let v ← alookup name vars
  let operand := evaluateExpression valueStr vars
  let nv :=
    if op = '+' then jsAdd v.value operand
    else if op = '-' then jsSubV v.value operand
    else if op = '*' then jsMulV v.value operand
    else jsCompDiv v.value operand
  let vars' := mapSet vars name { v with value := nv }
  some { changed := true,
         action := some (name ++ " " ++ String.mk [op] ++ "= " ++ valueToString operand ++
           ": " ++ valueToString v.value ++ " → " ++ valueToString nv),
         vars := vars', heap := heap }

def trySwap (line : String) (vars : VarMap) (heap : Heap) : Option PLRes := do
  -- the second array name of `swap(a[i], b[j])` is captured but unused:
  -- both element reads and writes go through the first array
  let (a1, i1, _, i2) ← searchMatch matchSwapAt line.data
  let av ← alookup a1 vars
  match av.value with
  | .arr vs =>
      let temp := jsArrayRead vs i1
      let vs1 := jsArrayWrite vs i1 (jsArrayRead vs i2)
      let vs2 := jsArrayWrite vs1 i2 temp
      let vars' := mapSet vars a1 { av with value := .arr vs2 }
      some { changed := true,
             action := some ("Swapped " ++ a1 ++ "[" ++ toString i1 ++ "] ↔ " ++ a1 ++
               "[" ++ toString i2 ++ "]"),
             vars := vars', heap := heap }
  | _ => none

/-- `parseLine(line, variables, heap)`: the statement cascade, first
matching branch that completes wins; otherwise `{changed: false}`. -/
def parseLine (now : Nat) (line0 : String) (vars : VarMap) (heap : Heap) : PLRes :=
  let line := jsTrim (dropComment line0)
  match tryPrimitive line vars heap with
  | some r => r
  | none =>
  match tryArrayDecl line vars heap with
  | some r => r
  | none =>
  match tryArrayMod line vars heap with
  | some r => r
  | none =>
  match tryPointerDecl now line vars heap with
  | some r => r
  | none =>
  match tryMemberAssign line vars heap with
  | some r => r
  | none =>
  match tryPtrReassign line vars heap with
  | some r => r
  | none =>
  match tryReassign line vars heap with
  | some r => r
  | none =>
  match tryIncrDecr line vars heap with
  | some r => r
  | none =>
  match tryCompound line vars heap with
  | some r => r
  | none =>
  match trySwap line vars heap with
  | some r => r
  | none => { changed := false, action := none, vars := vars, heap := heap }

/-- `parseLineForVars`: the suppressed-emission collector of pass one
(primitive and array declarations only). -/
def parseLineForVars (line0 : String) (vars : VarMap) : VarMap :=
  let line := jsTrim (dropComment line0)
  match matchPrimitive line with
  | some (ty, name, valueStr) =>
      let value := evaluateExpression valueStr vars
      mapSet vars name
        { id := "var_" ++ name, name := name, type := ty, value := value, visualType := "primitive" }
  | none =>
  match matchArrayDecl line with
  | some (ty, name, valuesStr) =>
      let values := (jsSplit valuesStr ",").map (fun v => evaluateExpression (jsTrim v) vars)
      mapSet vars name
        { id := "var_" ++ name, name := name, type := ty ++ "[" ++ toString values.length ++ "]",
          value := .arr values, visualType := "array" }
  | none => vars

/-! ### States and `createState` -/

/-- A stack frame of a state snapshot. -/
structure Frame where
  id : String
  functionName : String
  line : Nat
  variables_ : List Variable
deriving Repr, DecidableEq

/-- A `State` snapshot (`{step, currentLine, sourceCode, action,
variables, stackFrames, heap}`). -/
structure StateR where
  step : Nat
  currentLine : Nat
  sourceCode : String
  action : Option String
  variables_ : List Variable
  stackFrames : List Frame
  heap : List HeapObj
deriving Repr, DecidableEq

/-- `createState(step, line, sourceCode, variables, heap, action)`.  The
source's per-state copies (`{...v, value: [...v.value]}` and the field
copies) are identities on the pure values here; the aliasing content of
that copying is analysed separately in the store model below. -/
def createState (step : Nat) (line : Nat) (sourceCode : String) (vars : VarMap) (heap : Heap)
    (action : Option String) : StateR :=
  let varArray := mapValues vars
  { step := step, currentLine := line, sourceCode := sourceCode, action := action,
    variables_ := varArray,
    stackFrames := [{ id := "frame_" ++ toString step, functionName := "main",
                      line := line, variables_ := varArray }],
    heap := mapValues heap }

/-! ### Loop identification (`identifyLoops`) -/

/-- A loop record of `identifyLoops`.  Field names follow the source
(`type`, `start`, `end` become `kind`, `startLine`, `endLine`); the
`while` records leave the `for`-only fields at defaults, playing the role
of the absent (undefined, falsy) JS fields. -/
structure LoopInfo where
  kind : String
  startLine : Nat
  endLine : Nat
  varName : String := ""
  startVal : Value := .int 0
  endVal : Value := .int 0
  endValStr : String := ""
  operator : String := ""
  increment : String := ""
  condition : String := ""
  iterations : JSNum := some 0
deriving Repr, DecidableEq

def lineAt (lines : List String) (i : Nat) : String := lines.getD i ""

/-- `{`-count minus `}`-count of a raw line. -/
def braceDelta (s : String) : Int :=
  ((s.data.filter (fun c => c = '\x7b')).length : Int) -
    ((s.data.filter (fun c => c = '\x7d')).length : Int)

/-- The closing-brace scan: from line index `i`, accumulate the brace
delta; the first later line where the depth returns to zero ends the
loop (1-based); if none does, the default is the header's own line
number. -/
def findLoopEndGo : List String → Nat → Nat → Int → Nat
  | [], _, i, _ => i + 1
  | l :: rest, j, i, c =>
      let c' := c + braceDelta l
      if c' = 0 ∧ j > i then j + 1
      else findLoopEndGo rest (j + 1) i c'

def findLoopEnd (lines : List String) (i : Nat) : Nat :=
  findLoopEndGo (lines.drop i) i i 0

/-- `iterations = Math.min(Math.max(iterations, 0), 50)` (NaN passes
through both, staying NaN). -/
def clampIter (raw : JSNum) : JSNum := raw.map (fun n => min (max n 0) 50)

/-- Resolve a loop bound: a digit literal parses, otherwise the current
value of the named variable, otherwise the given default (0 for start
bounds, 10 for end bounds). -/
def resolveBound (vars : VarMap) (s : String) (dflt : Int) : Value :=
  if isAllDigits s then .int ((natOfDigits s.data : Nat) : Int)
  else match alookup s vars with
    | some v => v.value
    | none => .int dflt

def jsNumAbsV : JSNum → JSNum := Option.map (fun n => ((n.natAbs : Nat) : Int))

/-- The per-operator iteration count of `identifyLoops` (before
clamping); unknown operators leave the initial 0. -/
def forRawIterations (opStr : String) (startV endV : Value) : JSNum :=
  if opStr = "<" then jsSubNum endV startV
  else if opStr = "<=" then jsNumAdd (jsSubNum endV startV) (some 1)
  else if opStr = ">" then jsSubNum startV endV
  else if opStr = ">=" then jsNumAdd (jsSubNum startV endV) (some 1)
  else if opStr = "!=" then jsNumAbsV (jsSubNum endV startV)
  else some 0

/-- One line of the `identifyLoops` scan. -/
def detectLoopAt (lines : List String) (vars : VarMap) (i : Nat) : Option LoopInfo :=
  let line := jsTrim (lineAt lines i)
  let forM := searchMatch matchForAt line.data
  let whileM := searchMatch matchWhileAt line.data
  if forM.isSome || whileM.isSome then
    let loopStart := i + 1
    let loopEnd := findLoopEnd lines i
    match forM with
    | some fh =>
        let startV := resolveBound vars fh.startStr 0
        let endV := resolveBound vars fh.endStr 10
        some { kind := "for", startLine := loopStart, endLine := loopEnd,
               varName := fh.varName, startVal := startV, endVal := endV,
               endValStr := fh.endStr, operator := fh.opStr, increment := fh.inc,
               iterations := clampIter (forRawIterations fh.opStr startV endV) }
    | none =>
        match whileM with
        | some cond =>
            some { kind := "while", startLine := loopStart, endLine := loopEnd,
                   condition := cond, iterations := some 10 }
        | none => none
  else none

/-- `identifyLoops(lines, variables)`. -/
def identifyLoops (lines : List String) (vars : VarMap) : List LoopInfo :=
  (List.range lines.length).foldl
    (fun acc i => match detectLoopAt lines vars i with
      | some li => acc ++ [li]
      | none => acc) []

/-- The loop-entry re-resolution of `simulateExecution` (lines 163-172):
a non-numeric end-bound string found in the live map replaces `endVal`,
and `iterations` is recomputed as `endVal - startVal` (for any operator)
and clamped. -/
def reResolveLoop (li : LoopInfo) (vars : VarMap) : LoopInfo :=
  if li.endValStr ≠ "" ∧ ¬ (isAllDigits li.endValStr = true) then
    match alookup li.endValStr vars with
    | some ev =>
        { li with endVal := ev.value,
                  iterations := clampIter (jsSubNum ev.value li.startVal) }
    | none => li
  else li

/-- The number of body expansions `for (let iter = 0; iter < iterations;
iter++)` performs: a NaN bound runs zero times, a negative count runs
zero times. -/
def execIterations (li : LoopInfo) : Nat :=
  match li.iterations with
  | some n => n.toNat
  | none => 0

/-! ### Loop simulation (`simulateLoop`) -/

/-- Global replace of `\[\s*VAR\s*\]` by `[VAL]` (the induction-variable
substitution inside bracket indexing).  Fuelled by the input length; each
step consumes at least one character. -/
def replaceBracketGo : Nat → String → String → List Char → List Char
  | 0, _, _, cs => cs
  | _ + 1, _, _, [] => []
  | fuel + 1, varName, val, c :: cs =>
      match (do
        let r ← expectChar '[' (c :: cs)
        let r ← dropLit varName.data (skipWs r)
        let r ← expectChar ']' (skipWs r)
        some r : Option (List Char)) with
      | some rest => ('[' :: val.data ++ [']']) ++ replaceBracketGo fuel varName val rest
      | none => c :: replaceBracketGo fuel varName val cs

def replaceBracketVar (varName val s : String) : String :=
  String.mk (replaceBracketGo s.data.length varName val s.data)

/-- Global replace of `\bVAR\b` by `VAL`: non-overlapping matches of the
word with no word character on either side. -/
def replaceWordGo : Nat → String → String → Option Char → List Char → List Char
  | 0, _, _, _, cs => cs
  | _ + 1, _, _, _, [] => []
  | fuel + 1, varName, val, prev, c :: cs =>
      let boundaryBefore := match prev with
        | some p => !isWordChar p
        | none => true
      let fallback := fun (_ : Unit) => c :: replaceWordGo fuel varName val (some c) cs
      if boundaryBefore then
        match dropLit varName.data (c :: cs) with
        | some rest =>
            let boundaryAfter := match rest.head? with
              | some nch => !isWordChar nch
              | none => true
            if boundaryAfter then
              val.data ++ replaceWordGo fuel varName val varName.data.getLast? rest
            else fallback ()
        | none => fallback ()
      else fallback ()

def replaceWordVar (varName val s : String) : String :=
  String.mk (replaceWordGo s.data.length varName val none s.data)

/-- The loop-body lines: indices strictly between the header line and the
closing line, skipping blank, pure-brace, and nested `for`/`while` header
lines (which the source leaves to the flattened body). -/
def bodyLines (lines : List String) (li : LoopInfo) : List (Nat × String) :=
  (List.range' li.startLine (li.endLine - 1 - li.startLine)).filterMap (fun i =>
    let t := jsTrim (lineAt lines i)
    if t = "" || t = "\x7b" || t = "\x7d" || strStarts t "for" || strStarts t "while" then none
    else some (i + 1, t))

/-- The mutable state of one loop-body walk. -/
structure BodyAcc where
  states : List StateR
  vars : VarMap
  heap : Heap
  tick : Nat
  skips : Nat
deriving Repr, DecidableEq

/-- The induction-variable substitution applied to a body line of a
`for` loop: bracket indexes first, then word-boundary occurrences. -/
def substituteIVar (li : LoopInfo) (vars : VarMap) (content : String) : String :=
  if li.kind = "for" then
    match alookup li.varName vars with
    | some lv =>
        replaceWordVar li.varName (valueToString lv.value)
          (replaceBracketVar li.varName (valueToString lv.value) content)
    | none => content
  else content

/-- One body line of one iteration: induction-variable substitution,
`if`-header handling with single-branch skipping, then `parseLine` and
a snapshot on `changed`. -/
def simulateLoopLine (li : LoopInfo) (baseStep : Nat) (iter : Nat) (acc : BodyAcc)
    (ln : Nat) (content : String) : BodyAcc :=
  let processed := substituteIVar li acc.vars content
  match matchIfHeader processed with
  | some cond =>
      let met := evaluateCondition cond acc.vars
      if met then acc else { acc with skips := 1 }
  | none =>
  if processed = "\x7d" ∧ acc.skips > 0 then { acc with skips := acc.skips - 1 }
  else if acc.skips > 0 then
    let s1 := if containsSub processed "\x7b" then acc.skips + 1 else acc.skips
    let s2 := if containsSub processed "\x7d" then s1 - 1 else s1
    { acc with skips := s2 }
  else
    let r := parseLine acc.tick processed acc.vars acc.heap
    if r.changed then
      let stepNum := baseStep + acc.states.length
      let act := match r.action with
        | some a => if a = "" then "Loop iteration " ++ toString (iter + 1) else a
        | none => "Loop iteration " ++ toString (iter + 1)
      { states := acc.states ++ [createState stepNum ln content r.vars r.heap (some act)],
        vars := r.vars, heap := r.heap, tick := acc.tick + 1, skips := acc.skips }
    else { acc with vars := r.vars, heap := r.heap, tick := acc.tick + 1 }

/-- One iteration: update the induction variable to `startVal + iter`
(JS `+`), reset the skip counter, walk the body lines. -/
def simulateLoopIter (li : LoopInfo) (lines : List String) (baseStep : Nat)
    (acc : BodyAcc) (iter : Nat) : BodyAcc :=
  let vars :=
    if li.kind = "for" then
      match alookup li.varName acc.vars with
      | some lv => mapSet acc.vars li.varName { lv with value := jsAdd li.startVal (.int iter) }
      | none => acc.vars
    else acc.vars
  (bodyLines lines li).foldl (fun a p => simulateLoopLine li baseStep iter a p.1 p.2)
    { acc with vars := vars, skips := 0 }

/-- `simulateLoop(loopInfo, lines, variables, heap, baseStep)`: create
the induction variable (for `for` loops), then run the clamped number of
iterations. -/
def simulateLoop (li : LoopInfo) (lines : List String) (vars : VarMap) (heap : Heap)
    (baseStep : Nat) (tick : Nat) : BodyAcc :=
  let vars :=
    if li.kind = "for" then
      mapSet vars li.varName
        { id := "var_" ++ li.varName, name := li.varName, type := "int",
          value := li.startVal, visualType := "primitive" }
    else vars
  (List.range (execIterations li)).foldl
    (fun acc iter => simulateLoopIter li lines baseStep acc iter)
    { states := [], vars := vars, heap := heap, tick := tick, skips := 0 }

/-! ### The three-pass driver (`simulateExecution`) -/

/-- Pass A: collect declarations before the first loop, suppressing
emission, to pre-populate loop-bound variables. -/
def passOneGo : List String → Bool → VarMap → VarMap
  | [], _, vars => vars
  | l :: rest, inMain, vars =>
      let t := jsTrim l
      if strStarts t "#" || t = "" then passOneGo rest inMain vars
      else if containsSub t "int main" || containsSub t "void main" then passOneGo rest true vars
      else if !inMain then passOneGo rest inMain vars
      else if strStarts t "for" || strStarts t "while" then vars
      else passOneGo rest inMain (parseLineForVars t vars)

/-- The accumulator of pass C. -/
structure ExecAcc where
  states : List StateR
  vars : VarMap
  heap : Heap
  stepCount : Nat
  inMain : Bool
  tick : Nat
deriving Repr, DecidableEq

/-- Pass C: replay from the top, expanding loops at their header lines
and jumping past their bodies, emitting one snapshot per changed line.
The fuel dominates the number of iterations (`i` strictly increases and
is bounded by the line count). -/
def passThree (lines : List String) (loops : List LoopInfo) : Nat → Nat → ExecAcc → ExecAcc
  | 0, _, acc => acc
  | fuel + 1, i, acc =>
    if i < lines.length then
      let lineNum := i + 1
      let t := jsTrim (lineAt lines i)
      if t = "" || strStarts t "#" || strStarts t "//" then passThree lines loops fuel (i + 1) acc
      else if containsSub t "int main" || containsSub t "void main" then
        passThree lines loops fuel (i + 1) { acc with inMain := true }
      else if !acc.inMain then passThree lines loops fuel (i + 1) acc
      else if t = "\x7b" || t = "\x7d" then passThree lines loops fuel (i + 1) acc
      else if strStarts t "return" then passThree lines loops fuel (i + 1) acc
      else if strStarts t "cout" || strStarts t "cin" then passThree lines loops fuel (i + 1) acc
      else
        match loops.find? (fun l => decide (l.startLine ≤ lineNum) && decide (lineNum ≤ l.endLine)) with
        | some li =>
            if lineNum = li.startLine then
              let li := reResolveLoop li acc.vars
              let r := simulateLoop li lines acc.vars acc.heap acc.stepCount acc.tick
              passThree lines loops fuel li.endLine
                { acc with states := acc.states ++ r.states, vars := r.vars, heap := r.heap,
                           stepCount := acc.stepCount + r.states.length, tick := r.tick }
            else passThree lines loops fuel (i + 1) acc
        | none =>
            let r := parseLine acc.tick t acc.vars acc.heap
            if r.changed then
              let st := createState acc.stepCount lineNum t r.vars r.heap r.action
              passThree lines loops fuel (i + 1)
                { acc with states := acc.states ++ [st], vars := r.vars, heap := r.heap,
                           stepCount := acc.stepCount + 1, tick := acc.tick + 1 }
            else
              passThree lines loops fuel (i + 1)
                { acc with vars := r.vars, heap := r.heap, tick := acc.tick + 1 }
    else acc

/-- `simulateExecution(code)`: pass A (suppressed collection), pass B
(loop discovery over the populated map), pass C (replay with emission);
an empty trace is replaced by the synthetic `Program start` state. -/
def simulateExecution (code : String) : List StateR :=
  let lines := jsSplit code "\n"
  let vars0 := passOneGo lines false []
  let loops := identifyLoops lines vars0
  let acc := passThree lines loops (lines.length + 1) 0
    { states := [], vars := vars0, heap := [], stepCount := 0, inMain := false, tick := 0 }
  if acc.states.isEmpty then [createState 0 1 "Program start" acc.vars acc.heap none]
  else acc.states

/-! ### Sessions and stepping (`stepForward` / `stepBackward`) -/

/-- A stored session. -/
structure Session where
  id : String
  code : String
  states : List StateR
  currentStep : Nat
deriving Repr, DecidableEq

/-- The step-result record; a flag the source's object literal omits is
`false` here (JS `undefined` is falsy). -/
structure StepRes where
  success : Bool
  state : Option StateR
  step : Nat
  totalSteps : Nat
  atEnd : Bool := false
  atStart : Bool := false
deriving Repr, DecidableEq

/-- `stepForward` on a found session: at the last step return the current
state unchanged with `atEnd`; otherwise advance and report `atEnd` when
the new step is the last.  (`currentStep >= states.length - 1` over JS
numbers is `length ≤ currentStep + 1` over naturals.) -/
def stepForward (s : Session) : Session × StepRes :=
  if s.states.length ≤ s.currentStep + 1 then
    (s, { success := true, state := s.states.get? s.currentStep, step := s.currentStep,
          totalSteps := s.states.length, atEnd := true })
  else
    let s' := { s with currentStep := s.currentStep + 1 }
    (s', { success := true, state := s.states.get? s'.currentStep, step := s'.currentStep,
           totalSteps := s.states.length,
           atEnd := decide (s.states.length ≤ s'.currentStep + 1) })

/-- `stepBackward` on a found session. -/
def stepBackward (s : Session) : Session × StepRes :=
  if s.currentStep = 0 then
    (s, { success := true, state := s.states.get? 0, step := 0,
          totalSteps := s.states.length, atStart := true })
  else
    let s' := { s with currentStep := s.currentStep - 1 }
    (s', { success := true, state := s.states.get? s'.currentStep, step := s'.currentStep,
           totalSteps := s.states.length,
           atStart := decide (s'.currentStep = 0) })

/-- A small three-line program used to exercise the engine on a concrete
trace. -/
def c10wProg : String := "int main()\x7b\nint x=1;\n\x7d"

/-- The first state of that program's trace (the trace is nonempty, so
the fallback branch is never taken). -/
def c10wState : StateR :=
  match simulateExecution c10wProg with
  | s :: _ => s
  | [] => createState 0 1 "" [] [] none

end CodeViz

/-!
### Store model of `createState` (aliasing analysis)

The pure embedding above cannot express JS aliasing, so the copy
behaviour of `createState` (lines 1106-1131) is analysed here over an
explicit object store.  Mutable JS objects (variable records, heap
objects, field records) and mutable JS arrays (a variable's `value`
array, a heap object's `fields` array) live at addresses; the engine's
two `Map`s hold addresses of variable and heap objects.  A field's value
and an array's element may themselves hold a reference to a live array:
`evaluateExpression` on a bare array name returns `variable.value`
itself, which `ptr->f = arr` stores into a heap field and `arr[k] = brr`
stores into an array slot.  `createState` allocates copies that are
shallow at exactly those positions (`{...v, value: [...v.value]}`
re-seats the element list but keeps each element, `{...f}` keeps the
field's value).  The development locates the resulting boundary of the
deep-copy property: the counterexample shows a snapshot holding a stored
array reference is mutated by a later write through the live maps, and
the amended theorem shows a snapshot free of stored references is
invariant under every operation sequence.
-/

namespace CodeVizStore

open CodeViz

abbrev Addr := Nat

/-- The value slot of a variable object: a primitive, or a reference to
a mutable array of values. -/
inductive Slot where
  | prim (v : Value)
  | ref (a : Nat)
deriving Repr, DecidableEq

/-- A mutable JS object of the engine.  A field's value and a value
array's elements are `Slot`s, so a stored reference to a live array
(`ptr->f = arr`, `arr[k] = brr`) is representable. -/
inductive Cell where
  | varObj (id name ty visualType : String) (value : Slot) (pointsTo : Option Value)
  | heapObj (id ty address : String) (fieldsArr : Nat)
  | fieldObj (name : String) (value : Slot) (visualType : String)
  | valArray (vs : List Slot)
  | refArray (addrs : List Nat)
deriving Repr, DecidableEq

/-- The object store: contents by address plus an allocation frontier. -/
structure Store where
  mem : Nat → Option Cell
  next : Nat

def Store.get (σ : Store) (a : Nat) : Option Cell := σ.mem a

def Store.set (σ : Store) (a : Nat) (c : Cell) : Store :=
  { σ with mem := fun b => if b = a then some c else σ.mem b }

def Store.alloc (σ : Store) (c : Cell) : Nat × Store :=
  (σ.next, { mem := fun b => if b = σ.next then some c else σ.mem b, next := σ.next + 1 })

/-- The engine state: the store and the two insertion-ordered maps of
object addresses. -/
structure Machine where
  σ : Store
  vars : List (String × Nat)
  heap : List (String × Nat)

/-- The value-array address a cell references, if any. -/
def cellVarArr : Cell → Option Nat
  | .varObj _ _ _ _ (.ref ar) _ => some ar
  | _ => none

/-- The fields-array address a cell references, if any. -/
def cellFieldsArr : Cell → Option Nat
  | .heapObj _ _ _ fa => some fa
  | _ => none

/-- The field-object addresses a cell holds. -/
def cellFieldAddrs : Cell → List Nat
  | .refArray l => l
  | _ => []

/-- The value-array address of a variable object, if any. -/
def varArrOf (σ : Store) (a : Nat) : Option Nat :=
  match σ.get a with
  | some c => cellVarArr c
  | none => none

/-- The fields-array address of a heap object, if any. -/
def fieldsArrOf (σ : Store) (a : Nat) : Option Nat :=
  match σ.get a with
  | some c => cellFieldsArr c
  | none => none

/-- The field-object addresses a fields array holds. -/
def fieldAddrsOf (σ : Store) (fa : Nat) : List Nat :=
  match σ.get fa with
  | some c => cellFieldAddrs c
  | none => []

/-- The contents of a value array, if the address holds one. -/
def valsAt (σ : Store) (a : Nat) : List Slot :=
  match σ.get a with
  | some (.valArray vs) => vs
  | _ => []

/-- Whether a slot is a plain value (no stored reference). -/
def slotPrim : Slot → Bool
  | .prim _ => true
  | .ref _ => false

/-- Whether a cell holds no stored array reference in a position that
`createState` copies shallowly (a field's value, an array's element). -/
def cellNoStoredRefs : Cell → Bool
  | .valArray vs => vs.all slotPrim
  | .fieldObj _ s _ => slotPrim s
  | _ => true

/-- `arr.value[k] = s` on a slot list: in range it updates the slot; past
the end JS extends the array to length `k+1`, the holes reading as
`undefined`. -/
def jsArrayWriteS (vs : List Slot) (k : Nat) (v : Slot) : List Slot :=
  if k < vs.length then vs.set k v
  else vs ++ List.replicate (k - vs.length) (Slot.prim Value.undef) ++ [v]

/-- Addresses the engine can write through the live maps: variable-object
roots, their value arrays, heap-object roots, their fields arrays, and
the field objects those contain. -/
def liveAddrs (M : Machine) : List Nat :=
  let varRoots := M.vars.map (·.2)
  let heapRoots := M.heap.map (·.2)
  let fieldsArrs := heapRoots.filterMap (fieldsArrOf M.σ)
  varRoots ++ varRoots.filterMap (varArrOf M.σ) ++ heapRoots ++ fieldsArrs ++
    fieldsArrs.flatMap (fieldAddrsOf M.σ)

/-- `{...v, value: Array.isArray(v.value) ? [...v.value] : v.value}`:
copy one variable object, allocating a fresh array copy for array-valued
variables. -/
def copyVar (σ : Store) (a : Nat) : Nat × Store :=
  match σ.get a with
  | some (.varObj id nm ty vt (.ref arrA) pt) =>
      let vs := valsAt σ arrA
      let (newArr, σ1) := σ.alloc (.valArray vs)
      σ1.alloc (.varObj id nm ty vt (.ref newArr) pt)
  | some c => σ.alloc c
  | none => σ.alloc (.valArray [])

def copyVars (σ : Store) : List Nat → List Nat × Store
  | [] => ([], σ)
  | a :: rest =>
      let (a', σ1) := copyVar σ a
      let (rest', σ2) := copyVars σ1 rest
      (a' :: rest', σ2)

/-- `h.fields.map(f => ({...f}))`: copy the field objects. -/
def copyFields (σ : Store) : List Nat → List Nat × Store
  | [] => ([], σ)
  | a :: rest =>
      let (a', σ1) := match σ.get a with
        | some c => σ.alloc c
        | none => σ.alloc (.valArray [])
      let (rest', σ2) := copyFields σ1 rest
      (a' :: rest', σ2)

/-- `{...h, fields: <copied fields>}`. -/
def copyHeapObj (σ : Store) (a : Nat) : Nat × Store :=
  match σ.get a with
  | some (.heapObj id ty addr fa) =>
      let faddrs := fieldAddrsOf σ fa
      let (newFaddrs, σ1) := copyFields σ faddrs
      let (nfa, σ2) := σ1.alloc (.refArray newFaddrs)
      σ2.alloc (.heapObj id ty addr nfa)
  | some c => σ.alloc c
  | none => σ.alloc (.valArray [])

def copyHeapObjs (σ : Store) : List Nat → List Nat × Store
  | [] => ([], σ)
  | a :: rest =>
      let (a', σ1) := copyHeapObj σ a
      let (rest', σ2) := copyHeapObjs σ1 rest
      (a' :: rest', σ2)

/-- An emitted snapshot: its per-state copies, by address. -/
structure StateRef where
  step : Nat
  currentLine : Nat
  varAddrs : List Nat
  heapAddrs : List Nat
deriving Repr, DecidableEq

/-- `createState` in the store model: allocate the copies of the current
variable and heap objects, leaving the live maps untouched. -/
def createStateS (M : Machine) (step line : Nat) : StateRef × Store :=
  let (vas, σ1) := copyVars M.σ (M.vars.map (·.2))
  let (has, σ2) := copyHeapObjs σ1 (M.heap.map (·.2))
  ({ step := step, currentLine := line, varAddrs := vas, heapAddrs := has }, σ2)

/-- All addresses a snapshot dereferences (relative to the store it was
created in). -/
def stateAddrs (σ : Store) (st : StateRef) : List Nat :=
  let fieldsArrs := st.heapAddrs.filterMap (fieldsArrOf σ)
  st.varAddrs ++ st.varAddrs.filterMap (varArrOf σ) ++ st.heapAddrs ++ fieldsArrs ++
    fieldsArrs.flatMap (fieldAddrsOf σ)

/-- The pure value reachable from an array address, dereferencing stored
references down to `fuel` levels (JS object graphs may be cyclic, so the
observation is depth-indexed). -/
def readArrV (σ : Store) : Nat → Nat → Value
  | 0, _ => Value.undef
  | fuel + 1, ar =>
      match σ.get ar with
      | some (.valArray vs) =>
          Value.arr (vs.map (fun s =>
            match s with
            | .prim v => v
            | .ref ar2 => readArrV σ fuel ar2))
      | _ => Value.undef

/-- The pure value a slot denotes at dereferencing depth `fuel`. -/
def readSlotV (σ : Store) (fuel : Nat) : Slot → Value
  | .prim v => v
  | .ref ar => readArrV σ fuel ar

/-- Denotation of a snapshot's variable entry as a pure `Variable`. -/
def readVar (σ : Store) (fuel : Nat) (a : Nat) : Option Variable :=
  match σ.get a with
  | some (.varObj id nm ty vt slot pt) =>
      some { id := id, name := nm, type := ty, visualType := vt, pointsTo := pt,
             value := readSlotV σ fuel slot }
  | _ => none

def readFieldObj (σ : Store) (fuel : Nat) (a : Nat) : Option HField :=
  match σ.get a with
  | some (.fieldObj nm s vt) =>
      some { name := nm, value := readSlotV σ fuel s, visualType := vt }
  | _ => none

def readHeapObj (σ : Store) (fuel : Nat) (a : Nat) : Option HeapObj :=
  match σ.get a with
  | some (.heapObj id ty addr fa) =>
      some { id := id, type := ty, address := addr,
             fields := (fieldAddrsOf σ fa).filterMap (readFieldObj σ fuel) }
  | _ => none

/-- The observable content of an emitted snapshot, at dereferencing
depth `fuel`. -/
def readState (σ : Store) (fuel : Nat) (st : StateRef) :
    List (Option Variable) × List (Option HeapObj) :=
  (st.varAddrs.map (readVar σ fuel), st.heapAddrs.map (readHeapObj σ fuel))

/-- The write/allocation shapes the engine performs, each resolving its
target through the live maps exactly as the corresponding source line
does: `variable.value = <primitive>` and `variable.value++/+=…`
(setVarPrim), `variable.value = <array variable>` — the live reference
`evaluateExpression` returns for a bare array name (setVarArrRef),
`targetPtr.pointsTo = …` (setVarPointsTo), `arr.value[k] = <primitive>`
and the swap writes (writeArrCell), `arr.value[k] = <array variable>`
(writeArrCellArrRef), `variables.set(name, {fresh})` for the declaration
shapes (bindVarPrim / bindVarArray), `heap.set(id, {fresh})`
(bindHeapObj), `field.value = <primitive>` (setFieldValue),
`field.value = <array variable>` — the `ptr->f = arr` aliasing write
(setFieldArrRef), `heapObj.fields.push({fresh})` (pushField), and a
later `createState` (emitCopies). -/
inductive EngineOp where
  | setVarPrim (name : String) (v : Value)
  | setVarArrRef (name src : String)
  | setVarPointsTo (name : String) (p : Option Value)
  | writeArrCell (name : String) (k : Nat) (v : Value)
  | writeArrCellArrRef (name : String) (k : Nat) (src : String)
  | bindVarPrim (name id ty vt : String) (v : Value) (pt : Option Value)
  | bindVarArray (name id ty vt : String) (vs : List Value)
  | bindHeapObj (key id ty addr : String)
  | setFieldValue (key fname : String) (v : Value)
  | setFieldArrRef (key fname src : String)
  | pushField (key fname : String) (v : Value) (vt : String)
  | emitCopies (step line : Nat)
deriving Repr, DecidableEq

def applyOp (M : Machine) : EngineOp → Machine
  | .setVarPrim name v =>
      (match alookup name M.vars with
       | some a =>
           (match M.σ.get a with
            | some (.varObj id nm ty vt _ pt) =>
                { M with σ := M.σ.set a (.varObj id nm ty vt (.prim v) pt) }
            | _ => M)
       | none => M)
  | .setVarPointsTo name p =>
      (match alookup name M.vars with
       | some a =>
           (match M.σ.get a with
            | some (.varObj id nm ty vt slot _) =>
                { M with σ := M.σ.set a (.varObj id nm ty vt slot p) }
            | _ => M)
       | none => M)
  | .setVarArrRef name src =>
      (match alookup src M.vars with
       | some b =>
           (match M.σ.get b with
            | some (.varObj _ _ _ _ (.ref arS) _) =>
                (match alookup name M.vars with
                 | some a =>
                     (match M.σ.get a with
                      | some (.varObj id nm ty vt _ pt) =>
                          { M with σ := M.σ.set a (.varObj id nm ty vt (.ref arS) pt) }
                      | _ => M)
                 | none => M)
            | _ => M)
       | none => M)
  | .writeArrCell name k v =>
      (match alookup name M.vars with
       | some a =>
           (match M.σ.get a with
            | some (.varObj _ _ _ _ (.ref ar) _) =>
                (match M.σ.get ar with
                 | some (.valArray vs) =>
                     { M with σ := M.σ.set ar (.valArray (jsArrayWriteS vs k (.prim v))) }
                 | _ => M)
            | _ => M)
       | none => M)
  | .writeArrCellArrRef name k src =>
      (match alookup src M.vars with
       | some b =>
           (match M.σ.get b with
            | some (.varObj _ _ _ _ (.ref arS) _) =>
                (match alookup name M.vars with
                 | some a =>
                     (match M.σ.get a with
                      | some (.varObj _ _ _ _ (.ref ar) _) =>
                          (match M.σ.get ar with
                           | some (.valArray vs) =>
                               { M with σ :=
                                   M.σ.set ar (.valArray (jsArrayWriteS vs k (.ref arS))) }
                           | _ => M)
                      | _ => M)
                 | none => M)
            | _ => M)
       | none => M)
  | .bindVarPrim name id ty vt v pt =>
      let (a, σ') := M.σ.alloc (.varObj id name ty vt (.prim v) pt)
      { σ := σ', vars := mapSet M.vars name a, heap := M.heap }
  | .bindVarArray name id ty vt vs =>
      let (ar, σ1) := M.σ.alloc (.valArray (vs.map Slot.prim))
      let (a, σ2) := σ1.alloc (.varObj id name ty vt (.ref ar) none)
      { σ := σ2, vars := mapSet M.vars name a, heap := M.heap }
  | .bindHeapObj key id ty addr =>
      let (fa, σ1) := M.σ.alloc (.refArray [])
      let (a, σ2) := σ1.alloc (.heapObj id ty addr fa)
      { σ := σ2, vars := M.vars, heap := mapSet M.heap key a }
  | .setFieldValue key fname v =>
      (match alookup key M.heap with
       | some a =>
           (match M.σ.get a with
            | some (.heapObj _ _ _ fa) =>
                (match M.σ.get fa with
                 | some (.refArray l) =>
                     (match l.find? (fun fad =>
                         match M.σ.get fad with
                         | some (.fieldObj nm _ _) => nm = fname
                         | _ => false) with
                      | some fad =>
                          (match M.σ.get fad with
                           | some (.fieldObj nm _ vt) =>
                               { M with σ := M.σ.set fad (.fieldObj nm (.prim v) vt) }
                           | _ => M)
                      | none => M)
                 | _ => M)
            | _ => M)
       | none => M)
  | .setFieldArrRef key fname src =>
      (match alookup src M.vars with
       | some b =>
           (match M.σ.get b with
            | some (.varObj _ _ _ _ (.ref arS) _) =>
                (match alookup key M.heap with
                 | some a =>
                     (match M.σ.get a with
                      | some (.heapObj _ _ _ fa) =>
                          (match M.σ.get fa with
                           | some (.refArray l) =>
                               (match l.find? (fun fad =>
                                   match M.σ.get fad with
                                   | some (.fieldObj nm _ _) => nm = fname
                                   | _ => false) with
                                | some fad =>
                                    (match M.σ.get fad with
                                     | some (.fieldObj nm _ vt) =>
                                         { M with σ :=
                                             M.σ.set fad (.fieldObj nm (.ref arS) vt) }
                                     | _ => M)
                                | none => M)
                           | _ => M)
                      | _ => M)
                 | none => M)
            | _ => M)
       | none => M)
  | .pushField key fname v vt =>
      (match alookup key M.heap with
       | some a =>
           (match M.σ.get a with
            | some (.heapObj _ _ _ fa) =>
                (match M.σ.get fa with
                 | some (.refArray l) =>
                     let (fad, σ1) := M.σ.alloc (.fieldObj fname (.prim v) vt)
                     { M with σ := σ1.set fa (.refArray (l ++ [fad])) }
                 | _ => M)
            | _ => M)
       | none => M)
  | .emitCopies step line =>
      { M with σ := (createStateS M step line).2 }

def applyOps (M : Machine) (ops : List EngineOp) : Machine :=
  ops.foldl applyOp M

/-- One engine step only grows the allocation frontier, leaves every
non-live allocated cell untouched, and only adds fresh addresses to the
live maps. -/
def GoodStep (M M' : Machine) : Prop :=
  M.σ.next ≤ M'.σ.next ∧
  (∀ a, a < M.σ.next → a ∉ liveAddrs M → M'.σ.get a = M.σ.get a) ∧
  (∀ b ∈ liveAddrs M', b ∈ liveAddrs M ∨ (M.σ.next ≤ b ∧ b < M'.σ.next))

/-- The invariant carried along the operations after an emission: the
machine agrees with the emission store on the snapshot's addresses, those
addresses lie below the frontier, and the live maps never reach them. -/
def SnapInv (σ₂ : Store) (S : List Nat) (M : Machine) : Prop :=
  (∀ a ∈ S, M.σ.get a = σ₂.get a) ∧
  (∀ a ∈ S, a < M.σ.next) ∧
  (∀ b ∈ liveAddrs M, b ∉ S) ∧
  (∀ b ∈ liveAddrs M, b < M.σ.next)

/-- A concrete machine: one live `int x = 5` and an empty heap. -/
def c3wMachine : Machine :=
  { σ := { mem := fun a =>
             if a = 0 then some (.varObj "var_x" "x" "int" "primitive" (.prim (.int 5)) none)
             else none,
           next := 1 },
    vars := [("x", 0)], heap := [] }

/-- A concrete operation sequence: overwrite `x`, declare an array, seat
a live array reference into `x` (after the emission), and emit a further
snapshot. -/
def c3wOps : List EngineOp :=
  [.setVarPrim "x" (.int 99),
   .bindVarArray "a" "var_a" "int[]" "array" [.int 1, .int 2],
   .setVarArrRef "x" "a",
   .emitCopies 1 2]

/-- A concrete machine before any aliasing statement: `int arr[2]={1,2}`
live at addresses 0 (record) and 1 (element array), and a heap node
`heap_1` with one primitive field `data` (record 2, fields array 3,
field object 4). -/
def c3cMachine0 : Machine :=
  { σ := { mem := fun a =>
             if a = 0 then
               some (.varObj "var_arr" "arr" "int[2]" "array"
                 (.ref 1) none)
             else if a = 1 then some (.valArray [.prim (.int 1), .prim (.int 2)])
             else if a = 2 then some (.heapObj "heap_1" "Node" "0x1000" 3)
             else if a = 3 then some (.refArray [4])
             else if a = 4 then some (.fieldObj "data" (.prim (.int 0)) "primitive")
             else none,
           next := 5 },
    vars := [("arr", 0)], heap := [("heap_1", 2)] }

/-- The machine after the source line `p->data = arr;`: the field `data`
now holds the live reference to `arr`'s element array. -/
def c3cMachine : Machine := applyOp c3cMachine0 (.setFieldArrRef "heap_1" "data" "arr")

end CodeVizStore

namespace CodeViz

/-! ## Shared lemmas about the map operations -/

theorem replace_hit {α : Type} (k : String) (v : α) (p1 : String) (p2 : α) (h : p1 = k) :
    (fun (p : String × α) => if p.1 = k then (k, v) else p) (p1, p2) = (k, v) := by
  simp [h]

theorem replace_miss {α : Type} (k : String) (v : α) (p1 : String) (p2 : α) (h : ¬ p1 = k) :
    (fun (p : String × α) => if p.1 = k then (k, v) else p) (p1, p2) = (p1, p2) := by
  simp [h]

theorem alookup_map_replace {α : Type} (m : List (String × α)) (k : String) (v : α) :
    alookup k (m.map (fun p => if p.1 = k then (k, v) else p)) =
      if (alookup k m).isSome then some v else none := by
  induction m with
  | nil => simp [alookup]
  | cons p rest ih =>
      obtain ⟨p1, p2⟩ := p
      by_cases h : p1 = k
      · rw [List.map_cons, if_pos (show (p1, p2).1 = k from h)]
        subst h
        simp [alookup, ih]
      · rw [List.map_cons, if_neg (show ¬ (p1, p2).1 = k from h)]
        have hne : k ≠ p1 := fun e => h e.symm
        simp [alookup, hne, ih]

theorem alookup_append_single {α : Type} (m : List (String × α)) (k : String) (v : α) :
    alookup k (m ++ [(k, v)]) =
      (match alookup k m with
       | some w => some w
       | none => some v) := by
  induction m with
  | nil => simp [alookup]
  | cons p rest ih =>
      obtain ⟨p1, p2⟩ := p
      by_cases h : k = p1 <;> simp [alookup, h, ih]

theorem alookup_mapSet_self {α : Type} (m : List (String × α)) (k : String) (v : α) :
    alookup k (mapSet m k v) = some v := by
  unfold mapSet
  split
  case isTrue h => rw [alookup_map_replace]; simp [h]
  case isFalse h =>
      rw [alookup_append_single]
      cases hlk : alookup k m with
      | none => rfl
      | some w => exact absurd (by simp [hlk]) h

theorem alookup_map_replace_ne {α : Type} (m : List (String × α)) {k k' : String} (v : α)
    (h : k' ≠ k) :
    alookup k' (m.map (fun p => if p.1 = k then (k, v) else p)) = alookup k' m := by
  induction m with
  | nil => simp
  | cons p rest ih =>
      obtain ⟨p1, p2⟩ := p
      by_cases hk : p1 = k
      · rw [List.map_cons, if_pos (show (p1, p2).1 = k from hk)]
        subst hk
        simp [alookup, h, ih]
      · rw [List.map_cons, if_neg (show ¬ (p1, p2).1 = k from hk)]
        by_cases hp : k' = p1 <;> simp [alookup, hp, ih]

theorem alookup_append_single_ne {α : Type} (m : List (String × α)) {k k' : String} (v : α)
    (h : k' ≠ k) :
    alookup k' (m ++ [(k, v)]) = alookup k' m := by
  induction m with
  | nil => simp [alookup, h]
  | cons p rest ih =>
      obtain ⟨p1, p2⟩ := p
      by_cases hp : k' = p1 <;> simp [alookup, hp, ih]

theorem alookup_mapSet_ne {α : Type} (m : List (String × α)) {k k' : String} (v : α)
    (h : k' ≠ k) : alookup k' (mapSet m k v) = alookup k' m := by
  unfold mapSet
  split
  · exact alookup_map_replace_ne m v h
  · exact alookup_append_single_ne m v h

end CodeViz

namespace CodeViz

/-! ## Claim C6 -/

/-- C6: the expression evaluator honors arithmetic operator precedence
and integer division/modulo: for any variable map, `eval("2+3*4") = 14`,
`eval("(2+3)*4") = 20`, `eval("10%3") = 1`, and `eval("7/2") = 3`. -/
theorem c6_eval_precedence :
    ∀ vars : VarMap,
      evaluateExpression "2+3*4" vars = .int 14 ∧
      evaluateExpression "(2+3)*4" vars = .int 20 ∧
      evaluateExpression "10%3" vars = .int 1 ∧
      evaluateExpression "7/2" vars = .int 3 :=
  fun _ => ⟨rfl, rfl, rfl, rfl⟩

/-! ## Claim C7 -/

/-- C7: division by zero and modulo by zero yield 0 rather than trapping,
both inside the multiplicative parser (`parseAddSub`/`parseMulDiv` on a
zero divisor, for any left operand, any variable map, and any spare fuel)
and in the compound assignment `x /= y` when the operand evaluates to 0;
the embedded evaluator is a total function by construction, and the two
closed evaluations witness the string-level behaviour. -/
theorem c7_div_mod_by_zero :
    (∀ (fuel : Nat) (vars : VarMap) (a : Int),
        parseAddSub (fuel + 4) [.num a, .op '/', .num 0] vars = (some 0, []) ∧
        parseAddSub (fuel + 4) [.num a, .op '%', .num 0] vars = (some 0, [])) ∧
    (∀ vars : VarMap,
        evaluateExpression "10/0" vars = .int 0 ∧
        evaluateExpression "10%0" vars = .int 0) ∧
    (∀ v : Int,
        (alookup "x" (parseLine 0 "x /= y;"
            [("x", { id := "var_x", name := "x", type := "int", value := .int v,
                     visualType := "primitive" }),
             ("y", { id := "var_y", name := "y", type := "int", value := .int 0,
                     visualType := "primitive" })] []).vars).map (·.value) =
          some (.int 0)) :=
  ⟨fun _ _ _ => ⟨rfl, rfl⟩, fun _ => ⟨rfl, rfl⟩, fun _ => rfl⟩

/-! ## Claim C9 (corrected) -/

/-- C9 counterexample: the claim says `eval("&x")` returns the
address-token string `"&x"` and `eval("*p")` returns the `points_to` of
`p`; on the code, the arithmetic evaluator returns first (its tokenizer
skips `&` and consumes `*` as an operator), so `eval("&x")` is the
numeric value of `x` and `eval("*p")` is 0. -/
theorem c9_counterexample :
    (evaluateExpression "&x"
        [("x", { id := "var_x", name := "x", type := "int", value := .int 10,
                 visualType := "primitive" })] = .int 10 ∧
      Value.int 10 ≠ Value.str "&x") ∧
    (evaluateExpression "*p"
        [("p", { id := "var_p", name := "p", type := "Node*", value := .str "heap_1",
                 visualType := "pointer", pointsTo := some (.str "heap_1") })] = .int 0 ∧
      Value.int 0 ≠ Value.str "heap_1") :=
  ⟨⟨rfl, by decide⟩, ⟨rfl, by decide⟩⟩

/-- C9 amended: `eval("&x")` returns the numeric value of `x` (the `&`
character is skipped by the tokenizer, so the expression reaches the
arithmetic evaluator, which returns before the address-of branch), and
`eval("*p")` returns 0 for every variable map (the `*` token is consumed
as an operator by `parsePrimary`); the address-of and dereference
branches of `evaluateExpression` are unreachable for these inputs. -/
theorem c9_amp_star_amended :
    (∀ n : Int,
        evaluateExpression "&x"
          [("x", { id := "var_x", name := "x", type := "int", value := .int n,
                   visualType := "primitive" })] = .int n) ∧
    (∀ vars : VarMap, evaluateExpression "*p" vars = .int 0) :=
  ⟨fun _ => rfl, fun _ => rfl⟩

end CodeViz

namespace CodeViz

/-! ## Claim C8 (corrected) -/

/-- C8 counterexample: the claim says `eval("sizeof(T)")` returns 1 for
`char`; on the code the anchored `sizeof(\w+)` variable pattern is tried
first and returns its default 4 for any name that is not a variable, so
the type-size table is unreachable and `eval("sizeof(char)") = 4`. -/
theorem c8_counterexample :
    evaluateExpression "sizeof(char)" [] = .int 4 ∧ Value.int 4 ≠ Value.int 1 :=
  ⟨rfl, by decide⟩

/-- C8 amended: for every expression that reaches the sizeof branches of
`evaluateExpression` (the earlier literal branches fail), `sizeof(arr)`
on a modelled array returns `len * 4`, the combined
`sizeof(arr)/sizeof(arr[0])` form returns `len` directly, and
`sizeof(T)` for a name not bound in the variable map returns 4 for every
`T` — including `char`, `bool`, `short`, `long` and `double`; the
type-size table of the source is dead code. -/
theorem c8_sizeof_amended :
    (∀ (e : String) (vars : VarMap) (name : String) (vr : Variable) (vs : List Value),
        e ≠ "" →
        stripSemi (jsTrim e) = e →
        (e = "nullptr" || e = "NULL") = false →
        matchIntLit e = none →
        matchHexLit e = none →
        matchCharLit e = none →
        strLitCheck e.data = false →
        e ≠ "true" → e ≠ "false" →
        searchMatch matchSizeofDivAt e.data = none →
        matchSizeofArr e = some name →
        alookup name vars = some vr →
        vr.value = .arr vs →
        evaluateExpression e vars = .int (vs.length * 4)) ∧
    (∀ (e : String) (vars : VarMap) (tyName : String),
        e ≠ "" →
        stripSemi (jsTrim e) = e →
        (e = "nullptr" || e = "NULL") = false →
        matchIntLit e = none →
        matchHexLit e = none →
        matchCharLit e = none →
        strLitCheck e.data = false →
        e ≠ "true" → e ≠ "false" →
        searchMatch matchSizeofDivAt e.data = none →
        matchSizeofArr e = some tyName →
        alookup tyName vars = none →
        evaluateExpression e vars = .int 4) ∧
    (∀ (e : String) (vars : VarMap) (name : String) (vr : Variable) (vs : List Value),
        e ≠ "" →
        stripSemi (jsTrim e) = e →
        (e = "nullptr" || e = "NULL") = false →
        matchIntLit e = none →
        matchHexLit e = none →
        matchCharLit e = none →
        strLitCheck e.data = false →
        e ≠ "true" → e ≠ "false" →
        searchMatch matchSizeofDivAt e.data = some name →
        alookup name vars = some vr →
        vr.value = .arr vs →
        evaluateExpression e vars = .int vs.length) := by
  refine ⟨?_, ?_, ?_⟩
  · intro e vars name vr vs h1 h2 h3 h4 h5 h6 h7 h8 h9 h10 h11 h12 h13
    simp [evaluateExpression, evalExpr, h1, h2, h3, h4, h5, h6, h7, h8, h9, h10, h11, h12, h13]
  · intro e vars tyName h1 h2 h3 h4 h5 h6 h7 h8 h9 h10 h11 h12
    simp [evaluateExpression, evalExpr, h1, h2, h3, h4, h5, h6, h7, h8, h9, h10, h11, h12]
  · intro e vars name vr vs h1 h2 h3 h4 h5 h6 h7 h8 h9 h10 h11 h12
    simp [evaluateExpression, evalExpr, h1, h2, h3, h4, h5, h6, h7, h8, h9, h10, h11, h12]

/-- C8 amended, witness: the theorem applied at `sizeof(arr)`,
`sizeof(char)` and `sizeof(arr)/sizeof(arr[0])` with `arr` a modelled
array of length 5. -/
theorem c8_sizeof_amended_witness :
    evaluateExpression "sizeof(arr)"
      [("arr", { id := "var_arr", name := "arr", type := "int[5]",
                 value := .arr [.int 1, .int 2, .int 3, .int 4, .int 5],
                 visualType := "array" })] = .int 20 ∧
    evaluateExpression "sizeof(char)" [] = .int 4 ∧
    evaluateExpression "sizeof(arr)/sizeof(arr[0])"
      [("arr", { id := "var_arr", name := "arr", type := "int[5]",
                 value := .arr [.int 1, .int 2, .int 3, .int 4, .int 5],
                 visualType := "array" })] = .int 5 := by
  refine ⟨?_, ?_, ?_⟩
  · exact c8_sizeof_amended.1 "sizeof(arr)" _ "arr" _ [.int 1, .int 2, .int 3, .int 4, .int 5]
      (by decide) rfl rfl rfl rfl rfl rfl (by decide) (by decide) rfl rfl rfl rfl
  · exact c8_sizeof_amended.2.1 "sizeof(char)" [] "char"
      (by decide) rfl rfl rfl rfl rfl rfl (by decide) (by decide) rfl rfl rfl
  · exact c8_sizeof_amended.2.2 "sizeof(arr)/sizeof(arr[0])" _ "arr" _
      [.int 1, .int 2, .int 3, .int 4, .int 5]
      (by decide) rfl rfl rfl rfl rfl rfl (by decide) (by decide) rfl rfl rfl

end CodeViz

namespace CodeViz

/-! ## Claim C5 -/

/-- C5: for every existing session, `stepForward` at the last step leaves
`currentStep` unchanged, returns that same last state, and sets
`atEnd = true` (so repeating it is idempotent); symmetrically,
`stepBackward` at step 0 stays at 0, returns state 0, and sets
`atStart = true` (idempotent). -/
theorem c5_step_bounds_idempotent :
    (∀ s : Session, s.states ≠ [] → s.currentStep = s.states.length - 1 →
        stepForward s = (s, { success := true, state := s.states.get? s.currentStep,
                              step := s.currentStep, totalSteps := s.states.length,
                              atEnd := true }) ∧
        stepForward (stepForward s).1 = stepForward s ∧
        (s.states.get? s.currentStep).isSome) ∧
    (∀ s : Session, s.states ≠ [] → s.currentStep = 0 →
        stepBackward s = (s, { success := true, state := s.states.get? 0, step := 0,
                               totalSteps := s.states.length, atStart := true }) ∧
        stepBackward (stepBackward s).1 = stepBackward s ∧
        (s.states.get? 0).isSome) := by
  constructor
  · intro s hne hlast
    have hlen : 1 ≤ s.states.length := List.length_pos.mpr hne
    have hcond : s.states.length ≤ s.currentStep + 1 := by omega
    have hfwd : stepForward s =
        (s, { success := true, state := s.states.get? s.currentStep,
              step := s.currentStep, totalSteps := s.states.length, atEnd := true }) := by
      unfold stepForward
      rw [if_pos hcond]
    refine ⟨hfwd, ?_, ?_⟩
    · rw [hfwd]
      exact hfwd
    · have hlt : s.currentStep < s.states.length := by omega
      cases hget : s.states.get? s.currentStep with
      | none => exact absurd (List.get?_eq_none.mp hget) (by omega)
      | some st => rfl
  · intro s hne h0
    have hlen : 1 ≤ s.states.length := List.length_pos.mpr hne
    have hbwd : stepBackward s =
        (s, { success := true, state := s.states.get? 0, step := 0,
              totalSteps := s.states.length, atStart := true }) := by
      unfold stepBackward
      rw [if_pos h0]
    refine ⟨hbwd, ?_, ?_⟩
    · rw [hbwd]
      exact hbwd
    · cases hget : s.states.get? 0 with
      | none => exact absurd (List.get?_eq_none.mp hget) (by omega)
      | some st => rfl

/-- C5, witness: the theorem applied to a one-state session sitting at
step 0, which is both its first and last step. -/
theorem c5_step_bounds_idempotent_witness :
    (stepForward { id := "s1", code := "", states := [createState 0 1 "Program start" [] [] none],
                   currentStep := 0 } =
      ({ id := "s1", code := "", states := [createState 0 1 "Program start" [] [] none],
         currentStep := 0 },
       { success := true,
         state := (Session.mk "s1" "" [createState 0 1 "Program start" [] [] none] 0).states.get?
           (Session.mk "s1" "" [createState 0 1 "Program start" [] [] none] 0).currentStep,
         step := 0, totalSteps := 1, atEnd := true })) ∧
    (stepBackward { id := "s1", code := "", states := [createState 0 1 "Program start" [] [] none],
                    currentStep := 0 } =
      ({ id := "s1", code := "", states := [createState 0 1 "Program start" [] [] none],
         currentStep := 0 },
       { success := true,
         state := (Session.mk "s1" "" [createState 0 1 "Program start" [] [] none] 0).states.get? 0,
         step := 0, totalSteps := 1, atStart := true })) :=
  ⟨(c5_step_bounds_idempotent.1
      { id := "s1", code := "", states := [createState 0 1 "Program start" [] [] none],
        currentStep := 0 } (by simp) (by simp)).1,
   (c5_step_bounds_idempotent.2
      { id := "s1", code := "", states := [createState 0 1 "Program start" [] [] none],
        currentStep := 0 } (by simp) rfl).1⟩

end CodeViz

namespace CodeViz

/-! ## Claim C1 (corrected) -/

/-- C1 counterexample: on the literal S1 source — a single line that
contains `int main` — every pass of `simulateExecution` skips the line
(the driver is line-oriented and `continue`s on any line containing
`int main`), so the trace is the single synthetic `Program start` state,
not the 3 states the claim expects. -/
theorem c1_counterexample :
    (simulateExecution "int main()\x7b int x=10; int y=20; int sum=x+y; return 0; \x7d").length = 1 ∧
    ¬ ((simulateExecution "int main()\x7b int x=10; int y=20; int sum=x+y; return 0; \x7d").length = 3) :=
  ⟨rfl, by decide⟩

/-- C1 amended: with the S1 program formatted one statement per line (the
only formatting the line-oriented engine can trace), the trace has
exactly 3 states carrying the actions "Created x = 10", "Created y = 20",
"Created sum = 30" in that order, and the final state's variables are
x=10, y=20, sum=30, each with visualType "primitive". -/
theorem c1_amended_s1_trace :
    (simulateExecution "int main()\x7b\nint x=10;\nint y=20;\nint sum=x+y;\nreturn 0;\n\x7d").length = 3 ∧
    (simulateExecution "int main()\x7b\nint x=10;\nint y=20;\nint sum=x+y;\nreturn 0;\n\x7d").map (·.action) =
      [some "Created x = 10", some "Created y = 20", some "Created sum = 30"] ∧
    ((simulateExecution "int main()\x7b\nint x=10;\nint y=20;\nint sum=x+y;\nreturn 0;\n\x7d").get? 2).map
        (fun st => st.variables_.map (fun v => (v.name, v.value, v.visualType))) =
      some [("x", .int 10, "primitive"), ("y", .int 20, "primitive"),
            ("sum", .int 30, "primitive")] :=
  ⟨rfl, rfl, rfl⟩

end CodeViz

namespace CodeViz

/-! ## Claim C2 (corrected) -/

theorem get?_append_lt {α : Type} (l1 l2 : List α) :
    ∀ j, j < l1.length → (l1 ++ l2).get? j = l1.get? j := by
  induction l1 with
  | nil => intro j h; simp at h
  | cons a rest ih =>
      intro j h
      cases j with
      | zero => rfl
      | succ n => exact ih n (by simpa using h)

theorem get?_append_ge {α : Type} (l1 l2 : List α) :
    ∀ j, l1.length ≤ j → (l1 ++ l2).get? j = l2.get? (j - l1.length) := by
  induction l1 with
  | nil => intro j h; simp
  | cons a rest ih =>
      intro j h
      cases j with
      | zero => exact absurd h (by simp)
      | succ n =>
          show (rest ++ l2).get? n = l2.get? (n + 1 - (rest.length + 1))
          rw [ih n (by simpa using h)]
          congr 1
          omega

theorem jsArrayWrite_length_lt (vs : List Value) (k : Nat) (v : Value) (h : k < vs.length) :
    (jsArrayWrite vs k v).length = vs.length := by
  unfold jsArrayWrite
  rw [if_pos h]
  exact List.length_set vs k v

theorem jsArrayWrite_length_ge (vs : List Value) (k : Nat) (v : Value) (h : vs.length ≤ k) :
    (jsArrayWrite vs k v).length = k + 1 := by
  unfold jsArrayWrite
  rw [if_neg (not_lt.mpr h)]
  rw [List.length_append, List.length_append, List.length_replicate]
  simp only [List.length_cons, List.length_nil]
  omega

theorem jsArrayWrite_get_self (vs : List Value) (k : Nat) (v : Value) :
    (jsArrayWrite vs k v).get? k = some v := by
  by_cases h : k < vs.length
  · unfold jsArrayWrite
    rw [if_pos h]
    exact List.get?_set_eq_of_lt v h
  · have hge : vs.length ≤ k := not_lt.mp h
    have hlen2 : (vs ++ List.replicate (k - vs.length) Value.undef).length = k := by
      rw [List.length_append, List.length_replicate]
      omega
    unfold jsArrayWrite
    rw [if_neg h]
    rw [get?_append_ge _ _ k (by rw [hlen2])]
    rw [hlen2]
    simp

theorem jsArrayWrite_get_ne (vs : List Value) (k : Nat) (v : Value) :
    ∀ j, j < vs.length → j ≠ k → (jsArrayWrite vs k v).get? j = vs.get? j := by
  intro j hj hne
  by_cases h : k < vs.length
  · unfold jsArrayWrite
    rw [if_pos h]
    exact List.get?_set_ne v _ (fun e => hne e.symm)
  · have hge : vs.length ≤ k := not_lt.mp h
    unfold jsArrayWrite
    rw [if_neg h]
    rw [get?_append_lt _ _ j (by rw [List.length_append, List.length_replicate]; omega)]
    exact get?_append_lt _ _ j hj

/-- C2 counterexample: the claim says a literal out-of-range index write
is dropped, leaving the array's contents and length unchanged; on the
code, `arr.value[5] = 9` on a length-3 array extends it to length 6 with
`undefined` holes (JS array-index assignment), and the branch still
reports `changed`. -/
theorem c2_counterexample :
    ((alookup "arr" (parseLine 0 "arr[5] = 9;"
        [("arr", { id := "var_arr", name := "arr", type := "int[3]",
                   value := .arr [.int 1, .int 2, .int 3], visualType := "array" })]
        []).vars).map (·.value)) =
      some (.arr [.int 1, .int 2, .int 3, .undef, .undef, .int 9]) ∧
    ¬ (([(Value.int 1), .int 2, .int 3, .undef, .undef, .int 9] : List Value).length = 3) :=
  ⟨rfl, by decide⟩

/-- C2 amended: for every line the array-write pattern parses as
`name[k] = expr` (and the two declaration patterns reject), with `name`
bound to a modelled array of contents `vs`: the write always happens —
in range it mutates only slot `k` and preserves the length; with
`k ≥ len` JS extends the array to length `k+1`, padding with
`undefined` (out-of-range writes are not dropped; only negative literals
never parse, the index pattern being `(\d+)`). -/
theorem c2_array_write_amended :
    ∀ (now : Nat) (line : String) (vars : VarMap) (heap : Heap) (name : String)
      (k : Nat) (exprStr : String) (av : Variable) (vs : List Value),
      matchPrimitive (jsTrim (dropComment line)) = none →
      matchArrayDecl (jsTrim (dropComment line)) = none →
      matchArrayMod (jsTrim (dropComment line)) = some (name, k, exprStr) →
      alookup name vars = some av →
      av.value = .arr vs →
      (alookup name (parseLine now line vars heap).vars =
        some { av with value := .arr (jsArrayWrite vs k (evaluateExpression exprStr vars)) }) ∧
      (parseLine now line vars heap).changed = true ∧
      (k < vs.length → (jsArrayWrite vs k (evaluateExpression exprStr vars)).length = vs.length) ∧
      (vs.length ≤ k → (jsArrayWrite vs k (evaluateExpression exprStr vars)).length = k + 1) ∧
      ((jsArrayWrite vs k (evaluateExpression exprStr vars)).get? k =
        some (evaluateExpression exprStr vars)) ∧
      (∀ j, j < vs.length → j ≠ k →
        (jsArrayWrite vs k (evaluateExpression exprStr vars)).get? j = vs.get? j) := by
  intro now line vars heap name k exprStr av vs h1 h2 h3 h4 h5
  have hres : parseLine now line vars heap =
      { changed := true,
        action := some (name ++ "[" ++ toString k ++ "] changed: " ++
          valueToString (jsArrayRead vs k) ++ " → " ++
          valueToString (evaluateExpression exprStr vars)),
        vars := mapSet vars name
          { av with value := .arr (jsArrayWrite vs k (evaluateExpression exprStr vars)) },
        heap := heap } := by
    unfold parseLine
    simp only [tryPrimitive, tryArrayDecl, tryArrayMod, h1, h2, h3, h4, h5,
      Option.bind_eq_bind, Option.none_bind, Option.some_bind]
  refine ⟨?_, ?_, ?_, ?_, ?_, ?_⟩
  · rw [hres]
    exact alookup_mapSet_self vars name _
  · rw [hres]
  · exact fun h => jsArrayWrite_length_lt vs k _ h
  · exact fun h => jsArrayWrite_length_ge vs k _ h
  · exact jsArrayWrite_get_self vs k _
  · exact jsArrayWrite_get_ne vs k _

/-- C2 amended, witness: the theorem applied to `arr[5] = 9;` on a
length-3 array (the write extends to length 6) — the hypotheses checked
by evaluation. -/
theorem c2_array_write_amended_witness :
    alookup "arr" (parseLine 0 "arr[5] = 9;"
        [("arr", { id := "var_arr", name := "arr", type := "int[3]",
                   value := .arr [.int 1, .int 2, .int 3], visualType := "array" })]
        []).vars =
      some { id := "var_arr", name := "arr", type := "int[3]",
             value := .arr (jsArrayWrite [.int 1, .int 2, .int 3] 5
               (evaluateExpression "9" [("arr",
                 { id := "var_arr", name := "arr", type := "int[3]",
                   value := .arr [.int 1, .int 2, .int 3], visualType := "array" })])),
             visualType := "array", pointsTo := none } :=
  (c2_array_write_amended 0 "arr[5] = 9;"
      [("arr", { id := "var_arr", name := "arr", type := "int[3]",
                 value := .arr [.int 1, .int 2, .int 3], visualType := "array" })]
      [] "arr" 5 "9" _ [.int 1, .int 2, .int 3] rfl rfl rfl rfl rfl).1

end CodeViz

namespace CodeViz

/-! ## Claim C4 -/

theorem clampIter_bound (raw : JSNum) :
    clampIter raw = none ∨ ∃ n : Int, clampIter raw = some n ∧ 0 ≤ n ∧ n ≤ 50 := by
  cases raw with
  | none => exact Or.inl rfl
  | some r =>
      right
      refine ⟨min (max r 0) 50, rfl, ?_, ?_⟩
      · have := le_max_right r (0 : Int)
        omega
      · exact min_le_right _ _

theorem detectLoopAt_iterations (lines : List String) (vars : VarMap) (i : Nat)
    (li : LoopInfo) (h : detectLoopAt lines vars i = some li) :
    li.iterations = some 10 ∨ ∃ raw, li.iterations = clampIter raw := by
  simp only [detectLoopAt] at h
  cases hf : searchMatch matchForAt (jsTrim (lineAt lines i)).data with
  | some fh =>
      simp only [hf, Option.isSome_some, Bool.true_or, if_true, Option.some.injEq] at h
      rw [← h]
      exact Or.inr ⟨_, rfl⟩
  | none =>
      cases hw : searchMatch matchWhileAt (jsTrim (lineAt lines i)).data with
      | some cond =>
          simp only [hf, hw, Option.isSome_none, Option.isSome_some, Bool.false_or, if_true,
            Option.some.injEq] at h
          rw [← h]
          exact Or.inl rfl
      | none =>
          simp [hf, hw] at h

theorem identifyLoops_iterations (lines : List String) (vars : VarMap) (li : LoopInfo)
    (h : li ∈ identifyLoops lines vars) :
    li.iterations = some 10 ∨ ∃ raw, li.iterations = clampIter raw := by
  unfold identifyLoops at h
  have main : ∀ (idxs : List Nat) (acc : List LoopInfo),
      (∀ x ∈ acc, x.iterations = some 10 ∨ ∃ raw, x.iterations = clampIter raw) →
      ∀ x ∈ idxs.foldl (fun acc i =>
          match detectLoopAt lines vars i with
          | some l => acc ++ [l]
          | none => acc) acc,
        x.iterations = some 10 ∨ ∃ raw, x.iterations = clampIter raw := by
    intro idxs
    induction idxs with
    | nil => intro acc hacc x hx; exact hacc x hx
    | cons i rest ih =>
        intro acc hacc x hx
        simp only [List.foldl_cons] at hx
        refine ih _ ?_ x hx
        intro y hy
        cases hd : detectLoopAt lines vars i with
        | none => rw [hd] at hy; exact hacc y hy
        | some l =>
            rw [hd] at hy
            rcases List.mem_append.mp hy with hmem | hmem
            · exact hacc y hmem
            · rw [List.mem_singleton.mp hmem]
              exact detectLoopAt_iterations lines vars i l hd
  exact main _ [] (by simp) li h

theorem reResolveLoop_iterations (li : LoopInfo) (vars' : VarMap) :
    (reResolveLoop li vars').iterations = li.iterations ∨
    ∃ raw, (reResolveLoop li vars').iterations = clampIter raw := by
  unfold reResolveLoop
  split
  · cases alookup li.endValStr vars' with
    | some ev => exact Or.inr ⟨_, rfl⟩
    | none => exact Or.inl rfl
  · exact Or.inl rfl

theorem execIterations_of_shape (li : LoopInfo)
    (h : li.iterations = some 10 ∨ ∃ raw, li.iterations = clampIter raw) :
    execIterations li ≤ 50 := by
  unfold execIterations
  rcases h with h | ⟨raw, h⟩
  · rw [h]; decide
  · rw [h]
    rcases clampIter_bound raw with hc | ⟨n, hc, h0, h50⟩
    · rw [hc]; exact Nat.zero_le _
    · rw [hc]
      show n.toNat ≤ 50
      omega

/-- C4: for every loop identified by the engine (a `for` loop under any
recognised operator, with literal or variable bounds, or a `while` loop),
the iteration count actually used to expand the loop body — the number of
executions of `for (iter = 0; iter < iterations; iter++)`, which also
covers a NaN or negative count running zero times — lies in `[0, 50]`,
both as identified and after re-resolving a variable end bound against
the live variable map at loop entry. -/
theorem c4_loop_iterations_clamped :
    ∀ (lines : List String) (vars vars' : VarMap) (li : LoopInfo),
      li ∈ identifyLoops lines vars →
      execIterations li ≤ 50 ∧ execIterations (reResolveLoop li vars') ≤ 50 := by
  intro lines vars vars' li h
  have hshape := identifyLoops_iterations lines vars li h
  refine ⟨execIterations_of_shape li hshape, ?_⟩
  rcases reResolveLoop_iterations li vars' with he | ⟨raw, he⟩
  · exact execIterations_of_shape _ (by rw [he]; exact hshape)
  · exact execIterations_of_shape _ (Or.inr ⟨raw, he⟩)

/-- C4, witness: the theorem applied to a `for` loop whose literal bound
is 99 (identified with `iterations` clamped to 50), under an arbitrary
live map re-resolution. -/
theorem c4_loop_iterations_clamped_witness :
    execIterations
        { kind := "for", startLine := 1, endLine := 3, varName := "i",
          startVal := .int 0, endVal := .int 99, endValStr := "99",
          operator := "<", increment := "++", condition := "",
          iterations := some 50 } ≤ 50 ∧
    execIterations
        (reResolveLoop
          { kind := "for", startLine := 1, endLine := 3, varName := "i",
            startVal := .int 0, endVal := .int 99, endValStr := "99",
            operator := "<", increment := "++", condition := "",
            iterations := some 50 } []) ≤ 50 :=
  c4_loop_iterations_clamped ["for(int i=0;i<99;i++)\x7b", "x++;", "\x7d"] [] []
    { kind := "for", startLine := 1, endLine := 3, varName := "i",
      startVal := .int 0, endVal := .int 99, endValStr := "99",
      operator := "<", increment := "++", condition := "",
      iterations := some 50 }
    (by decide)

end CodeViz

namespace CodeViz

/-! ## Claim C10 -/

theorem createState_frame_ok (step line : Nat) (src : String) (vars : VarMap) (heap : Heap)
    (action : Option String) :
    (createState step line src vars heap action).stackFrames.length = 1 ∧
    ∀ fr ∈ (createState step line src vars heap action).stackFrames,
      fr.functionName = "main" ∧
      fr.line = (createState step line src vars heap action).currentLine ∧
      fr.variables_ = (createState step line src vars heap action).variables_ := by
  refine ⟨rfl, ?_⟩
  intro fr hfr
  rw [List.mem_singleton.mp hfr]
  exact ⟨rfl, rfl, rfl⟩

set_option maxHeartbeats 1000000 in
theorem mem_simulateLoopLine_states (li : LoopInfo) (baseStep iter : Nat) (acc : BodyAcc)
    (ln : Nat) (content : String) :
    ∀ s ∈ (simulateLoopLine li baseStep iter acc ln content).states,
      s ∈ acc.states ∨
      (s.stackFrames.length = 1 ∧ ∀ fr ∈ s.stackFrames,
        fr.functionName = "main" ∧ fr.line = s.currentLine ∧ fr.variables_ = s.variables_) := by
  intro s hs
  simp only [simulateLoopLine] at hs
  split at hs
  · split at hs <;> exact Or.inl hs
  · split at hs
    · exact Or.inl hs
    · split at hs
      · exact Or.inl hs
      · split at hs
        · rcases List.mem_append.mp hs with h | h
          · exact Or.inl h
          · rw [List.mem_singleton.mp h]
            exact Or.inr (createState_frame_ok _ _ _ _ _ _)
        · exact Or.inl hs

theorem mem_bodyFoldl (li : LoopInfo) (baseStep iter : Nat) :
    ∀ (body : List (Nat × String)) (acc : BodyAcc),
      ∀ s ∈ (body.foldl (fun a p => simulateLoopLine li baseStep iter a p.1 p.2) acc).states,
        s ∈ acc.states ∨
        (s.stackFrames.length = 1 ∧ ∀ fr ∈ s.stackFrames,
          fr.functionName = "main" ∧ fr.line = s.currentLine ∧
          fr.variables_ = s.variables_) := by
  intro body
  induction body with
  | nil => intro acc s hs; exact Or.inl hs
  | cons p rest ih =>
      intro acc s hs
      simp only [List.foldl_cons] at hs
      rcases ih _ s hs with h | h
      · exact mem_simulateLoopLine_states li baseStep iter acc p.1 p.2 s h
      · exact Or.inr h

theorem mem_simulateLoopIter_states (li : LoopInfo) (lines : List String) (baseStep : Nat)
    (acc : BodyAcc) (iter : Nat) :
    ∀ s ∈ (simulateLoopIter li lines baseStep acc iter).states,
      s ∈ acc.states ∨
      (s.stackFrames.length = 1 ∧ ∀ fr ∈ s.stackFrames,
        fr.functionName = "main" ∧ fr.line = s.currentLine ∧
        fr.variables_ = s.variables_) := by
  intro s hs
  simp only [simulateLoopIter] at hs
  rcases mem_bodyFoldl li baseStep iter (bodyLines lines li) _ s hs with h | h
  · exact Or.inl h
  · exact Or.inr h

theorem mem_simulateLoop_states (li : LoopInfo) (lines : List String) (vars : VarMap)
    (heap : Heap) (baseStep tick : Nat) :
    ∀ s ∈ (simulateLoop li lines vars heap baseStep tick).states,
      s.stackFrames.length = 1 ∧ ∀ fr ∈ s.stackFrames,
        fr.functionName = "main" ∧ fr.line = s.currentLine ∧
        fr.variables_ = s.variables_ := by
  have main : ∀ (iters : List Nat) (acc : BodyAcc),
      (∀ s ∈ acc.states,
        s.stackFrames.length = 1 ∧ ∀ fr ∈ s.stackFrames,
          fr.functionName = "main" ∧ fr.line = s.currentLine ∧
          fr.variables_ = s.variables_) →
      ∀ s ∈ (iters.foldl (fun a it => simulateLoopIter li lines baseStep a it) acc).states,
        s.stackFrames.length = 1 ∧ ∀ fr ∈ s.stackFrames,
          fr.functionName = "main" ∧ fr.line = s.currentLine ∧
          fr.variables_ = s.variables_ := by
    intro iters
    induction iters with
    | nil => intro acc hacc s hs; exact hacc s hs
    | cons it rest ih =>
        intro acc hacc s hs
        simp only [List.foldl_cons] at hs
        refine ih _ ?_ s hs
        intro y hy
        rcases mem_simulateLoopIter_states li lines baseStep acc it y hy with h | h
        · exact hacc y h
        · exact h
  intro s hs
  simp only [simulateLoop] at hs
  refine main _ _ ?_ s hs
  intro y hy
  exact absurd hy (List.not_mem_nil y)

set_option maxHeartbeats 1000000 in
theorem mem_passThree_states (lines : List String) (loops : List LoopInfo) :
    ∀ (fuel i : Nat) (acc : ExecAcc),
      (∀ s ∈ acc.states,
        s.stackFrames.length = 1 ∧ ∀ fr ∈ s.stackFrames,
          fr.functionName = "main" ∧ fr.line = s.currentLine ∧
          fr.variables_ = s.variables_) →
      ∀ s ∈ (passThree lines loops fuel i acc).states,
        s.stackFrames.length = 1 ∧ ∀ fr ∈ s.stackFrames,
          fr.functionName = "main" ∧ fr.line = s.currentLine ∧
          fr.variables_ = s.variables_ := by
  intro fuel
  induction fuel with
  | zero => intro i acc hacc s hs; exact hacc s hs
  | succ fuel ih =>
      intro i acc hacc s hs
      simp only [passThree] at hs
      split at hs
      case isTrue =>
        split at hs
        · exact ih _ _ hacc s hs
        · split at hs
          · refine ih _ _ ?_ s hs
            intro y hy
            exact hacc y hy
          · split at hs
            · exact ih _ _ hacc s hs
            · split at hs
              · exact ih _ _ hacc s hs
              · split at hs
                · exact ih _ _ hacc s hs
                · split at hs
                  · exact ih _ _ hacc s hs
                  · split at hs
                    case h_1 li hfind =>
                      split at hs
                      · refine ih _ _ ?_ s hs
                        intro y hy
                        rcases List.mem_append.mp hy with h | h
                        · exact hacc y h
                        · exact mem_simulateLoop_states _ _ _ _ _ _ y h
                      · exact ih _ _ hacc s hs
                    case h_2 hfind =>
                      split at hs
                      · refine ih _ _ ?_ s hs
                        intro y hy
                        rcases List.mem_append.mp hy with h | h
                        · exact hacc y h
                        · rw [List.mem_singleton.mp h]
                          exact createState_frame_ok _ _ _ _ _ _
                      · refine ih _ _ ?_ s hs
                        intro y hy
                        exact hacc y hy
      case isFalse => exact hacc s hs

/-- C10: every State emitted by the engine has exactly one stack frame;
that frame's functionName is "main", its line equals the state's
currentLine, and its variables list is the same snapshot as the state's
top-level variables list. -/
theorem c10_single_main_frame :
    ∀ (code : String) (s : StateR), s ∈ simulateExecution code →
      s.stackFrames.length = 1 ∧ ∀ fr ∈ s.stackFrames,
        fr.functionName = "main" ∧ fr.line = s.currentLine ∧
        fr.variables_ = s.variables_ := by
  intro code s hs
  simp only [simulateExecution] at hs
  split at hs
  · rw [List.mem_singleton.mp hs]
    exact createState_frame_ok _ _ _ _ _ _
  · refine mem_passThree_states _ _ _ _ _ ?_ s hs
    intro y hy
    exact absurd hy (List.not_mem_nil y)

/-- C10, witness: the theorem applied to the first state of a concrete
trace. -/
theorem c10_single_main_frame_witness :
    c10wState ∈ simulateExecution c10wProg ∧ c10wState.stackFrames.length = 1 :=
  ⟨by decide, (c10_single_main_frame c10wProg c10wState (by decide)).1⟩

end CodeViz

namespace CodeVizStore

open CodeViz

/-! ## Claim C3: store-level lemmas -/

theorem get_set_self (σ : Store) (t : Nat) (c : Cell) : (σ.set t c).get t = some c := by
  simp [Store.set, Store.get]

theorem get_set_ne (σ : Store) (t : Nat) (c : Cell) (a : Nat) (h : a ≠ t) :
    (σ.set t c).get a = σ.get a := by
  simp [Store.set, Store.get, h]

theorem next_set (σ : Store) (t : Nat) (c : Cell) : (σ.set t c).next = σ.next := rfl

theorem alloc_fst (σ : Store) (c : Cell) : (σ.alloc c).1 = σ.next := rfl

theorem alloc_snd_next (σ : Store) (c : Cell) : (σ.alloc c).2.next = σ.next + 1 := rfl

theorem get_alloc_lt (σ : Store) (c : Cell) (a : Nat) (h : a < σ.next) :
    (σ.alloc c).2.get a = σ.get a := by
  simp [Store.alloc, Store.get, Nat.ne_of_lt h]

theorem get_alloc_self (σ : Store) (c : Cell) : (σ.alloc c).2.get σ.next = some c := by
  simp [Store.alloc, Store.get]

theorem varArrOf_congr (σ σ' : Store) (a : Nat) (h : σ'.get a = σ.get a) :
    varArrOf σ' a = varArrOf σ a := by
  unfold varArrOf
  rw [h]

theorem fieldsArrOf_congr (σ σ' : Store) (a : Nat) (h : σ'.get a = σ.get a) :
    fieldsArrOf σ' a = fieldsArrOf σ a := by
  unfold fieldsArrOf
  rw [h]

theorem fieldAddrsOf_congr (σ σ' : Store) (a : Nat) (h : σ'.get a = σ.get a) :
    fieldAddrsOf σ' a = fieldAddrsOf σ a := by
  unfold fieldAddrsOf
  rw [h]

theorem alookup_mem_map_snd {α : Type} (k : String) (m : List (String × α)) (v : α)
    (h : alookup k m = some v) : v ∈ m.map (·.2) := by
  induction m with
  | nil => simp [alookup] at h
  | cons p rest ih =>
      obtain ⟨k', v'⟩ := p
      simp only [alookup] at h
      by_cases hk : k = k'
      · rw [if_pos hk] at h
        injection h with h
        subst h
        simp
      · rw [if_neg hk] at h
        simp [ih h]

theorem mem_mapSet_snd {α : Type} (m : List (String × α)) (k : String) (v : α) (b : α)
    (h : b ∈ (mapSet m k v).map (·.2)) : b ∈ m.map (·.2) ∨ b = v := by
  unfold mapSet at h
  split at h
  · rw [List.mem_map] at h
    obtain ⟨p, hp, hb⟩ := h
    rw [List.mem_map] at hp
    obtain ⟨q, hq, hpq⟩ := hp
    by_cases hk : q.1 = k
    · rw [if_pos hk] at hpq
      subst hpq
      right
      exact hb.symm
    · rw [if_neg hk] at hpq
      subst hpq
      left
      exact List.mem_map.mpr ⟨q, hq, hb⟩
  · rw [List.map_append, List.mem_append] at h
    rcases h with h | h
    · exact Or.inl h
    · right
      simpa using h

theorem mem_liveAddrs_iff (M : Machine) (b : Nat) :
    b ∈ liveAddrs M ↔
      b ∈ M.vars.map (·.2) ∨
      (∃ r, r ∈ M.vars.map (·.2) ∧ varArrOf M.σ r = some b) ∨
      b ∈ M.heap.map (·.2) ∨
      (∃ r, r ∈ M.heap.map (·.2) ∧ fieldsArrOf M.σ r = some b) ∨
      (∃ fa, (∃ r, r ∈ M.heap.map (·.2) ∧ fieldsArrOf M.σ r = some fa) ∧
        b ∈ fieldAddrsOf M.σ fa) := by
  simp only [liveAddrs, List.mem_append, List.mem_filterMap, List.mem_flatMap]
  constructor
  · rintro ((((h | h) | h) | h) | h)
    · exact Or.inl h
    · exact Or.inr (Or.inl h)
    · exact Or.inr (Or.inr (Or.inl h))
    · exact Or.inr (Or.inr (Or.inr (Or.inl h)))
    · exact Or.inr (Or.inr (Or.inr (Or.inr h)))
  · rintro (h | h | h | h | h)
    · exact Or.inl (Or.inl (Or.inl (Or.inl h)))
    · exact Or.inl (Or.inl (Or.inl (Or.inr h)))
    · exact Or.inl (Or.inl (Or.inr h))
    · exact Or.inl (Or.inr h)
    · exact Or.inr h

theorem mem_stateAddrs_iff (σ : Store) (st : StateRef) (b : Nat) :
    b ∈ stateAddrs σ st ↔
      b ∈ st.varAddrs ∨
      (∃ r, r ∈ st.varAddrs ∧ varArrOf σ r = some b) ∨
      b ∈ st.heapAddrs ∨
      (∃ r, r ∈ st.heapAddrs ∧ fieldsArrOf σ r = some b) ∨
      (∃ fa, (∃ r, r ∈ st.heapAddrs ∧ fieldsArrOf σ r = some fa) ∧
        b ∈ fieldAddrsOf σ fa) := by
  simp only [stateAddrs, List.mem_append, List.mem_filterMap, List.mem_flatMap]
  constructor
  · rintro ((((h | h) | h) | h) | h)
    · exact Or.inl h
    · exact Or.inr (Or.inl h)
    · exact Or.inr (Or.inr (Or.inl h))
    · exact Or.inr (Or.inr (Or.inr (Or.inl h)))
    · exact Or.inr (Or.inr (Or.inr (Or.inr h)))
  · rintro (h | h | h | h | h)
    · exact Or.inl (Or.inl (Or.inl (Or.inl h)))
    · exact Or.inl (Or.inl (Or.inl (Or.inr h)))
    · exact Or.inl (Or.inl (Or.inr h))
    · exact Or.inl (Or.inr h)
    · exact Or.inr h

theorem goodStep_refl (M : Machine) : GoodStep M M :=
  ⟨Nat.le_refl _, fun _ _ _ => rfl, fun _ hb => Or.inl hb⟩

end CodeVizStore

namespace CodeVizStore

open CodeViz

/-! ## Claim C3: the copy functions allocate fresh objects only -/

theorem get_alloc2_lt (σ : Store) (c1 c2 : Cell) (x : Nat) (h : x < σ.next) :
    ((σ.alloc c1).2.alloc c2).2.get x = σ.get x := by
  have h2 : x < (σ.alloc c1).2.next := by rw [alloc_snd_next]; omega
  rw [get_alloc_lt _ c2 x h2, get_alloc_lt _ c1 x h]

theorem copyVar_spec (σ : Store) (a : Nat) :
    σ.next ≤ (copyVar σ a).2.next ∧
    (σ.next ≤ (copyVar σ a).1 ∧ (copyVar σ a).1 < (copyVar σ a).2.next) ∧
    (∀ x, x < σ.next → (copyVar σ a).2.get x = σ.get x) := by
  unfold copyVar
  split
  · refine ⟨?_, ⟨?_, ?_⟩, ?_⟩
    · simp [alloc_fst, alloc_snd_next] <;> omega
    · simp [alloc_fst, alloc_snd_next] <;> omega
    · simp [alloc_fst, alloc_snd_next] <;> omega
    · intro x hx
      exact get_alloc2_lt _ _ _ _ hx
  · refine ⟨?_, ⟨?_, ?_⟩, ?_⟩
    · simp [alloc_fst, alloc_snd_next] <;> omega
    · simp [alloc_fst, alloc_snd_next] <;> omega
    · simp [alloc_fst, alloc_snd_next] <;> omega
    · intro x hx
      exact get_alloc_lt _ _ _ hx
  · refine ⟨?_, ⟨?_, ?_⟩, ?_⟩
    · simp [alloc_fst, alloc_snd_next] <;> omega
    · simp [alloc_fst, alloc_snd_next] <;> omega
    · simp [alloc_fst, alloc_snd_next] <;> omega
    · intro x hx
      exact get_alloc_lt _ _ _ hx

theorem copyVar_varArr (σ : Store) (a : Nat) :
    ∀ ar, varArrOf (copyVar σ a).2 (copyVar σ a).1 = some ar →
      σ.next ≤ ar ∧ ar < (copyVar σ a).2.next := by
  unfold copyVar
  split
  · intro ar h
    unfold varArrOf at h
    rw [alloc_fst, get_alloc_self] at h
    simp only [cellVarArr, Option.some.injEq] at h
    rw [alloc_fst] at h
    subst h
    refine ⟨Nat.le_refl _, ?_⟩
    simp [alloc_snd_next] <;> omega
  · rename_i cell hno hget
    intro ar h
    unfold varArrOf at h
    rw [alloc_fst, get_alloc_self] at h
    cases cell with
    | varObj id nm ty vt slot pt =>
        cases slot with
        | prim v => simp [cellVarArr] at h
        | ref ar0 => exact (hno id nm ty vt ar0 pt rfl).elim
    | heapObj id ty ad fa => simp [cellVarArr] at h
    | fieldObj nm v vt => simp [cellVarArr] at h
    | valArray vs => simp [cellVarArr] at h
    | refArray l => simp [cellVarArr] at h
  · intro ar h
    unfold varArrOf at h
    rw [alloc_fst, get_alloc_self] at h
    simp [cellVarArr] at h

theorem copyVars_spec : ∀ (l : List Nat) (σ : Store),
    σ.next ≤ (copyVars σ l).2.next ∧
    (∀ x, x < σ.next → (copyVars σ l).2.get x = σ.get x) ∧
    (∀ b ∈ (copyVars σ l).1,
      (σ.next ≤ b ∧ b < (copyVars σ l).2.next) ∧
      (∀ ar, varArrOf (copyVars σ l).2 b = some ar →
        σ.next ≤ ar ∧ ar < (copyVars σ l).2.next)) := by
  intro l
  induction l with
  | nil =>
      intro σ
      refine ⟨Nat.le_refl _, fun x _ => rfl, ?_⟩
      intro b hb
      simp [copyVars] at hb
  | cons a rest ih =>
      intro σ
      obtain ⟨h1, h2, h3⟩ := copyVar_spec σ a
      obtain ⟨i1, i2, i3⟩ := ih (copyVar σ a).2
      have hred : copyVars σ (a :: rest) =
          ((copyVar σ a).1 :: (copyVars (copyVar σ a).2 rest).1,
           (copyVars (copyVar σ a).2 rest).2) := by
        simp [copyVars]
      rw [hred]
      refine ⟨Nat.le_trans h1 i1, ?_, ?_⟩
      · intro x hx
        rw [i2 x (Nat.lt_of_lt_of_le hx h1), h3 x hx]
      · intro b hb
        rcases List.mem_cons.mp hb with hb | hb
        · subst hb
          have hget : (copyVars (copyVar σ a).2 rest).2.get (copyVar σ a).1 =
              (copyVar σ a).2.get (copyVar σ a).1 := i2 _ h2.2
          refine ⟨⟨h2.1, Nat.lt_of_lt_of_le h2.2 i1⟩, ?_⟩
          intro ar har
          rw [varArrOf_congr _ _ _ hget] at har
          obtain ⟨ha1, ha2⟩ := copyVar_varArr σ a ar har
          exact ⟨ha1, Nat.lt_of_lt_of_le ha2 i1⟩
        · obtain ⟨⟨hb1, hb2⟩, hvar⟩ := i3 b hb
          refine ⟨⟨Nat.le_trans h1 hb1, hb2⟩, ?_⟩
          intro ar har
          obtain ⟨ha1, ha2⟩ := hvar ar har
          exact ⟨Nat.le_trans h1 ha1, ha2⟩

end CodeVizStore

namespace CodeVizStore

open CodeViz


theorem copyFields_spec : ∀ (l : List Nat) (σ : Store),
    σ.next ≤ (copyFields σ l).2.next ∧
    (∀ x, x < σ.next → (copyFields σ l).2.get x = σ.get x) ∧
    (∀ b ∈ (copyFields σ l).1, σ.next ≤ b ∧ b < (copyFields σ l).2.next) := by
  intro l
  induction l with
  | nil =>
      intro σ
      refine ⟨Nat.le_refl _, fun x _ => rfl, ?_⟩
      intro b hb
      simp [copyFields] at hb
  | cons a rest ih =>
      intro σ
      have hred : ∃ σ1 : Store, σ1.next = σ.next + 1 ∧
          (∀ x, x < σ.next → σ1.get x = σ.get x) ∧
          copyFields σ (a :: rest) =
            (σ.next :: (copyFields σ1 rest).1, (copyFields σ1 rest).2) := by
        cases hc : σ.get a with
        | some c =>
            refine ⟨(σ.alloc c).2, alloc_snd_next _ _, fun x hx => get_alloc_lt _ _ _ hx, ?_⟩
            simp [copyFields, hc, alloc_fst]
        | none =>
            refine ⟨(σ.alloc (.valArray [])).2, alloc_snd_next _ _,
              fun x hx => get_alloc_lt _ _ _ hx, ?_⟩
            simp [copyFields, hc, alloc_fst]
      obtain ⟨σ1, hn1, hg1, heq⟩ := hred
      obtain ⟨i1, i2, i3⟩ := ih σ1
      rw [heq]
      dsimp only
      refine ⟨by omega, ?_, ?_⟩
      · intro x hx
        rw [i2 x (by omega), hg1 x hx]
      · intro b hb
        rcases List.mem_cons.mp hb with hb | hb
        · subst hb
          exact ⟨Nat.le_refl _, by omega⟩
        · obtain ⟨hb1, hb2⟩ := i3 b hb
          exact ⟨by omega, hb2⟩

theorem copyHeapObj_spec (σ : Store) (a : Nat) :
    σ.next ≤ (copyHeapObj σ a).2.next ∧
    (σ.next ≤ (copyHeapObj σ a).1 ∧ (copyHeapObj σ a).1 < (copyHeapObj σ a).2.next) ∧
    (∀ x, x < σ.next → (copyHeapObj σ a).2.get x = σ.get x) := by
  unfold copyHeapObj
  split
  · rename_i id ty ad fa heq
    obtain ⟨f1, f2, f3⟩ := copyFields_spec (fieldAddrsOf σ fa) σ
    refine ⟨?_, ⟨?_, ?_⟩, ?_⟩
    · simp [alloc_fst, alloc_snd_next] <;> omega
    · simp [alloc_fst, alloc_snd_next] <;> omega
    · simp [alloc_fst, alloc_snd_next] <;> omega
    · intro x hx
      rw [get_alloc2_lt _ _ _ _ (Nat.lt_of_lt_of_le hx f1), f2 x hx]
  · refine ⟨?_, ⟨?_, ?_⟩, ?_⟩
    · simp [alloc_fst, alloc_snd_next] <;> omega
    · simp [alloc_fst, alloc_snd_next] <;> omega
    · simp [alloc_fst, alloc_snd_next] <;> omega
    · intro x hx
      exact get_alloc_lt _ _ _ hx
  · refine ⟨?_, ⟨?_, ?_⟩, ?_⟩
    · simp [alloc_fst, alloc_snd_next] <;> omega
    · simp [alloc_fst, alloc_snd_next] <;> omega
    · simp [alloc_fst, alloc_snd_next] <;> omega
    · intro x hx
      exact get_alloc_lt _ _ _ hx

theorem copyHeapObj_fields (σ : Store) (a : Nat) :
    ∀ fa, fieldsArrOf (copyHeapObj σ a).2 (copyHeapObj σ a).1 = some fa →
      (σ.next ≤ fa ∧ fa < (copyHeapObj σ a).2.next) ∧
      (∀ fad ∈ fieldAddrsOf (copyHeapObj σ a).2 fa,
        σ.next ≤ fad ∧ fad < (copyHeapObj σ a).2.next) := by
  unfold copyHeapObj
  split
  · rename_i id ty ad fa0 heq
    obtain ⟨f1, f2, f3⟩ := copyFields_spec (fieldAddrsOf σ fa0) σ
    intro fa h
    unfold fieldsArrOf at h
    rw [alloc_fst, get_alloc_self] at h
    simp only [cellFieldsArr, Option.some.injEq] at h
    rw [alloc_fst] at h
    subst h
    constructor
    · constructor
      · omega
      · simp [alloc_snd_next] <;> omega
    · intro fad hfad
      unfold fieldAddrsOf at hfad
      rw [get_alloc_lt _ _ _ (by simp [alloc_snd_next] <;> omega), get_alloc_self] at hfad
      simp only [cellFieldAddrs] at hfad
      obtain ⟨hb1, hb2⟩ := f3 fad hfad
      refine ⟨by omega, ?_⟩
      simp [alloc_snd_next] <;> omega
  · rename_i cell hno hget
    intro fa h
    unfold fieldsArrOf at h
    rw [alloc_fst, get_alloc_self] at h
    cases cell with
    | varObj id nm ty vt slot pt => simp [cellFieldsArr] at h
    | heapObj id ty ad fa1 => exact (hno id ty ad fa1 rfl).elim
    | fieldObj nm v vt => simp [cellFieldsArr] at h
    | valArray vs => simp [cellFieldsArr] at h
    | refArray l => simp [cellFieldsArr] at h
  · intro fa h
    unfold fieldsArrOf at h
    rw [alloc_fst, get_alloc_self] at h
    simp [cellFieldsArr] at h

theorem copyHeapObjs_spec : ∀ (l : List Nat) (σ : Store),
    σ.next ≤ (copyHeapObjs σ l).2.next ∧
    (∀ x, x < σ.next → (copyHeapObjs σ l).2.get x = σ.get x) ∧
    (∀ b ∈ (copyHeapObjs σ l).1,
      (σ.next ≤ b ∧ b < (copyHeapObjs σ l).2.next) ∧
      (∀ fa, fieldsArrOf (copyHeapObjs σ l).2 b = some fa →
        (σ.next ≤ fa ∧ fa < (copyHeapObjs σ l).2.next) ∧
        (∀ fad ∈ fieldAddrsOf (copyHeapObjs σ l).2 fa,
          σ.next ≤ fad ∧ fad < (copyHeapObjs σ l).2.next))) := by
  intro l
  induction l with
  | nil =>
      intro σ
      refine ⟨Nat.le_refl _, fun x _ => rfl, ?_⟩
      intro b hb
      simp [copyHeapObjs] at hb
  | cons a rest ih =>
      intro σ
      obtain ⟨h1, ⟨hf1, hf2⟩, h3⟩ := copyHeapObj_spec σ a
      obtain ⟨i1, i2, i3⟩ := ih (copyHeapObj σ a).2
      have hred : copyHeapObjs σ (a :: rest) =
          ((copyHeapObj σ a).1 :: (copyHeapObjs (copyHeapObj σ a).2 rest).1,
           (copyHeapObjs (copyHeapObj σ a).2 rest).2) := by
        simp [copyHeapObjs]
      rw [hred]
      refine ⟨Nat.le_trans h1 i1, ?_, ?_⟩
      · intro x hx
        rw [i2 x (Nat.lt_of_lt_of_le hx h1), h3 x hx]
      · intro b hb
        rcases List.mem_cons.mp hb with hb | hb
        · subst hb
          have hget : (copyHeapObjs (copyHeapObj σ a).2 rest).2.get (copyHeapObj σ a).1 =
              (copyHeapObj σ a).2.get (copyHeapObj σ a).1 := i2 _ hf2
          refine ⟨⟨hf1, Nat.lt_of_lt_of_le hf2 i1⟩, ?_⟩
          intro fa hfa
          rw [fieldsArrOf_congr _ _ _ hget] at hfa
          obtain ⟨⟨ha1, ha2⟩, hfads⟩ := copyHeapObj_fields σ a fa hfa
          have hgetfa : (copyHeapObjs (copyHeapObj σ a).2 rest).2.get fa =
              (copyHeapObj σ a).2.get fa := i2 _ ha2
          refine ⟨⟨ha1, Nat.lt_of_lt_of_le ha2 i1⟩, ?_⟩
          intro fad hfad
          rw [fieldAddrsOf_congr _ _ _ hgetfa] at hfad
          obtain ⟨hd1, hd2⟩ := hfads fad hfad
          exact ⟨hd1, Nat.lt_of_lt_of_le hd2 i1⟩
        · obtain ⟨⟨hb1, hb2⟩, hrest⟩ := i3 b hb
          refine ⟨⟨Nat.le_trans h1 hb1, hb2⟩, ?_⟩
          intro fa hfa
          obtain ⟨⟨ha1, ha2⟩, hfads⟩ := hrest fa hfa
          refine ⟨⟨Nat.le_trans h1 ha1, ha2⟩, ?_⟩
          intro fad hfad
          obtain ⟨hd1, hd2⟩ := hfads fad hfad
          exact ⟨Nat.le_trans h1 hd1, hd2⟩

end CodeVizStore

namespace CodeVizStore

open CodeViz


theorem createStateS_next_le (M : Machine) (step line : Nat) :
    M.σ.next ≤ (createStateS M step line).2.next := by
  unfold createStateS
  dsimp only
  obtain ⟨v1, v2, v3⟩ := copyVars_spec (M.vars.map (·.2)) M.σ
  obtain ⟨h1, h2, h3⟩ := copyHeapObjs_spec (M.heap.map (·.2)) (copyVars M.σ (M.vars.map (·.2))).2
  omega

theorem createStateS_get_lt (M : Machine) (step line : Nat) :
    ∀ x, x < M.σ.next → (createStateS M step line).2.get x = M.σ.get x := by
  unfold createStateS
  dsimp only
  intro x hx
  obtain ⟨v1, v2, v3⟩ := copyVars_spec (M.vars.map (·.2)) M.σ
  obtain ⟨h1, h2, h3⟩ := copyHeapObjs_spec (M.heap.map (·.2)) (copyVars M.σ (M.vars.map (·.2))).2
  rw [h2 x (by omega), v2 x hx]

theorem stateAddrs_bounds (M : Machine) (step line : Nat) :
    ∀ b ∈ stateAddrs (createStateS M step line).2 (createStateS M step line).1,
      M.σ.next ≤ b ∧ b < (createStateS M step line).2.next := by
  intro b hb
  rw [mem_stateAddrs_iff] at hb
  unfold createStateS at hb ⊢
  dsimp only at hb ⊢
  obtain ⟨v1, v2, v3⟩ := copyVars_spec (M.vars.map (·.2)) M.σ
  obtain ⟨h1, h2, h3⟩ := copyHeapObjs_spec (M.heap.map (·.2)) (copyVars M.σ (M.vars.map (·.2))).2
  rcases hb with hb | hb | hb | hb | hb
  · obtain ⟨⟨hb1, hb2⟩, _⟩ := v3 b hb
    exact ⟨hb1, by omega⟩
  · obtain ⟨r, hr, hv⟩ := hb
    obtain ⟨⟨hr1, hr2⟩, hvar⟩ := v3 r hr
    rw [varArrOf_congr _ _ _ (h2 r hr2)] at hv
    obtain ⟨ha1, ha2⟩ := hvar b hv
    exact ⟨ha1, by omega⟩
  · obtain ⟨⟨hb1, hb2⟩, _⟩ := h3 b hb
    exact ⟨by omega, hb2⟩
  · obtain ⟨r, hr, hv⟩ := hb
    obtain ⟨_, hfa⟩ := h3 r hr
    obtain ⟨⟨ha1, ha2⟩, _⟩ := hfa b hv
    exact ⟨by omega, ha2⟩
  · obtain ⟨fa, ⟨r, hr, hv⟩, hbm⟩ := hb
    obtain ⟨_, hfa⟩ := h3 r hr
    obtain ⟨_, hfads⟩ := hfa fa hv
    obtain ⟨hd1, hd2⟩ := hfads b hbm
    exact ⟨by omega, hd2⟩

theorem liveAddrs_mono_ext (M : Machine) (σ' : Store)
    (hb : ∀ b ∈ liveAddrs M, b < M.σ.next)
    (hag : ∀ x, x < M.σ.next → σ'.get x = M.σ.get x) :
    ∀ b, b ∈ liveAddrs { M with σ := σ' } → b ∈ liveAddrs M := by
  intro b hbm
  rw [mem_liveAddrs_iff] at hbm
  rw [mem_liveAddrs_iff]
  rcases hbm with h | h | h | h | h
  · exact Or.inl h
  · obtain ⟨r, hr, hv⟩ := h
    have hrlt : r < M.σ.next := hb r ((mem_liveAddrs_iff M r).mpr (Or.inl hr))
    rw [varArrOf_congr _ _ _ (hag r hrlt)] at hv
    exact Or.inr (Or.inl ⟨r, hr, hv⟩)
  · exact Or.inr (Or.inr (Or.inl h))
  · obtain ⟨r, hr, hv⟩ := h
    have hrlt : r < M.σ.next := hb r ((mem_liveAddrs_iff M r).mpr (Or.inr (Or.inr (Or.inl hr))))
    rw [fieldsArrOf_congr _ _ _ (hag r hrlt)] at hv
    exact Or.inr (Or.inr (Or.inr (Or.inl ⟨r, hr, hv⟩)))
  · obtain ⟨fa, ⟨r, hr, hv⟩, hbm⟩ := h
    have hrlt : r < M.σ.next := hb r ((mem_liveAddrs_iff M r).mpr (Or.inr (Or.inr (Or.inl hr))))
    rw [fieldsArrOf_congr _ _ _ (hag r hrlt)] at hv
    have hfalt : fa < M.σ.next :=
      hb fa ((mem_liveAddrs_iff M fa).mpr (Or.inr (Or.inr (Or.inr (Or.inl ⟨r, hr, hv⟩)))))
    rw [fieldAddrsOf_congr _ _ _ (hag fa hfalt)] at hbm
    exact Or.inr (Or.inr (Or.inr (Or.inr ⟨fa, ⟨r, hr, hv⟩, hbm⟩)))

end CodeVizStore

namespace CodeVizStore

open CodeViz


theorem varArrOf_set_self (σ : Store) (t : Nat) (c : Cell) :
    varArrOf (σ.set t c) t = cellVarArr c := by
  unfold varArrOf
  rw [get_set_self]

theorem fieldsArrOf_set_self (σ : Store) (t : Nat) (c : Cell) :
    fieldsArrOf (σ.set t c) t = cellFieldsArr c := by
  unfold fieldsArrOf
  rw [get_set_self]

theorem fieldAddrsOf_set_self (σ : Store) (t : Nat) (c : Cell) :
    fieldAddrsOf (σ.set t c) t = cellFieldAddrs c := by
  unfold fieldAddrsOf
  rw [get_set_self]

theorem varRoot_mem_live (M : Machine) (r : Nat) (h : r ∈ M.vars.map (·.2)) :
    r ∈ liveAddrs M :=
  (mem_liveAddrs_iff M r).mpr (Or.inl h)

theorem varArr_mem_live (M : Machine) (r b : Nat) (hr : r ∈ M.vars.map (·.2))
    (hv : varArrOf M.σ r = some b) : b ∈ liveAddrs M :=
  (mem_liveAddrs_iff M b).mpr (Or.inr (Or.inl ⟨r, hr, hv⟩))

theorem heapRoot_mem_live (M : Machine) (r : Nat) (h : r ∈ M.heap.map (·.2)) :
    r ∈ liveAddrs M :=
  (mem_liveAddrs_iff M r).mpr (Or.inr (Or.inr (Or.inl h)))

theorem fieldsArr_mem_live (M : Machine) (r b : Nat) (hr : r ∈ M.heap.map (·.2))
    (hv : fieldsArrOf M.σ r = some b) : b ∈ liveAddrs M :=
  (mem_liveAddrs_iff M b).mpr (Or.inr (Or.inr (Or.inr (Or.inl ⟨r, hr, hv⟩))))

theorem fieldAddr_mem_live (M : Machine) (r fa b : Nat) (hr : r ∈ M.heap.map (·.2))
    (hv : fieldsArrOf M.σ r = some fa) (hb : b ∈ fieldAddrsOf M.σ fa) : b ∈ liveAddrs M :=
  (mem_liveAddrs_iff M b).mpr (Or.inr (Or.inr (Or.inr (Or.inr ⟨fa, ⟨r, hr, hv⟩, hb⟩))))

theorem liveAddrs_set_sub (M : Machine) (t : Nat) (c : Cell)
    (hvar : ∀ ar, cellVarArr c = some ar →
      ∃ r, r ∈ M.vars.map (·.2) ∧ varArrOf M.σ r = some ar)
    (hheap : cellFieldsArr c = none)
    (hra : cellFieldAddrs c = []) :
    ∀ b, b ∈ liveAddrs { M with σ := M.σ.set t c } → b ∈ liveAddrs M := by
  intro b hbm
  rw [mem_liveAddrs_iff] at hbm
  rw [mem_liveAddrs_iff]
  rcases hbm with h | h | h | h | h
  · exact Or.inl h
  · obtain ⟨r, hr, hv⟩ := h
    by_cases hrt : r = t
    · subst hrt
      rw [varArrOf_set_self] at hv
      obtain ⟨r2, hr2, hv2⟩ := hvar b hv
      exact Or.inr (Or.inl ⟨r2, hr2, hv2⟩)
    · rw [varArrOf_congr _ _ _ (get_set_ne _ _ _ _ hrt)] at hv
      exact Or.inr (Or.inl ⟨r, hr, hv⟩)
  · exact Or.inr (Or.inr (Or.inl h))
  · obtain ⟨r, hr, hv⟩ := h
    by_cases hrt : r = t
    · subst hrt
      rw [fieldsArrOf_set_self, hheap] at hv
      exact Option.noConfusion hv
    · rw [fieldsArrOf_congr _ _ _ (get_set_ne _ _ _ _ hrt)] at hv
      exact Or.inr (Or.inr (Or.inr (Or.inl ⟨r, hr, hv⟩)))
  · obtain ⟨fa, ⟨r, hr, hv⟩, hbm⟩ := h
    by_cases hrt : r = t
    · subst hrt
      rw [fieldsArrOf_set_self, hheap] at hv
      exact Option.noConfusion hv
    · rw [fieldsArrOf_congr _ _ _ (get_set_ne _ _ _ _ hrt)] at hv
      by_cases hfat : fa = t
      · subst hfat
        rw [fieldAddrsOf_set_self, hra] at hbm
        exact absurd hbm (List.not_mem_nil b)
      · rw [fieldAddrsOf_congr _ _ _ (get_set_ne _ _ _ _ hfat)] at hbm
        exact Or.inr (Or.inr (Or.inr (Or.inr ⟨fa, ⟨r, hr, hv⟩, hbm⟩)))

end CodeVizStore

namespace CodeVizStore

open CodeViz


theorem goodStep_setVarPrim (M : Machine) (name : String) (v : Value)
    (hb : ∀ b ∈ liveAddrs M, b < M.σ.next) :
    GoodStep M (applyOp M (.setVarPrim name v)) := by
  simp only [applyOp]
  split
  · rename_i a hl
    split
    · rename_i id nm ty vt slot pt hget
      refine ⟨Nat.le_refl _, ?_, ?_⟩
      · intro x hx hnl
        have ha : a ∈ liveAddrs M := varRoot_mem_live M a (alookup_mem_map_snd _ _ _ hl)
        exact get_set_ne _ _ _ _ (fun he => hnl (he ▸ ha))
      · intro b hbm
        refine Or.inl (liveAddrs_set_sub M a (.varObj id nm ty vt (.prim v) pt) ?_ rfl rfl b hbm)
        intro ar h'
        simp [cellVarArr] at h'
    · exact goodStep_refl M
  · exact goodStep_refl M


theorem goodStep_setVarPointsTo (M : Machine) (name : String) (p : Option Value)
    (hb : ∀ b ∈ liveAddrs M, b < M.σ.next) :
    GoodStep M (applyOp M (.setVarPointsTo name p)) := by
  simp only [applyOp]
  split
  · rename_i a hl
    split
    · rename_i id nm ty vt slot pt hget
      refine ⟨Nat.le_refl _, ?_, ?_⟩
      · intro x hx hnl
        have ha : a ∈ liveAddrs M := varRoot_mem_live M a (alookup_mem_map_snd _ _ _ hl)
        exact get_set_ne _ _ _ _ (fun he => hnl (he ▸ ha))
      · intro b hbm
        refine Or.inl (liveAddrs_set_sub M a (.varObj id nm ty vt slot p) ?_ rfl rfl b hbm)
        intro ar h'
        refine ⟨a, alookup_mem_map_snd _ _ _ hl, ?_⟩
        unfold varArrOf
        rw [hget]
        cases slot with
        | prim v0 => simp [cellVarArr] at h'
        | ref ar0 => simpa [cellVarArr] using h'
    · exact goodStep_refl M
  · exact goodStep_refl M

theorem goodStep_writeArrCell (M : Machine) (name : String) (k : Nat) (v : Value)
    (hb : ∀ b ∈ liveAddrs M, b < M.σ.next) :
    GoodStep M (applyOp M (.writeArrCell name k v)) := by
  simp only [applyOp]
  split
  · rename_i a hl
    split
    · rename_i id nm ty vt ar pt hget
      split
      · rename_i vs hget2
        have hv : varArrOf M.σ a = some ar := by
          unfold varArrOf
          rw [hget]
          rfl
        refine ⟨Nat.le_refl _, ?_, ?_⟩
        · intro x hx hnl
          have ha : ar ∈ liveAddrs M :=
            varArr_mem_live M a ar (alookup_mem_map_snd _ _ _ hl) hv
          exact get_set_ne _ _ _ _ (fun he => hnl (he ▸ ha))
        · intro b hbm
          refine Or.inl (liveAddrs_set_sub M ar (.valArray (jsArrayWriteS vs k (.prim v)))
            ?_ rfl rfl b hbm)
          intro ar0 h'
          simp [cellVarArr] at h'
      · exact goodStep_refl M
    · exact goodStep_refl M
  · exact goodStep_refl M

theorem goodStep_setFieldValue (M : Machine) (key fname : String) (v : Value)
    (hb : ∀ b ∈ liveAddrs M, b < M.σ.next) :
    GoodStep M (applyOp M (.setFieldValue key fname v)) := by
  simp only [applyOp]
  split
  · rename_i a hl
    split
    · rename_i id ty ad fa hget
      split
      · rename_i l hget2
        split
        · rename_i fad hfind
          split
          · rename_i nm oldv vt hget3
            have hfa0 : fieldsArrOf M.σ a = some fa := by
              unfold fieldsArrOf
              rw [hget]
              rfl
            have hfad : fad ∈ fieldAddrsOf M.σ fa := by
              unfold fieldAddrsOf
              rw [hget2]
              exact List.mem_of_find?_eq_some hfind
            have hlivefad : fad ∈ liveAddrs M :=
              fieldAddr_mem_live M a fa fad (alookup_mem_map_snd _ _ _ hl) hfa0 hfad
            refine ⟨Nat.le_refl _, ?_, ?_⟩
            · intro x hx hnl
              exact get_set_ne _ _ _ _ (fun he => hnl (he ▸ hlivefad))
            · intro b hbm
              refine Or.inl (liveAddrs_set_sub M fad (.fieldObj nm (.prim v) vt) ?_ rfl rfl b hbm)
              intro ar0 h'
              simp [cellVarArr] at h'
          · exact goodStep_refl M
        · exact goodStep_refl M
      · exact goodStep_refl M
    · exact goodStep_refl M
  · exact goodStep_refl M

theorem goodStep_emitCopies (M : Machine) (step line : Nat)
    (hb : ∀ b ∈ liveAddrs M, b < M.σ.next) :
    GoodStep M (applyOp M (.emitCopies step line)) := by
  simp only [applyOp]
  refine ⟨createStateS_next_le M step line, ?_, ?_⟩
  · intro x hx hnl
    exact createStateS_get_lt M step line x hx
  · intro b hbm
    exact Or.inl (liveAddrs_mono_ext M _ hb (createStateS_get_lt M step line) b hbm)


theorem varArrOf_alloc_self (σ : Store) (c : Cell) :
    varArrOf (σ.alloc c).2 (σ.alloc c).1 = cellVarArr c := by
  unfold varArrOf
  rw [alloc_fst, get_alloc_self]

theorem fieldsArrOf_alloc_self (σ : Store) (c : Cell) :
    fieldsArrOf (σ.alloc c).2 (σ.alloc c).1 = cellFieldsArr c := by
  unfold fieldsArrOf
  rw [alloc_fst, get_alloc_self]

theorem goodStep_bindVarPrim (M : Machine) (name id ty vt : String) (v : Value)
    (pt : Option Value) (hb : ∀ b ∈ liveAddrs M, b < M.σ.next) :
    GoodStep M (applyOp M (.bindVarPrim name id ty vt v pt)) := by
  simp only [applyOp]
  refine ⟨?_, ?_, ?_⟩
  · simp [alloc_snd_next] <;> omega
  · intro x hx _
    exact get_alloc_lt _ _ _ hx
  · intro b hbm
    rw [mem_liveAddrs_iff] at hbm
    dsimp only at hbm
    rcases hbm with h | h | h | h | h
    · rcases mem_mapSet_snd _ _ _ _ h with hO | hN
      · exact Or.inl (varRoot_mem_live M b hO)
      · refine Or.inr ⟨?_, ?_⟩
        · rw [hN, alloc_fst]
        · rw [hN]
          simp [alloc_fst, alloc_snd_next] <;> omega
    · obtain ⟨r, hr, hv⟩ := h
      rcases mem_mapSet_snd _ _ _ _ hr with hO | hN
      · have hrlt := hb r (varRoot_mem_live M r hO)
        rw [varArrOf_congr _ _ _ (get_alloc_lt _ _ _ hrlt)] at hv
        exact Or.inl (varArr_mem_live M r b hO hv)
      · subst hN
        rw [varArrOf_alloc_self] at hv
        simp [cellVarArr] at hv
    · exact Or.inl (heapRoot_mem_live M b h)
    · obtain ⟨r, hr, hv⟩ := h
      have hrlt := hb r (heapRoot_mem_live M r hr)
      rw [fieldsArrOf_congr _ _ _ (get_alloc_lt _ _ _ hrlt)] at hv
      exact Or.inl (fieldsArr_mem_live M r b hr hv)
    · obtain ⟨fa, ⟨r, hr, hv⟩, hbm2⟩ := h
      have hrlt := hb r (heapRoot_mem_live M r hr)
      rw [fieldsArrOf_congr _ _ _ (get_alloc_lt _ _ _ hrlt)] at hv
      have hfalt := hb fa (fieldsArr_mem_live M r fa hr hv)
      rw [fieldAddrsOf_congr _ _ _ (get_alloc_lt _ _ _ hfalt)] at hbm2
      exact Or.inl (fieldAddr_mem_live M r fa b hr hv hbm2)

theorem goodStep_bindVarArray (M : Machine) (name id ty vt : String) (vs : List Value)
    (hb : ∀ b ∈ liveAddrs M, b < M.σ.next) :
    GoodStep M (applyOp M (.bindVarArray name id ty vt vs)) := by
  simp only [applyOp]
  refine ⟨?_, ?_, ?_⟩
  · simp [alloc_snd_next] <;> omega
  · intro x hx _
    exact get_alloc2_lt _ _ _ _ hx
  · intro b hbm
    rw [mem_liveAddrs_iff] at hbm
    dsimp only at hbm
    rcases hbm with h | h | h | h | h
    · rcases mem_mapSet_snd _ _ _ _ h with hO | hN
      · exact Or.inl (varRoot_mem_live M b hO)
      · refine Or.inr ⟨?_, ?_⟩
        · rw [hN]
          simp [alloc_fst, alloc_snd_next] <;> omega
        · rw [hN]
          simp [alloc_fst, alloc_snd_next] <;> omega
    · obtain ⟨r, hr, hv⟩ := h
      rcases mem_mapSet_snd _ _ _ _ hr with hO | hN
      · have hrlt := hb r (varRoot_mem_live M r hO)
        rw [varArrOf_congr _ _ _ (get_alloc2_lt _ _ _ _ hrlt)] at hv
        exact Or.inl (varArr_mem_live M r b hO hv)
      · subst hN
        rw [varArrOf_alloc_self] at hv
        simp only [cellVarArr, Option.some.injEq] at hv
        refine Or.inr ⟨?_, ?_⟩
        · rw [← hv]
          simp [alloc_fst, alloc_snd_next] <;> omega
        · rw [← hv]
          simp [alloc_fst, alloc_snd_next] <;> omega
    · exact Or.inl (heapRoot_mem_live M b h)
    · obtain ⟨r, hr, hv⟩ := h
      have hrlt := hb r (heapRoot_mem_live M r hr)
      rw [fieldsArrOf_congr _ _ _ (get_alloc2_lt _ _ _ _ hrlt)] at hv
      exact Or.inl (fieldsArr_mem_live M r b hr hv)
    · obtain ⟨fa, ⟨r, hr, hv⟩, hbm2⟩ := h
      have hrlt := hb r (heapRoot_mem_live M r hr)
      rw [fieldsArrOf_congr _ _ _ (get_alloc2_lt _ _ _ _ hrlt)] at hv
      have hfalt := hb fa (fieldsArr_mem_live M r fa hr hv)
      rw [fieldAddrsOf_congr _ _ _ (get_alloc2_lt _ _ _ _ hfalt)] at hbm2
      exact Or.inl (fieldAddr_mem_live M r fa b hr hv hbm2)

end CodeVizStore

namespace CodeVizStore

open CodeViz


theorem goodStep_bindHeapObj (M : Machine) (key id ty addr : String)
    (hb : ∀ b ∈ liveAddrs M, b < M.σ.next) :
    GoodStep M (applyOp M (.bindHeapObj key id ty addr)) := by
  simp only [applyOp]
  refine ⟨?_, ?_, ?_⟩
  · simp [alloc_snd_next] <;> omega
  · intro x hx _
    exact get_alloc2_lt _ _ _ _ hx
  · intro b hbm
    rw [mem_liveAddrs_iff] at hbm
    dsimp only at hbm
    rcases hbm with h | h | h | h | h
    · exact Or.inl (varRoot_mem_live M b h)
    · obtain ⟨r, hr, hv⟩ := h
      have hrlt := hb r (varRoot_mem_live M r hr)
      rw [varArrOf_congr _ _ _ (get_alloc2_lt _ _ _ _ hrlt)] at hv
      exact Or.inl (varArr_mem_live M r b hr hv)
    · rcases mem_mapSet_snd _ _ _ _ h with hO | hN
      · exact Or.inl (heapRoot_mem_live M b hO)
      · refine Or.inr ⟨?_, ?_⟩
        · rw [hN]
          simp [alloc_fst, alloc_snd_next] <;> omega
        · rw [hN]
          simp [alloc_fst, alloc_snd_next] <;> omega
    · obtain ⟨r, hr, hv⟩ := h
      rcases mem_mapSet_snd _ _ _ _ hr with hO | hN
      · have hrlt := hb r (heapRoot_mem_live M r hO)
        rw [fieldsArrOf_congr _ _ _ (get_alloc2_lt _ _ _ _ hrlt)] at hv
        exact Or.inl (fieldsArr_mem_live M r b hO hv)
      · subst hN
        rw [fieldsArrOf_alloc_self] at hv
        simp only [cellFieldsArr, Option.some.injEq] at hv
        refine Or.inr ⟨?_, ?_⟩
        · rw [← hv]
          simp [alloc_fst, alloc_snd_next] <;> omega
        · rw [← hv]
          simp [alloc_fst, alloc_snd_next] <;> omega
    · obtain ⟨fa, ⟨r, hr, hv⟩, hbm2⟩ := h
      rcases mem_mapSet_snd _ _ _ _ hr with hO | hN
      · have hrlt := hb r (heapRoot_mem_live M r hO)
        rw [fieldsArrOf_congr _ _ _ (get_alloc2_lt _ _ _ _ hrlt)] at hv
        have hfalt := hb fa (fieldsArr_mem_live M r fa hO hv)
        rw [fieldAddrsOf_congr _ _ _ (get_alloc2_lt _ _ _ _ hfalt)] at hbm2
        exact Or.inl (fieldAddr_mem_live M r fa b hO hv hbm2)
      · subst hN
        rw [fieldsArrOf_alloc_self] at hv
        simp only [cellFieldsArr, Option.some.injEq] at hv
        rw [← hv] at hbm2
        unfold fieldAddrsOf at hbm2
        rw [alloc_fst,
          get_alloc_lt _ _ _
            (show M.σ.next < (M.σ.alloc (Cell.refArray [])).2.next by
              rw [alloc_snd_next]; omega),
          get_alloc_self] at hbm2
        simp [cellFieldAddrs] at hbm2

theorem goodStep_pushField (M : Machine) (key fname : String) (v : Value) (vt : String)
    (hb : ∀ b ∈ liveAddrs M, b < M.σ.next) :
    GoodStep M (applyOp M (.pushField key fname v vt)) := by
  simp only [applyOp]
  split
  · rename_i a hl
    split
    · rename_i id ty ad fa hget
      split
      · rename_i l hget2
        have hfa0 : fieldsArrOf M.σ a = some fa := by
          unfold fieldsArrOf
          rw [hget]
          rfl
        have hfal : fa ∈ liveAddrs M :=
          fieldsArr_mem_live M a fa (alookup_mem_map_snd _ _ _ hl) hfa0
        have hfalt : fa < M.σ.next := hb fa hfal
        have hpres : ∀ r, r < M.σ.next → r ≠ fa →
            ((M.σ.alloc (Cell.fieldObj fname (Slot.prim v) vt)).2.set fa
              (Cell.refArray (l ++ [(M.σ.alloc (Cell.fieldObj fname (Slot.prim v) vt)).1]))).get r =
            M.σ.get r := by
          intro r h1 h2
          rw [get_set_ne _ _ _ _ h2, get_alloc_lt _ _ _ h1]
        have hfaddrs : fieldAddrsOf M.σ fa = l := by
          unfold fieldAddrsOf
          rw [hget2]
          rfl
        refine ⟨?_, ?_, ?_⟩
        · simp [next_set, alloc_snd_next] <;> omega
        · intro x hx hnl
          exact hpres x hx (fun he => hnl (he ▸ hfal))
        · intro b hbm
          rw [mem_liveAddrs_iff] at hbm
          dsimp only at hbm
          rcases hbm with h | h | h | h | h
          · exact Or.inl (varRoot_mem_live M b h)
          · obtain ⟨r, hr, hv⟩ := h
            have hrlt := hb r (varRoot_mem_live M r hr)
            by_cases hrfa : r = fa
            · subst hrfa
              rw [varArrOf_set_self] at hv
              simp [cellVarArr] at hv
            · rw [varArrOf_congr _ _ _ (hpres r hrlt hrfa)] at hv
              exact Or.inl (varArr_mem_live M r b hr hv)
          · exact Or.inl (heapRoot_mem_live M b h)
          · obtain ⟨r, hr, hv⟩ := h
            have hrlt := hb r (heapRoot_mem_live M r hr)
            by_cases hrfa : r = fa
            · subst hrfa
              rw [fieldsArrOf_set_self] at hv
              simp [cellFieldsArr] at hv
            · rw [fieldsArrOf_congr _ _ _ (hpres r hrlt hrfa)] at hv
              exact Or.inl (fieldsArr_mem_live M r b hr hv)
          · obtain ⟨fa', ⟨r, hr, hv⟩, hbm2⟩ := h
            have hrlt := hb r (heapRoot_mem_live M r hr)
            by_cases hrfa : r = fa
            · subst hrfa
              rw [fieldsArrOf_set_self] at hv
              simp [cellFieldsArr] at hv
            · rw [fieldsArrOf_congr _ _ _ (hpres r hrlt hrfa)] at hv
              have hfa'lt := hb fa' (fieldsArr_mem_live M r fa' hr hv)
              by_cases hfafa : fa' = fa
              · subst hfafa
                rw [fieldAddrsOf_set_self] at hbm2
                simp only [cellFieldAddrs] at hbm2
                rcases List.mem_append.mp hbm2 with hbl | hbr
                · refine Or.inl (fieldAddr_mem_live M r fa' b hr hv ?_)
                  rw [hfaddrs]
                  exact hbl
                · rw [List.mem_singleton.mp hbr]
                  refine Or.inr ⟨?_, ?_⟩
                  · rw [alloc_fst]
                  · simp [next_set, alloc_fst, alloc_snd_next] <;> omega
              · rw [fieldAddrsOf_congr _ _ _ (hpres fa' hfa'lt hfafa)] at hbm2
                exact Or.inl (fieldAddr_mem_live M r fa' b hr hv hbm2)
      · exact goodStep_refl M
    · exact goodStep_refl M
  · exact goodStep_refl M

end CodeVizStore

namespace CodeVizStore

open CodeViz



theorem goodStep_setVarArrRef (M : Machine) (name src : String)
    (hb : ∀ b ∈ liveAddrs M, b < M.σ.next) :
    GoodStep M (applyOp M (.setVarArrRef name src)) := by
  simp only [applyOp]
  split
  · rename_i b0 hlsrc
    split
    · rename_i idS nmS tyS vtS arS ptS hgetS
      split
      · rename_i a hl
        split
        · rename_i id nm ty vt slot pt hget
          refine ⟨Nat.le_refl _, ?_, ?_⟩
          · intro x hx hnl
            have ha : a ∈ liveAddrs M := varRoot_mem_live M a (alookup_mem_map_snd _ _ _ hl)
            exact get_set_ne _ _ _ _ (fun he => hnl (he ▸ ha))
          · intro b hbm
            refine Or.inl (liveAddrs_set_sub M a (.varObj id nm ty vt (.ref arS) pt)
              ?_ rfl rfl b hbm)
            intro ar h'
            simp only [cellVarArr, Option.some.injEq] at h'
            subst h'
            refine ⟨b0, alookup_mem_map_snd _ _ _ hlsrc, ?_⟩
            unfold varArrOf
            rw [hgetS]
            rfl
        · exact goodStep_refl M
      · exact goodStep_refl M
    · exact goodStep_refl M
  · exact goodStep_refl M

theorem goodStep_writeArrCellArrRef (M : Machine) (name : String) (k : Nat) (src : String)
    (hb : ∀ b ∈ liveAddrs M, b < M.σ.next) :
    GoodStep M (applyOp M (.writeArrCellArrRef name k src)) := by
  simp only [applyOp]
  split
  · rename_i b0 hlsrc
    split
    · rename_i idS nmS tyS vtS arS ptS hgetS
      split
      · rename_i a hl
        split
        · rename_i id nm ty vt ar pt hget
          split
          · rename_i vs hget2
            have hv : varArrOf M.σ a = some ar := by
              unfold varArrOf
              rw [hget]
              rfl
            refine ⟨Nat.le_refl _, ?_, ?_⟩
            · intro x hx hnl
              have ha : ar ∈ liveAddrs M :=
                varArr_mem_live M a ar (alookup_mem_map_snd _ _ _ hl) hv
              exact get_set_ne _ _ _ _ (fun he => hnl (he ▸ ha))
            · intro b hbm
              refine Or.inl (liveAddrs_set_sub M ar
                (.valArray (jsArrayWriteS vs k (.ref arS))) ?_ rfl rfl b hbm)
              intro ar0 h'
              simp [cellVarArr] at h'
          · exact goodStep_refl M
        · exact goodStep_refl M
      · exact goodStep_refl M
    · exact goodStep_refl M
  · exact goodStep_refl M

theorem goodStep_setFieldArrRef (M : Machine) (key fname src : String)
    (hb : ∀ b ∈ liveAddrs M, b < M.σ.next) :
    GoodStep M (applyOp M (.setFieldArrRef key fname src)) := by
  simp only [applyOp]
  split
  · rename_i b0 hlsrc
    split
    · rename_i idS nmS tyS vtS arS ptS hgetS
      split
      · rename_i a hl
        split
        · rename_i id ty ad fa hget
          split
          · rename_i l hget2
            split
            · rename_i fad hfind
              split
              · rename_i nm oldv vt hget3
                have hfa0 : fieldsArrOf M.σ a = some fa := by
                  unfold fieldsArrOf
                  rw [hget]
                  rfl
                have hfad : fad ∈ fieldAddrsOf M.σ fa := by
                  unfold fieldAddrsOf
                  rw [hget2]
                  exact List.mem_of_find?_eq_some hfind
                have hlivefad : fad ∈ liveAddrs M :=
                  fieldAddr_mem_live M a fa fad (alookup_mem_map_snd _ _ _ hl) hfa0 hfad
                refine ⟨Nat.le_refl _, ?_, ?_⟩
                · intro x hx hnl
                  exact get_set_ne _ _ _ _ (fun he => hnl (he ▸ hlivefad))
                · intro b hbm
                  refine Or.inl (liveAddrs_set_sub M fad (.fieldObj nm (.ref arS) vt)
                    ?_ rfl rfl b hbm)
                  intro ar0 h'
                  simp [cellVarArr] at h'
              · exact goodStep_refl M
            · exact goodStep_refl M
          · exact goodStep_refl M
        · exact goodStep_refl M
      · exact goodStep_refl M
    · exact goodStep_refl M
  · exact goodStep_refl M


theorem goodStep_applyOp (M : Machine) (op : EngineOp)
    (hb : ∀ b ∈ liveAddrs M, b < M.σ.next) : GoodStep M (applyOp M op) := by
  cases op with
  | setVarPrim name v => exact goodStep_setVarPrim M name v hb
  | setVarArrRef name src => exact goodStep_setVarArrRef M name src hb
  | setVarPointsTo name p => exact goodStep_setVarPointsTo M name p hb
  | writeArrCell name k v => exact goodStep_writeArrCell M name k v hb
  | writeArrCellArrRef name k src => exact goodStep_writeArrCellArrRef M name k src hb
  | bindVarPrim name id ty vt v pt => exact goodStep_bindVarPrim M name id ty vt v pt hb
  | bindVarArray name id ty vt vs => exact goodStep_bindVarArray M name id ty vt vs hb
  | bindHeapObj key id ty addr => exact goodStep_bindHeapObj M key id ty addr hb
  | setFieldValue key fname v => exact goodStep_setFieldValue M key fname v hb
  | setFieldArrRef key fname src => exact goodStep_setFieldArrRef M key fname src hb
  | pushField key fname v vt => exact goodStep_pushField M key fname v vt hb
  | emitCopies step line => exact goodStep_emitCopies M step line hb

theorem snapInv_preserve (σ₂ : Store) (S : List Nat) (M M' : Machine)
    (hinv : SnapInv σ₂ S M) (hgs : GoodStep M M') : SnapInv σ₂ S M' := by
  obtain ⟨h1, h2, h3, h4⟩ := hinv
  obtain ⟨g1, g2, g3⟩ := hgs
  refine ⟨?_, ?_, ?_, ?_⟩
  · intro a ha
    rw [g2 a (h2 a ha) (fun hlive => h3 a hlive ha), h1 a ha]
  · intro a ha
    exact Nat.lt_of_lt_of_le (h2 a ha) g1
  · intro b hbm
    rcases g3 b hbm with hO | ⟨hge, _⟩
    · exact h3 b hO
    · intro hbS
      exact Nat.lt_irrefl b (Nat.lt_of_lt_of_le (h2 b hbS) hge)
  · intro b hbm
    rcases g3 b hbm with hO | ⟨_, hlt⟩
    · exact Nat.lt_of_lt_of_le (h4 b hO) g1
    · exact hlt

theorem snapInv_applyOps (σ₂ : Store) (S : List Nat) :
    ∀ (ops : List EngineOp) (M : Machine),
      SnapInv σ₂ S M → SnapInv σ₂ S (applyOps M ops) := by
  intro ops
  induction ops with
  | nil => intro M h; exact h
  | cons op rest ih =>
      intro M h
      have h' := snapInv_preserve σ₂ S M (applyOp M op) h (goodStep_applyOp M op h.2.2.2)
      exact ih (applyOp M op) h'

theorem snapInv_init (M : Machine) (step line : Nat)
    (hb : ∀ b ∈ liveAddrs M, b < M.σ.next) :
    SnapInv (createStateS M step line).2
      (stateAddrs (createStateS M step line).2 (createStateS M step line).1)
      { M with σ := (createStateS M step line).2 } := by
  refine ⟨fun a _ => rfl, ?_, ?_, ?_⟩
  · intro a ha
    show a < (createStateS M step line).2.next
    exact (stateAddrs_bounds M step line a ha).2
  · intro b hbm hbS
    have hbM : b ∈ liveAddrs M :=
      liveAddrs_mono_ext M _ hb (createStateS_get_lt M step line) b hbm
    have h1 : b < M.σ.next := hb b hbM
    have h2 : M.σ.next ≤ b := (stateAddrs_bounds M step line b hbS).1
    omega
  · intro b hbm
    have hbM : b ∈ liveAddrs M :=
      liveAddrs_mono_ext M _ hb (createStateS_get_lt M step line) b hbm
    have h1 : b < M.σ.next := hb b hbM
    have h2 := createStateS_next_le M step line
    show b < (createStateS M step line).2.next
    omega


theorem optAll_some {p : Cell → Bool} {o : Option Cell} (h : Option.all p o = true) :
    ∀ c, o = some c → p c = true := by
  intro c hc
  rw [hc] at h
  simpa [Option.all] using h

theorem readArrV_agrees (σ₂ σ' : Store) (ar : Nat)
    (hg : σ'.get ar = σ₂.get ar)
    (hp : ∀ c, σ₂.get ar = some c → cellNoStoredRefs c = true) :
    ∀ fuel, readArrV σ' fuel ar = readArrV σ₂ fuel ar := by
  intro fuel
  cases fuel with
  | zero => rfl
  | succ f =>
      unfold readArrV
      rw [hg]
      cases hc : σ₂.get ar with
      | none => rfl
      | some c =>
          cases c with
          | valArray vs =>
              have hall := hp _ hc
              simp only [cellNoStoredRefs] at hall
              rw [List.all_eq_true] at hall
              dsimp only
              congr 1
              apply List.map_congr_left
              intro s hs
              cases s with
              | prim v => rfl
              | ref ar2 =>
                  have hfalse := hall _ hs
                  simp [slotPrim] at hfalse
          | varObj id nm ty vt slot pt => rfl
          | heapObj id ty ad fa => rfl
          | fieldObj nm s vt => rfl
          | refArray ls => rfl

theorem readFieldObj_agrees (σ₂ σ' : Store) (fuel : Nat) (fad : Nat)
    (hg : σ'.get fad = σ₂.get fad)
    (hp : ∀ c, σ₂.get fad = some c → cellNoStoredRefs c = true) :
    readFieldObj σ' fuel fad = readFieldObj σ₂ fuel fad := by
  unfold readFieldObj
  rw [hg]
  cases hc : σ₂.get fad with
  | none => rfl
  | some c =>
      cases c with
      | fieldObj nm s vt =>
          have hps := hp _ hc
          simp only [cellNoStoredRefs] at hps
          cases s with
          | prim v => rfl
          | ref ar2 => simp [slotPrim] at hps
      | varObj id nm ty vt slot pt => rfl
      | heapObj id ty ad fa => rfl
      | valArray vs => rfl
      | refArray ls => rfl

theorem readState_agrees (σ₂ σ' : Store) (st : StateRef) (fuel : Nat)
    (hag : ∀ a ∈ stateAddrs σ₂ st, σ'.get a = σ₂.get a)
    (hprim : ∀ a ∈ stateAddrs σ₂ st, Option.all cellNoStoredRefs (σ₂.get a) = true) :
    readState σ' fuel st = readState σ₂ fuel st := by
  unfold readState
  rw [Prod.mk.injEq]
  refine ⟨?_, ?_⟩
  · apply List.map_congr_left
    intro a ha
    have haS : a ∈ stateAddrs σ₂ st := (mem_stateAddrs_iff σ₂ st a).mpr (Or.inl ha)
    have hga := hag a haS
    unfold readVar
    rw [hga]
    cases hc : σ₂.get a with
    | none => rfl
    | some c =>
        cases c with
        | varObj id nm ty vt slot pt =>
            dsimp only
            cases slot with
            | prim v => rfl
            | ref ar =>
                have hv : varArrOf σ₂ a = some ar := by
                  unfold varArrOf
                  rw [hc]
                  rfl
                have harS : ar ∈ stateAddrs σ₂ st :=
                  (mem_stateAddrs_iff σ₂ st ar).mpr (Or.inr (Or.inl ⟨a, ha, hv⟩))
                simp only [readSlotV]
                rw [readArrV_agrees σ₂ σ' ar (hag ar harS)
                  (optAll_some (hprim ar harS)) fuel]
        | heapObj id ty ad fa => rfl
        | fieldObj nm s vt => rfl
        | valArray vs => rfl
        | refArray ls => rfl
  · apply List.map_congr_left
    intro a ha
    have haS : a ∈ stateAddrs σ₂ st :=
      (mem_stateAddrs_iff σ₂ st a).mpr (Or.inr (Or.inr (Or.inl ha)))
    have hga := hag a haS
    unfold readHeapObj
    rw [hga]
    cases hc : σ₂.get a with
    | none => rfl
    | some c =>
        cases c with
        | heapObj id ty ad fa =>
            have hfv : fieldsArrOf σ₂ a = some fa := by
              unfold fieldsArrOf
              rw [hc]
              rfl
            have hfaS : fa ∈ stateAddrs σ₂ st :=
              (mem_stateAddrs_iff σ₂ st fa).mpr
                (Or.inr (Or.inr (Or.inr (Or.inl ⟨a, ha, hfv⟩))))
            dsimp only
            rw [fieldAddrsOf_congr _ _ _ (hag fa hfaS)]
            have hfields : (fieldAddrsOf σ₂ fa).filterMap (readFieldObj σ' fuel) =
                (fieldAddrsOf σ₂ fa).filterMap (readFieldObj σ₂ fuel) := by
              apply List.filterMap_congr
              intro fad hfad
              have hfadS : fad ∈ stateAddrs σ₂ st :=
                (mem_stateAddrs_iff σ₂ st fad).mpr
                  (Or.inr (Or.inr (Or.inr (Or.inr ⟨fa, ⟨a, ha, hfv⟩, hfad⟩))))
              exact readFieldObj_agrees σ₂ σ' fuel fad (hag fad hfadS)
                (optAll_some (hprim fad hfadS))
            rw [hfields]
        | varObj id nm ty vt slot pt => rfl
        | fieldObj nm s vt => rfl
        | valArray vs => rfl
        | refArray ls => rfl



/-- C3 counterexample: the claim says every emitted State is a deep copy
independent of later mutations; on the code, `evaluateExpression` of a
bare array name returns the live element array itself, `p->data = arr`
stores that reference into a heap field, and `createState` copies the
field record shallowly (`{...f}` keeps `f.value`).  On the machine
reached by `p->data = arr;` (well-formed: every live address is
allocated), the single post-emission write `arr[0] = 99` through the live
variable map changes the already-emitted snapshot's observable content. -/
theorem c3_counterexample :
    (∀ b ∈ liveAddrs c3cMachine, b < c3cMachine.σ.next) ∧
    readState (applyOps { c3cMachine with σ := (createStateS c3cMachine 0 1).2 }
        [.writeArrCell "arr" 0 (.int 99)]).σ 3 (createStateS c3cMachine 0 1).1 ≠
      readState (createStateS c3cMachine 0 1).2 3 (createStateS c3cMachine 0 1).1 :=
  ⟨by decide, by decide⟩

/-- C3 amended: for every machine whose live maps reach only allocated
addresses, an emitted snapshot that holds no stored array reference (no
`ptr->f = arr` / `arr[k] = brr` aliasing reached the emitted state) is
immutable: no sequence of engine operations performed afterwards —
primitive writes, reference-seating writes, `points_to` updates, array
writes, fresh declarations, heap-field writes and pushes, further
emissions — changes the snapshot's observable content at any
dereferencing depth. -/
theorem c3_deep_copy_amended (M : Machine)
    (hlive : ∀ b ∈ liveAddrs M, b < M.σ.next) (step line : Nat)
    (hprim : ∀ a ∈ stateAddrs (createStateS M step line).2 (createStateS M step line).1,
        Option.all cellNoStoredRefs ((createStateS M step line).2.get a) = true)
    (fuel : Nat) (ops : List EngineOp) :
    readState (applyOps { M with σ := (createStateS M step line).2 } ops).σ fuel
        (createStateS M step line).1
      = readState (createStateS M step line).2 fuel (createStateS M step line).1 := by
  have hinv := snapInv_applyOps (createStateS M step line).2
    (stateAddrs (createStateS M step line).2 (createStateS M step line).1) ops
    { M with σ := (createStateS M step line).2 }
    (snapInv_init M step line hlive)
  exact readState_agrees _ _ _ fuel hinv.1 hprim

/-- C3 amended, witness: the theorem applied to a concrete machine and a
concrete operation sequence that includes a post-emission
reference-seating write; both hypotheses are checked by evaluation. -/
theorem c3_deep_copy_amended_witness :
    readState (applyOps { c3wMachine with σ := (createStateS c3wMachine 0 1).2 } c3wOps).σ 3
        (createStateS c3wMachine 0 1).1
      = readState (createStateS c3wMachine 0 1).2 3 (createStateS c3wMachine 0 1).1 :=
  c3_deep_copy_amended c3wMachine (by decide) 0 1 (by decide) 3 c3wOps

end CodeVizStore
